import Mathlib

/-!
# Export file generator: `Source/cmExportFileGenerator.cxx`

A shallow embedding of the target-reference resolver, the interface property
populator and the include-directory validator of `cmExportFileGenerator`.

* `std::string` is a list of characters (`Str`); `find`, `substr` and
  `replace` are embedded with their offset arithmetic, `npos` is `none`.
* By-reference out-parameters (`std::string &input`,
  `std::vector<std::string> &missingTargets`, `ImportPropertyMap &properties`)
  are returned as components of the result.
* `IssueMessage` appends to an explicit message log.
* Functions of other translation units (`cmMakefile::FindTargetToUse`,
  `cmGeneratorExpression::Split`, `cmSystemTools::FileIsFullPath`, the
  `HandleMissingTarget` override, ...) are fields of collaborator records.
-/

set_option autoImplicit false

/-- A `std::string`: a sequence of characters addressed by offset. -/
abbrev Str := List Char

/-! ## `std::string` primitives -/

/-- Offset of the first occurrence of `pat` in `s`, if there is one. -/
def findFirst (pat : Str) : Str → Option Nat
  | [] => if pat = [] then some 0 else none
  | c :: cs =>
    if pat.isPrefixOf (c :: cs) then some 0 else (findFirst pat cs).map (· + 1)

/-- `s.find(pat, pos)`: offset of the first occurrence of `pat` at or after
`pos`; `none` stands for `npos`. -/
def strFind (s pat : Str) (pos : Nat) : Option Nat :=
  if pos ≤ s.length then (findFirst pat (s.drop pos)).map (· + pos) else none

/-- `s.substr(pos, n)`. -/
def strSubstr (s : Str) (pos n : Nat) : Str :=
  (s.drop pos).take n

/-- `s.replace(pos, n, r)`: the `n` characters from offset `pos` give way to `r`. -/
def strReplace (s : Str) (pos n : Nat) (r : Str) : Str :=
  s.take pos ++ r ++ s.drop (pos + n)

/-- `a < b` on offsets where `a` may be `npos` (the largest `size_type`). -/
def nposLt : Option Nat → Nat → Bool
  | none, _ => false
  | some a, b => decide (a < b)

/-! ## Data model -/

/-- `cmPolicies::PolicyStatus`. -/
inductive PolicyStatus where
  | OLD
  | WARN
  | NEW
  | REQUIRED_IF_USED
  | REQUIRED_ALWAYS
  deriving DecidableEq, Repr

/-- `cmake::MessageType`, the two severities the generator issues. -/
inductive MessageType where
  | FATAL_ERROR
  | WARNING
  deriving DecidableEq, Repr

/-- `cmTarget::TargetType`. -/
inductive TargetType where
  | EXECUTABLE
  | STATIC_LIBRARY
  | SHARED_LIBRARY
  | MODULE_LIBRARY
  | OBJECT_LIBRARY
  | UTILITY
  | GLOBAL_TARGET
  | INTERFACE_LIBRARY
  | UNKNOWN_LIBRARY
  deriving DecidableEq, Repr

/-- `cmGeneratorExpression::PreprocessContext`. -/
inductive PreprocessContext where
  | StripAllGeneratorExpressions
  | BuildInterface
  | InstallInterface
  deriving DecidableEq, Repr

/-- `FreeTargetsReplace` of `cmExportFileGenerator`. -/
inductive FreeTargetsReplace where
  | ReplaceFreeTargets
  | NoReplaceFreeTargets
  deriving DecidableEq, Repr

/-- A message handed to `cmMakefile::IssueMessage`. -/
abbrev Message := MessageType × Str

/-- The part of a `cmTarget` the generator reads. -/
structure cmTarget where
  /-- `GetName()`. -/
  Name : Str
  /-- `GetExportName()`. -/
  ExportName : Str
  /-- `IsImported()`. -/
  Imported : Bool := false
  /-- `GetType()`. -/
  GetType : TargetType := TargetType.STATIC_LIBRARY
  /-- `IsLinkable()`. -/
  Linkable : Bool := true
  /-- The raw property map behind `GetProperty`. -/
  Properties : List (Str × Str) := []
  /-- `GetPolicyStatusCMP0041()`. -/
  PolicyStatusCMP0041 : PolicyStatus := PolicyStatus.WARN
  /-- `GetPolicyStatusCMP0022()`. -/
  PolicyStatusCMP0022 : PolicyStatus := PolicyStatus.WARN
  deriving DecidableEq

/-- `target->GetProperty(prop)`: `none` is the null pointer. -/
def cmTarget.GetProperty (t : cmTarget) (prop : Str) : Option Str :=
  t.Properties.lookup prop

/-- The part of the `cmMakefile` of the referring target that the generator
reads. -/
structure cmMakefile where
  /-- `FindTargetToUse(name)`: `none` is the null pointer. -/
  FindTargetToUse : Str → Option cmTarget
  /-- `GetSafeDefinition("CMAKE_INSTALL_PREFIX")`. -/
  InstallPrefix : Str := []
  /-- `GetHomeDirectory()`. -/
  HomeDirectory : Str := []
  /-- `GetHomeOutputDirectory()`. -/
  HomeOutputDirectory : Str := []
  /-- `GetPolicies()->GetPolicyWarning(cmPolicies::CMP0041)`. -/
  PolicyWarningCMP0041 : Str := []

/-- The state of a `cmExportFileGenerator` the resolver reads, with the pure
virtual `HandleMissingTarget(link_libs, missingTargets, mf, depender,
dependee)` as a field: it maps the two by-reference arguments to their new
values. -/
structure cmExportFileGenerator where
  /-- `this->Namespace`. -/
  Namespace : Str
  /-- `this->ExportedTargets`. -/
  ExportedTargets : List cmTarget
  /-- `this->ExportOld`. -/
  ExportOld : Bool := false
  /-- The override of the pure virtual `HandleMissingTarget`. -/
  HandleMissingTarget :
    Str → List Str → cmMakefile → cmTarget → cmTarget → Str × List Str

/-! ## `AddTargetNamespace` (lines 534-566) -/

/-- `cmExportFileGenerator::AddTargetNamespace(input, target, missingTargets)`
with `mf = target->GetMakefile()`. The result is the returned flag, the new
`input` and the new `missingTargets`. -/
def cmExportFileGenerator.AddTargetNamespace (gen : cmExportFileGenerator)
    (mf : cmMakefile) (input : Str) (target : cmTarget)
    (missingTargets : List Str) : Bool × Str × List Str :=
  match mf.FindTargetToUse input with
  | none => (false, input, missingTargets)
  | some tgt =>
    if tgt.Imported then (true, input, missingTargets)
    else if tgt ∈ gen.ExportedTargets then
      (true, gen.Namespace ++ tgt.ExportName, missingTargets)
    else
      let r := gen.HandleMissingTarget [] missingTargets mf target tgt
      if r.1 ≠ [] then (true, r.1, r.2) else (true, input, r.2)

/-- Modelled from the spec: the `HandleMissingTarget` overrides live in the
build-tree and install-tree generators, which are not part of this file. The
spec (4.2, 6, 8) has the original, un-namespaced name of the referenced target
appended to MissingTargets, each distinct name once, and a best-effort
substitute, possibly empty, supplied for the reference; `substitute` is that
supplier. -/
def handleMissingTargetSpec (substitute : cmTarget → Str) :
    Str → List Str → cmMakefile → cmTarget → cmTarget → Str × List Str :=
  fun link_libs missingTargets _ _ dependee =>
    (link_libs ++ substitute dependee,
      if dependee.Name ∈ missingTargets then missingTargets
      else missingTargets ++ [dependee.Name])

/-! ## Collaborators from other translation units -/

/-- The static functions of `cmGeneratorExpression` the generator calls; their
code is in another translation unit. -/
structure cmGeneratorExpression where
  /-- `Split(input, output)`: the items of a list value. -/
  Split : Str → List Str
  /-- `Find(input)`: offset of the first generator expression, `none` for
  `npos`. -/
  Find : Str → Option Nat
  /-- `Preprocess(input, context, resolveRelative)`. -/
  Preprocess : Str → PreprocessContext → Bool → Str
  /-- `Parse(dirs)` followed by `Evaluate(mf, "", false, target)`: the value,
  and `GetHadContextSensitiveCondition()`. -/
  Evaluate : Str → cmTarget → Str × Bool

/-- The static functions of `cmSystemTools` the generator calls. -/
structure cmSystemTools where
  /-- `FileIsFullPath(name)`. -/
  FileIsFullPath : Str → Bool
  /-- `ComparePath(a, b)`. -/
  ComparePath : Str → Str → Bool
  /-- `IsSubDirectory(a, b)`. -/
  IsSubDirectory : Str → Str → Bool

/-- Modelled from the spec: `cmHasLiteralPrefix` is a macro of a header that is
not part of this file; by its name and its use on the install-prefix
placeholder token (spec 4.3) it tells whether `s` starts with the literal
`lit`. -/
def cmHasLiteralPrefix (s lit : Str) : Bool :=
  lit.isPrefixOf s

/-! ## `ResolveTargetsInGeneratorExpression` (lines 606-686) -/

/-- `cmExportFileGenerator::ReplaceInstallPrefix`: the base class does
nothing. -/
def cmExportFileGenerator.ReplaceInstallPrefix (_gen : cmExportFileGenerator)
    (input : Str) : Str :=
  input

/-- The `while` loop over `$<TARGET_PROPERTY:` (lines 617-641), one iteration
per unit of fuel; the state is `input`, `lastPos` and `missingTargets`. `none`
means the fuel ran out before the loop ended. -/
def cmExportFileGenerator.targetPropertyLoop (gen : cmExportFileGenerator)
    (mf : cmMakefile) (target : cmTarget) :
    Nat → Str → Nat → List Str → Option (Str × List Str)
  | 0, _, _, _ => none
  | fuel + 1, input, lastPos, missingTargets =>
    match strFind input "$<TARGET_PROPERTY:".toList lastPos with
    | none => some (input, missingTargets)
    | some pos =>
      let nameStartPos := pos + "$<TARGET_PROPERTY:".toList.length
      let closePos := strFind input ">".toList nameStartPos
      let commaPos := strFind input ",".toList nameStartPos
      let nextOpenPos := strFind input "$<".toList nameStartPos
      match commaPos with
      | none => gen.targetPropertyLoop mf target fuel input nameStartPos missingTargets
      | some comma =>
        if closePos = none ∨ nposLt closePos comma = true
            ∨ nposLt nextOpenPos comma = true then
          gen.targetPropertyLoop mf target fuel input nameStartPos missingTargets
        else
          let targetName := strSubstr input nameStartPos (comma - nameStartPos)
          let r := gen.AddTargetNamespace mf targetName target missingTargets
          let input1 :=
            if r.1 then strReplace input nameStartPos (comma - nameStartPos) r.2.1
            else input
          gen.targetPropertyLoop mf target fuel input1
            (nameStartPos + r.2.1.length + 1) r.2.2

/-- The `while` loop over `$<TARGET_NAME:` (lines 646-671), one iteration per
unit of fuel; the result is `input`, `missingTargets` and `errorString`. `none`
means the fuel ran out before the loop ended. -/
def cmExportFileGenerator.targetNameLoop (gen : cmExportFileGenerator)
    (mf : cmMakefile) (target : cmTarget) :
    Nat → Str → Nat → List Str → Option (Str × List Str × Str)
  | 0, _, _, _ => none
  | fuel + 1, input, lastPos, missingTargets =>
    match strFind input "$<TARGET_NAME:".toList lastPos with
    | none => some (input, missingTargets, [])
    | some pos =>
      let nameStartPos := pos + "$<TARGET_NAME:".toList.length
      match strFind input ">".toList nameStartPos with
      | none =>
        some (input, missingTargets,
          "$<TARGET_NAME:...> expression incomplete".toList)
      | some endPos =>
        let targetName := strSubstr input nameStartPos (endPos - nameStartPos)
        if strFind targetName "$<".toList 0 ≠ none then
          some (input, missingTargets,
            "$<TARGET_NAME:...> requires its parameter to be a literal.".toList)
        else
          let r := gen.AddTargetNamespace mf targetName target missingTargets
          if r.1 = false then
            some (input, r.2.2,
              "$<TARGET_NAME:...> requires its parameter to be a reachable target.".toList)
          else
            gen.targetNameLoop mf target fuel
              (strReplace input pos (endPos - pos + 1) r.2.1) endPos r.2.2

/-- `cmExportFileGenerator::ResolveTargetsInGeneratorExpression(input, target,
missingTargets)`: the new `input`, the new `missingTargets` and the messages
issued. Each of the two loops gets `fuel` iterations; `none` means one of them
did not end within that. -/
def cmExportFileGenerator.ResolveTargetsInGeneratorExpression
    (gen : cmExportFileGenerator) (mf : cmMakefile) (fuel : Nat) (input : Str)
    (target : cmTarget) (missingTargets : List Str) :
    Option (Str × List Str × List Message) :=
  match gen.targetPropertyLoop mf target fuel input 0 missingTargets with
  | none => none
  | some (input1, missing1) =>
    match gen.targetNameLoop mf target fuel input1 0 missing1 with
    | none => none
    | some (input2, missing2, errorString) =>
      some (gen.ReplaceInstallPrefix input2, missing2,
        if errorString ≠ [] then [(MessageType.FATAL_ERROR, errorString)] else [])

/-- The `for` loop over `parts` of `ResolveTargetsInGeneratorExpressions`
(lines 586-602); the state is `input`, `sep`, `missingTargets` and the
messages issued so far. -/
def cmExportFileGenerator.resolveParts (gen : cmExportFileGenerator)
    (mf : cmMakefile) (ge : cmGeneratorExpression) (fuel : Nat)
    (target : cmTarget) :
    List Str → Str → Str → List Str → List Message →
      Option (Str × List Str × List Message)
  | [], input, _, missingTargets, msgs => some (input, missingTargets, msgs)
  | li :: rest, input, sep, missingTargets, msgs =>
    if ge.Find li = none then
      let r := gen.AddTargetNamespace mf li target missingTargets
      gen.resolveParts mf ge fuel target rest (input ++ (sep ++ r.2.1))
        ";".toList r.2.2 msgs
    else
      match gen.ResolveTargetsInGeneratorExpression mf fuel li target
          missingTargets with
      | none => none
      | some (li1, missing1, m) =>
        gen.resolveParts mf ge fuel target rest (input ++ (sep ++ li1))
          ";".toList missing1 (msgs ++ m)

/-- `cmExportFileGenerator::ResolveTargetsInGeneratorExpressions(input, target,
missingTargets, replace)` (lines 569-603). -/
def cmExportFileGenerator.ResolveTargetsInGeneratorExpressions
    (gen : cmExportFileGenerator) (mf : cmMakefile) (ge : cmGeneratorExpression)
    (fuel : Nat) (input : Str) (target : cmTarget) (missingTargets : List Str)
    (replace : FreeTargetsReplace) : Option (Str × List Str × List Message) :=
  match replace with
  | FreeTargetsReplace.NoReplaceFreeTargets =>
    gen.ResolveTargetsInGeneratorExpression mf fuel input target missingTargets
  | FreeTargetsReplace.ReplaceFreeTargets =>
    gen.resolveParts mf ge fuel target (ge.Split input) [] [] missingTargets []

/-! ## `ImportPropertyMap` -/

/-- `std::string::operator<`: lexicographic order on the character codes. -/
def strLess : Str → Str → Bool
  | [], [] => false
  | [], _ :: _ => true
  | _ :: _, [] => false
  | a :: as, b :: bs =>
    if a.toNat < b.toNat then true
    else if b.toNat < a.toNat then false
    else strLess as bs

/-- `ImportPropertyMap`, a `std::map<std::string, std::string>`: the entries
in ascending key order. -/
abbrev ImportPropertyMap := List (Str × Str)

/-- `properties[key] = value`. -/
def mapAssign : ImportPropertyMap → Str → Str → ImportPropertyMap
  | [], key, value => [(key, value)]
  | (k, v) :: rest, key, value =>
    if key = k then (key, value) :: rest
    else if strLess key k then (key, value) :: (k, v) :: rest
    else (k, v) :: mapAssign rest key value

/-- `properties.find(key)`: the value stored under `key`, if any. -/
def mapFind (properties : ImportPropertyMap) (key : Str) : Option Str :=
  properties.lookup key

/-! ## Interface property population (lines 139-216, 397-406) -/

/-- `cmExportFileGenerator::PopulateInterfaceProperty(propName, target,
properties)`, the three-argument overload (lines 139-149). -/
def cmExportFileGenerator.PopulateInterfaceProperty3
    (_gen : cmExportFileGenerator) (propName : Str) (target : cmTarget)
    (properties : ImportPropertyMap) : ImportPropertyMap :=
  match target.GetProperty propName with
  | some input => mapAssign properties propName input
  | none => properties

/-- `cmExportFileGenerator::PopulateInterfaceProperty(propName, outputName,
target, preprocessRule, properties, missingTargets)` (lines 152-179): the new
`properties`, the new `missingTargets` and the messages issued. -/
def cmExportFileGenerator.PopulateInterfaceProperty
    (gen : cmExportFileGenerator) (mf : cmMakefile) (ge : cmGeneratorExpression)
    (fuel : Nat) (propName outputName : Str) (target : cmTarget)
    (preprocessRule : PreprocessContext) (properties : ImportPropertyMap)
    (missingTargets : List Str) :
    Option (ImportPropertyMap × List Str × List Message) :=
  match target.GetProperty propName with
  | none => some (properties, missingTargets, [])
  | some input =>
    if input = [] then
      some (mapAssign properties outputName [], missingTargets, [])
    else
      let prepro := ge.Preprocess input preprocessRule false
      if prepro ≠ [] then
        match gen.ResolveTargetsInGeneratorExpressions mf ge fuel prepro target
            missingTargets FreeTargetsReplace.NoReplaceFreeTargets with
        | none => none
        | some (prepro1, missing1, msgs) =>
          some (mapAssign properties outputName prepro1, missing1, msgs)
      else some (properties, missingTargets, [])

/-- `cmExportFileGenerator::PopulateInterfaceLinkLibrariesProperty` (lines
191-216): the returned flag, the new `properties`, the new `missingTargets`
and the messages issued. -/
def cmExportFileGenerator.PopulateInterfaceLinkLibrariesProperty
    (gen : cmExportFileGenerator) (mf : cmMakefile) (ge : cmGeneratorExpression)
    (fuel : Nat) (target : cmTarget) (preprocessRule : PreprocessContext)
    (properties : ImportPropertyMap) (missingTargets : List Str) :
    Option (Bool × ImportPropertyMap × List Str × List Message) :=
  if target.Linkable = false then some (false, properties, missingTargets, [])
  else
    match target.GetProperty "INTERFACE_LINK_LIBRARIES".toList with
    | none => some (false, properties, missingTargets, [])
    | some input =>
      let prepro := ge.Preprocess input preprocessRule false
      if prepro ≠ [] then
        match gen.ResolveTargetsInGeneratorExpressions mf ge fuel prepro target
            missingTargets FreeTargetsReplace.ReplaceFreeTargets with
        | none => none
        | some (prepro1, missing1, msgs) =>
          some (true, mapAssign properties "INTERFACE_LINK_LIBRARIES".toList prepro1,
            missing1, msgs)
      else some (false, properties, missingTargets, [])

/-! ## Include directories (lines 218-394) -/

/-- The static `isSubDirectory(a, b)` (lines 219-223). -/
def isSubDirectory (st : cmSystemTools) (a b : Str) : Bool :=
  st.ComparePath a b || st.IsSubDirectory a b

/-- The text streamed into `e` for a relative path (lines 275-277). -/
def relativePathText (target : cmTarget) (li : Str) : Str :=
  "Target \"".toList ++ target.Name ++ "\" ".toList
    ++ "INTERFACE_INCLUDE_DIRECTORIES property contains relative path:\n".toList
    ++ "  \"".toList ++ li ++ "\"".toList

/-- The text streamed into `e` for a path in the build directory (lines
287-289). -/
def buildDirText (target : cmTarget) (li : Str) : Str :=
  "Target \"".toList ++ target.Name ++ "\" ".toList
    ++ "INTERFACE_INCLUDE_DIRECTORIES property contains path:\n".toList
    ++ "  \"".toList ++ li ++ "\"\nwhich is prefixed in the build directory.".toList

/-- The text streamed into `e` for a path in the source directory (lines
296-298). -/
def sourceDirText (target : cmTarget) (li : Str) : Str :=
  "Target \"".toList ++ target.Name ++ "\" ".toList
    ++ "INTERFACE_INCLUDE_DIRECTORIES property contains path:\n".toList
    ++ "  \"".toList ++ li ++ "\"\nwhich is prefixed in the source directory.".toList

/-- Lines 273-301 of `checkInterfaceDirs`: the three path checks on one item,
from the message type and the stream `e` the policy switch left. The messages
issued are appended to `msgs`. -/
def checkInterfaceDirsPaths (st : cmSystemTools) (mf : cmMakefile)
    (target : cmTarget) (li : Str) (messageType : MessageType) (e : Str)
    (msgs : List Message) : List Message :=
  let inSourceBuild := decide (mf.HomeDirectory = mf.HomeOutputDirectory)
  let e1 := if st.FileIsFullPath li = false then e ++ relativePathText target li else e
  let msgs1 := if st.FileIsFullPath li = false then msgs ++ [(messageType, e1)] else msgs
  if isSubDirectory st li mf.InstallPrefix
      && isSubDirectory st mf.InstallPrefix mf.HomeOutputDirectory then msgs1
  else
    let e2 := if isSubDirectory st li mf.HomeOutputDirectory then
      e1 ++ buildDirText target li else e1
    let msgs2 := if isSubDirectory st li mf.HomeOutputDirectory then
      msgs1 ++ [(messageType, e2)] else msgs1
    if inSourceBuild = false then
      if isSubDirectory st li mf.HomeDirectory then
        msgs2 ++ [(messageType, e2 ++ sourceDirText target li)]
      else msgs2
    else msgs2

/-- One iteration of the `for` loop of `checkInterfaceDirs` (lines 244-301) on
the item `li`; the state is `hadFatalError` and the messages issued so far.
`policy` is what the `switch` leaves: `none` for its `continue`, else the
message type, the stream `e` and `hadFatalError`. -/
def checkInterfaceDirsItem (st : cmSystemTools) (ge : cmGeneratorExpression)
    (mf : cmMakefile) (target : cmTarget) (li : Str)
    (state : Bool × List Message) : Bool × List Message :=
  let genexPos := ge.Find li
  if genexPos = some 0 then state
  else
    let policy : Option (MessageType × Str × Bool) :=
      if genexPos ≠ none then
        match target.PolicyStatusCMP0041 with
        | PolicyStatus.WARN =>
          some (MessageType.WARNING, mf.PolicyWarningCMP0041 ++ "\n".toList, state.1)
        | PolicyStatus.OLD => none
        | PolicyStatus.REQUIRED_IF_USED => some (MessageType.FATAL_ERROR, [], true)
        | PolicyStatus.REQUIRED_ALWAYS => some (MessageType.FATAL_ERROR, [], true)
        | PolicyStatus.NEW => some (MessageType.FATAL_ERROR, [], true)
      else some (MessageType.FATAL_ERROR, [], state.1)
    match policy with
    | none => state
    | some (messageType, e, hadFatalError) =>
      if cmHasLiteralPrefix li "$\x7b_IMPORT_PREFIX\x7d".toList then
        (hadFatalError, state.2)
      else
        (hadFatalError, checkInterfaceDirsPaths st mf target li messageType e state.2)

/-- The static `checkInterfaceDirs(prepro, target)` (lines 226-304): the
returned flag and the messages issued. -/
def checkInterfaceDirs (st : cmSystemTools) (ge : cmGeneratorExpression)
    (mf : cmMakefile) (prepro : Str) (target : cmTarget) : Bool × List Message :=
  let r := (ge.Split prepro).foldl
    (fun state li => checkInterfaceDirsItem st ge mf target li state) (false, [])
  (!r.1, r.2)

/-- The loop of `prefixItems` (lines 313-324); the state is `exportDirs` and
`sep`. -/
def prefixItemsLoop (st : cmSystemTools) : List Str → Str → Str → Str
  | [], exportDirs, _ => exportDirs
  | ei :: rest, exportDirs, sep =>
    let dirs1 := exportDirs ++ sep
    let dirs2 :=
      if st.FileIsFullPath ei = false
          ∧ strFind ei "$\x7b_IMPORT_PREFIX\x7d".toList 0 = none then
        dirs1 ++ "$\x7b_IMPORT_PREFIX\x7d/".toList
      else dirs1
    prefixItemsLoop st rest (dirs2 ++ ei) ";".toList

/-- The static `prefixItems(exportDirs)` (lines 307-325). -/
def prefixItems (st : cmSystemTools) (ge : cmGeneratorExpression)
    (exportDirs : Str) : Str :=
  prefixItemsLoop st (ge.Split exportDirs) [] []

/-- The part of a `cmTargetExport` the generator reads. -/
structure cmTargetExport where
  /-- `tei->Target`. -/
  Target : cmTarget
  /-- `tei->InterfaceIncludeDirectories`. -/
  InterfaceIncludeDirectories : Str := []

/-- The message of lines 356-359. -/
def contextSensitiveText (target : cmTarget) : Str :=
  "Target \"".toList ++ target.Name ++ "\" is installed with ".toList
    ++ "INCLUDES DESTINATION set to a context sensitive path.  Paths which ".toList
    ++ "depend on the configuration, policy values or the link interface are ".toList
    ++ "not supported.  Consider using target_include_directories instead.".toList

/-- `cmExportFileGenerator::PopulateIncludeDirectoriesInterface(tei,
preprocessRule, properties, missingTargets)` (lines 328-394) with
`mf = target->GetMakefile()`: the new `properties`, the new `missingTargets`
and the messages issued. The `assert` on `preprocessRule` is a precondition
of the caller. -/
def cmExportFileGenerator.PopulateIncludeDirectoriesInterface
    (gen : cmExportFileGenerator) (mf : cmMakefile) (st : cmSystemTools)
    (ge : cmGeneratorExpression) (fuel : Nat) (tei : cmTargetExport)
    (preprocessRule : PreprocessContext) (properties : ImportPropertyMap)
    (missingTargets : List Str) :
    Option (ImportPropertyMap × List Str × List Message) :=
  let target := tei.Target
  let propName := "INTERFACE_INCLUDE_DIRECTORIES".toList
  let input := target.GetProperty propName
  let dirs := gen.ReplaceInstallPrefix
    (ge.Preprocess tei.InterfaceIncludeDirectories preprocessRule true)
  let evaluated := ge.Evaluate dirs target
  let exportDirs := evaluated.1
  if evaluated.2 = true then
    some (properties, missingTargets,
      [(MessageType.FATAL_ERROR, contextSensitiveText target)])
  else if input = none ∧ exportDirs = [] then
    some (properties, missingTargets, [])
  else if input = some [] ∧ exportDirs = [] then
    some (mapAssign properties propName [], missingTargets, [])
  else
    let exportDirs1 := prefixItems st ge exportDirs
    let includes := (input.getD []) ++ ((if input ≠ none then ";".toList else []) ++ exportDirs1)
    let prepro := ge.Preprocess includes preprocessRule true
    if prepro ≠ [] then
      match gen.ResolveTargetsInGeneratorExpressions mf ge fuel prepro target
          missingTargets FreeTargetsReplace.NoReplaceFreeTargets with
      | none => none
      | some (prepro1, missing1, msgs) =>
        let checked := checkInterfaceDirs st ge mf prepro1 target
        if checked.1 = false then some (properties, missing1, msgs ++ checked.2)
        else some (mapAssign properties propName prepro1, missing1, msgs ++ checked.2)
    else some (properties, missingTargets, [])

/-! ## A concrete project

Two exported targets `a` and `b`, a target `ext` of the same project that is
in no export set, an imported target `imp`; the namespace is `Pkg::`. -/

/-- The exported target `a`. -/
def demoA : cmTarget := { Name := "a".toList, ExportName := "a".toList }

/-- The exported target `b`. -/
def demoB : cmTarget := { Name := "b".toList, ExportName := "b".toList }

/-- A target of the project that is not in the export set. -/
def demoExt : cmTarget := { Name := "ext".toList, ExportName := "ext".toList }

/-- An imported target. -/
def demoImp : cmTarget :=
  { Name := "imp".toList, ExportName := "imp".toList, Imported := true }

/-- The makefile of the concrete project: `FindTargetToUse` finds the four
targets by name. -/
def demoMakefile : cmMakefile :=
  { FindTargetToUse := fun name =>
      [demoA, demoB, demoExt, demoImp].find? (fun t => decide (t.Name = name))
    InstallPrefix := "/usr/local".toList
    HomeDirectory := "/src".toList
    HomeOutputDirectory := "/build".toList
    PolicyWarningCMP0041 := "Policy CMP0041 is not set".toList }

/-- The generator of the export set `{a, b}` with namespace `Pkg::`; the
handler of missing targets supplies `Other::` followed by the export name. -/
def demoGenerator : cmExportFileGenerator :=
  { Namespace := "Pkg::".toList
    ExportedTargets := [demoA, demoB]
    HandleMissingTarget :=
      handleMissingTargetSpec (fun t => "Other::".toList ++ t.ExportName) }

/-- Modelled from the spec: `cmGeneratorExpression::Split` is in another
translation unit; the spec (4.1) has it split a value on its separators into
the ordered sequence of items. This is the split on `;` that drops empty
items, for values with no `;` inside an expression. The state is the list of
finished items (last first) and the item being read. -/
def splitOnSemicolon : Str → List Str → Str → List Str
  | [], done, cur => (if cur = [] then done else cur :: done).reverse
  | c :: cs, done, cur =>
    if c = ';' then splitOnSemicolon cs (if cur = [] then done else cur :: done) []
    else splitOnSemicolon cs done (cur ++ [c])

/-- Modelled from the spec: `cmGeneratorExpression::Find` is in another
translation unit; the spec (4.1) has `findExpressionStart(item)` give the
offset of the expression, if any: the offset of the first `$<` that a `>`
follows. -/
def findExpressionStart (input : Str) : Option Nat :=
  match strFind input "$<".toList 0 with
  | none => none
  | some openpos =>
    if strFind input ">".toList openpos ≠ none then some openpos else none

/-- The expression collaborators of the concrete project: preprocessing and
evaluation leave a value without expressions as it is. -/
def demoExpression : cmGeneratorExpression :=
  { Split := fun input => splitOnSemicolon input [] []
    Find := findExpressionStart
    Preprocess := fun input _ _ => input
    Evaluate := fun dirs _ => (dirs, false) }

/-- Modelled from the spec: the path predicates of `cmSystemTools` are in
another translation unit; following the spec (4.5) a full path starts with
`/`, two paths compare equal when they are the same text, and `a` is a
subdirectory of `b` when `a` starts with `b` followed by `/`. -/
def demoSystemTools : cmSystemTools :=
  { FileIsFullPath := fun name => "/".toList.isPrefixOf name
    ComparePath := fun a b => decide (a = b)
    IsSubDirectory := fun a b => (b ++ "/".toList).isPrefixOf a }

/-- The target `core` of the concrete project: an unset, an empty and a
relative-path property; policy CMP0041 is NEW. -/
def demoCore : cmTarget :=
  { Name := "core".toList
    ExportName := "core".toList
    Properties :=
      [("INTERFACE_COMPILE_OPTIONS".toList, []),
       ("INTERFACE_INCLUDE_DIRECTORIES".toList, "include".toList)]
    PolicyStatusCMP0041 := PolicyStatus.NEW }

/-- The target `core` with policy CMP0041 set to OLD. -/
def demoCoreOld : cmTarget :=
  { demoCore with PolicyStatusCMP0041 := PolicyStatus.OLD }

/-! ## A big-step view of the `$<TARGET_PROPERTY:` loop

The loop never looks at the text before `lastPos` again, so one iteration is
a statement about the text from `lastPos` on. -/

/-- The test of lines 624-627 on the text `rest` that follows
`$<TARGET_PROPERTY:`: true when the construct is skipped as an implied
`this` target, an incomplete expression or a non-literal name. -/
def impliedThisTarget (rest : Str) : Bool :=
  match findFirst ",".toList rest with
  | none => true
  | some commaPos =>
    decide (findFirst ">".toList rest = none)
      || nposLt (findFirst ">".toList rest) commaPos
      || nposLt (findFirst "$<".toList rest) commaPos

/-- The `$<TARGET_PROPERTY:` loop as a relation between the text and
`missingTargets` at `lastPos` and at the end of the loop: no further
construct (`done`), a skipped construct (`skip`), a construct whose name goes
through `AddTargetNamespace` (`name`). `opener` is the text up to and
including the first `$<TARGET_PROPERTY:`. -/
inductive cmExportFileGenerator.TargetPropertyRewrite
    (gen : cmExportFileGenerator) (mf : cmMakefile) (target : cmTarget) :
    Str → List Str → Str → List Str → Prop where
  | done (s : Str) (m : List Str) :
      findFirst "$<TARGET_PROPERTY:".toList s = none →
      cmExportFileGenerator.TargetPropertyRewrite gen mf target s m s m
  | skip (opener rest y : Str) (m m1 : List Str) (p : Nat) :
      findFirst "$<TARGET_PROPERTY:".toList (opener ++ rest) = some p →
      opener.length = p + 18 →
      impliedThisTarget rest = true →
      cmExportFileGenerator.TargetPropertyRewrite gen mf target rest m y m1 →
      cmExportFileGenerator.TargetPropertyRewrite gen mf target
        (opener ++ rest) m (opener ++ y) m1
  | name (opener name tail y : Str) (m m1 : List Str) (p : Nat) :
      findFirst "$<TARGET_PROPERTY:".toList (opener ++ (name ++ ',' :: tail)) = some p →
      opener.length = p + 18 →
      findFirst ",".toList (name ++ ',' :: tail) = some name.length →
      impliedThisTarget (name ++ ',' :: tail) = false →
      cmExportFileGenerator.TargetPropertyRewrite gen mf target tail
        (gen.AddTargetNamespace mf name target m).2.2 y m1 →
      cmExportFileGenerator.TargetPropertyRewrite gen mf target
        (opener ++ (name ++ ',' :: tail)) m
        (opener ++ ((gen.AddTargetNamespace mf name target m).2.1 ++ ',' :: y)) m1

/-- A name the `$<TARGET_PROPERTY:` loop accepts as literal: it holds no `,`,
no `>` and no `$<`. -/
def literalName (n : Str) : Prop :=
  ',' ∉ n ∧ '>' ∉ n ∧ findFirst "$<".toList n = none

instance : DecidablePred literalName := fun n => by
  unfold literalName
  exact inferInstance

/-- The text the loop of `ResolveTargetsInGeneratorExpressions` builds from
the rewritten items (`input += sep + *li; sep = ";"`), from the state `input`
and `sep`. -/
def joinItems : List Str → Str → Str → Str
  | [], input, _ => input
  | li :: rest, input, sep => joinItems rest (input ++ (sep ++ li)) ";".toList

/-! ## A project whose export names chain

The export set `{a, b}` with an empty namespace, where `a` is exported under
the name `b` and `b` under the name `c`. -/

/-- The target `a`, exported as `b`. -/
def chainA : cmTarget := { Name := "a".toList, ExportName := "b".toList }

/-- The target `b`, exported as `c`. -/
def chainB : cmTarget := { Name := "b".toList, ExportName := "c".toList }

/-- The makefile of the chained project. -/
def chainMakefile : cmMakefile :=
  { FindTargetToUse := fun name =>
      [chainA, chainB].find? (fun t => decide (t.Name = name)) }

/-- The generator of the chained project: no namespace. -/
def chainGenerator : cmExportFileGenerator :=
  { Namespace := []
    ExportedTargets := [chainA, chainB]
    HandleMissingTarget := handleMissingTargetSpec (fun _ => []) }

/-- A value of the concrete project: a `$<TARGET_PROPERTY:` construct on the
exported target `a`, and the bare name of the exported target `b`. -/
def demoValue : Str := "$<TARGET_PROPERTY:a,INTERFACE_X>;b".toList

/-! ## `std::set<std::string>` -/

/-- A `std::set<std::string>`: its elements in ascending order. -/
abbrev StrSet := List Str

/-- `set.insert(x)`: the set with `x`, in ascending order, each element once. -/
def setInsert : StrSet → Str → StrSet
  | [], x => [x]
  | y :: rest, x =>
    if x = y then y :: rest
    else if strLess x y then x :: y :: rest
    else y :: setInsert rest x

/-! ## The rest of the build-description model -/

/-- `cmTarget::LinkInterface`, the fields the generator reads. -/
structure LinkInterface where
  /-- `iface->Libraries`. -/
  Libraries : List Str := []
  /-- `iface->Languages`. -/
  Languages : List Str := []
  /-- `iface->SharedDeps`. -/
  SharedDeps : List Str := []
  /-- `iface->Multiplicity`. -/
  Multiplicity : Nat := 0
  /-- `iface->ImplementationIsInterface`. -/
  ImplementationIsInterface : Bool := false
  deriving DecidableEq

/-- Member functions of `cmTarget`, `cmMakefile`, `cmSystemTools` and of the
generator subclasses that the per-configuration code calls; their code is in
other translation units. -/
structure cmBuildModel where
  /-- `cmSystemTools::ExpandListArgument(p, content)`: the elements of a list
  value. -/
  ExpandListArgument : Str → List Str
  /-- `cmSystemTools::UpperCase(config)`. -/
  UpperCase : Str → Str
  /-- `mf->IsOn(name)`. -/
  IsOn : Str → Bool
  /-- `mf->GetConfigurations(configNames)`. -/
  GetConfigurations : List Str
  /-- `target->HasSOName(config)`. -/
  HasSOName : cmTarget → Str → Bool
  /-- `target->GetSOName(config)`. -/
  GetSOName : cmTarget → Str → Str
  /-- `target->GetLinkInterface(config, target)`: `none` is the null pointer. -/
  GetLinkInterface : cmTarget → Str → Option LinkInterface
  /-- `target->GetLinkInformation(config)` followed by `info->GetItems()`: the
  `Target` pointer of each item, `none` for a null one; the outer `none` is a
  null `info`. -/
  GetLinkInformation : cmTarget → Str → Option (List (Option cmTarget))
  /-- The override of the pure virtual `InstallNameDir(target, config)`. -/
  InstallNameDir : cmTarget → Str → Str

/-! ## Compatible interface properties (lines 409-512) -/

/-- `getPropertyContents(tgt, prop, ifaceProperties)` (lines 410-425). -/
def getPropertyContents (bm : cmBuildModel) (tgt : cmTarget) (prop : Str)
    (ifaceProperties : StrSet) : StrSet :=
  match tgt.GetProperty prop with
  | none => ifaceProperties
  | some p => (bm.ExpandListArgument p).foldl setInsert ifaceProperties

/-- The four calls of `getPropertyContents` on one target (lines 454-465 and
485-490). -/
def getPropertyContents4 (bm : cmBuildModel) (tgt : cmTarget)
    (ifaceProperties : StrSet) : StrSet :=
  getPropertyContents bm tgt "COMPATIBLE_INTERFACE_NUMBER_MAX".toList
    (getPropertyContents bm tgt "COMPATIBLE_INTERFACE_NUMBER_MIN".toList
      (getPropertyContents bm tgt "COMPATIBLE_INTERFACE_STRING".toList
        (getPropertyContents bm tgt "COMPATIBLE_INTERFACE_BOOL".toList
          ifaceProperties)))

/-- The message of lines 438-439. -/
def linkerLanguageText (target : cmTarget) : Str :=
  "Exporting the target \"".toList ++ target.Name ++ "\" is not ".toList
    ++ "allowed since its linker language cannot be determined".toList

/-- `getCompatibleInterfaceProperties(target, ifaceProperties, config)` (lines
428-467): the new `ifaceProperties` and the messages issued. -/
def getCompatibleInterfaceProperties (bm : cmBuildModel) (target : cmTarget)
    (ifaceProperties : StrSet) (config : Str) : StrSet × List Message :=
  match bm.GetLinkInformation target config with
  | none => (ifaceProperties, [(MessageType.FATAL_ERROR, linkerLanguageText target)])
  | some deps =>
    (deps.foldl
      (fun s li =>
        match li with
        | none => s
        | some t => getPropertyContents4 bm t s)
      ifaceProperties, [])

/-- The names gathered by lines 483-504 of
`PopulateCompatibleInterfaceProperties` in `ifaceProperties`, and the
messages issued. -/
def compatibleInterfaceNames (bm : cmBuildModel) (target : cmTarget) :
    StrSet × List Message :=
  let own := getPropertyContents4 bm target []
  if target.GetType ≠ TargetType.INTERFACE_LIBRARY then
    ([] :: bm.GetConfigurations).foldl
      (fun state config =>
        let r := getCompatibleInterfaceProperties bm target state.1 config
        (r.1, state.2 ++ r.2))
      (own, [])
  else (own, [])

/-- `cmExportFileGenerator::PopulateCompatibleInterfaceProperties(target,
properties)` (lines 470-512): the new `properties` and the messages issued. -/
def cmExportFileGenerator.PopulateCompatibleInterfaceProperties
    (gen : cmExportFileGenerator) (bm : cmBuildModel) (target : cmTarget)
    (properties : ImportPropertyMap) : ImportPropertyMap × List Message :=
  let p1 := gen.PopulateInterfaceProperty3 "COMPATIBLE_INTERFACE_BOOL".toList target properties
  let p2 := gen.PopulateInterfaceProperty3 "COMPATIBLE_INTERFACE_STRING".toList target p1
  let p3 := gen.PopulateInterfaceProperty3 "COMPATIBLE_INTERFACE_NUMBER_MIN".toList target p2
  let p4 := gen.PopulateInterfaceProperty3 "COMPATIBLE_INTERFACE_NUMBER_MAX".toList target p3
  let names := compatibleInterfaceNames bm target
  (names.1.foldl
    (fun p it => gen.PopulateInterfaceProperty3 ("INTERFACE_".toList ++ it) target p) p4,
    names.2)

/-! ## Per-configuration import details (lines 119-136, 689-864) -/

/-- The property suffix `GenerateImportConfig` constructs for `config` (lines
123-132). -/
def GenerateImportConfigSuffix (bm : cmBuildModel) (config : Str) : Str :=
  "_".toList ++ (if config ≠ [] then bm.UpperCase config else "NOCONFIG".toList)

/-- The loop of `SetImportLinkProperty` (lines 848-858); the state is
`link_entries`, `sep` and `missingTargets`. -/
def cmExportFileGenerator.linkEntriesLoop (gen : cmExportFileGenerator)
    (mf : cmMakefile) (target : cmTarget) :
    List Str → Str → Str → List Str → Str × List Str
  | [], link_entries, _, missingTargets => (link_entries, missingTargets)
  | li :: rest, link_entries, sep, missingTargets =>
    let r := gen.AddTargetNamespace mf li target missingTargets
    gen.linkEntriesLoop mf target rest ((link_entries ++ sep) ++ r.2.1)
      ";".toList r.2.2

/-- `cmExportFileGenerator::SetImportLinkProperty(suffix, target, propName,
entries, properties, missingTargets)` (lines 829-864): the new `properties`
and the new `missingTargets`. -/
def cmExportFileGenerator.SetImportLinkProperty (gen : cmExportFileGenerator)
    (mf : cmMakefile) (suffix : Str) (target : cmTarget) (propName : Str)
    (entries : List Str) (properties : ImportPropertyMap)
    (missingTargets : List Str) : ImportPropertyMap × List Str :=
  if entries = [] then (properties, missingTargets)
  else
    let r := gen.linkEntriesLoop mf target entries [] [] missingTargets
    (mapAssign properties (propName ++ suffix) r.1, r.2)

/-- The message of lines 738-741. -/
def oldStyleLinkInterfaceText (target : cmTarget) : Str :=
  "Target \"".toList ++ target.Name ++ "\" has policy CMP0022 enabled, ".toList
    ++ "but also has old-style LINK_INTERFACE_LIBRARIES properties ".toList
    ++ "populated, but it was exported without the ".toList
    ++ "EXPORT_LINK_INTERFACE_LIBRARIES to export the old-style properties".toList

/-- `cmExportFileGenerator::SetImportLinkInterface(config, suffix,
preprocessRule, target, properties, missingTargets)` (lines 689-761): the new
`properties`, the new `missingTargets` and the messages issued. -/
def cmExportFileGenerator.SetImportLinkInterface (gen : cmExportFileGenerator)
    (mf : cmMakefile) (ge : cmGeneratorExpression) (bm : cmBuildModel)
    (fuel : Nat) (config suffix : Str) (preprocessRule : PreprocessContext)
    (target : cmTarget) (properties : ImportPropertyMap)
    (missingTargets : List Str) :
    Option (ImportPropertyMap × List Str × List Message) :=
  match bm.GetLinkInterface target config with
  | none => some (properties, missingTargets, [])
  | some iface =>
    if iface.ImplementationIsInterface = true then
      let r := gen.SetImportLinkProperty mf suffix target
        "IMPORTED_LINK_INTERFACE_LIBRARIES".toList iface.Libraries properties
        missingTargets
      some (r.1, r.2, [])
    else
      let legacy : Option Str :=
        match target.GetProperty ("LINK_INTERFACE_LIBRARIES".toList ++ suffix) with
        | some prop_suffixed => some prop_suffixed
        | none => target.GetProperty "LINK_INTERFACE_LIBRARIES".toList
      match legacy with
      | none => some (properties, missingTargets, [])
      | some propContent =>
        let newCMP0022Behavior :=
          decide (target.PolicyStatusCMP0022 ≠ PolicyStatus.WARN)
            && decide (target.PolicyStatusCMP0022 ≠ PolicyStatus.OLD)
        if newCMP0022Behavior = true ∧ gen.ExportOld = false then
          some (properties, missingTargets,
            [(MessageType.FATAL_ERROR, oldStyleLinkInterfaceText target)])
        else if propContent = [] then
          some (mapAssign properties
            ("IMPORTED_LINK_INTERFACE_LIBRARIES".toList ++ suffix) [],
            missingTargets, [])
        else
          let prepro := ge.Preprocess propContent preprocessRule false
          if prepro ≠ [] then
            match gen.ResolveTargetsInGeneratorExpressions mf ge fuel prepro
                target missingTargets FreeTargetsReplace.ReplaceFreeTargets with
            | none => none
            | some (prepro1, missing1, msgs) =>
              some (mapAssign properties
                ("IMPORTED_LINK_INTERFACE_LIBRARIES".toList ++ suffix) prepro1,
                missing1, msgs)
          else some (properties, missingTargets, [])

/-- The soname part of `SetImportDetailProperties` (lines 775-801): the new
`properties`. -/
def sonameProperties (bm : cmBuildModel) (config suffix : Str) (target : cmTarget)
    (properties : ImportPropertyMap) : ImportPropertyMap :=
  let dll_platform :=
    bm.IsOn "WIN32".toList || bm.IsOn "CYGWIN".toList || bm.IsOn "MINGW".toList
  if target.GetType = TargetType.SHARED_LIBRARY
      ∨ target.GetType = TargetType.MODULE_LIBRARY then
    if dll_platform = false then
      if bm.HasSOName target config = true then
        mapAssign properties ("IMPORTED_SONAME".toList ++ suffix)
          ((if bm.IsOn "CMAKE_PLATFORM_HAS_INSTALLNAME".toList = true then
              bm.InstallNameDir target config else [])
            ++ bm.GetSOName target config)
      else
        mapAssign properties ("IMPORTED_NO_SONAME".toList ++ suffix) "TRUE".toList
    else properties
  else properties

/-- `cmExportFileGenerator::SetImportDetailProperties(config, suffix, target,
properties, missingTargets)` (lines 764-826): the new `properties` and the new
`missingTargets`. -/
def cmExportFileGenerator.SetImportDetailProperties
    (gen : cmExportFileGenerator) (mf : cmMakefile) (bm : cmBuildModel)
    (config suffix : Str) (target : cmTarget) (properties : ImportPropertyMap)
    (missingTargets : List Str) : ImportPropertyMap × List Str :=
  let properties1 := sonameProperties bm config suffix target properties
  match bm.GetLinkInterface target config with
  | none => (properties1, missingTargets)
  | some iface =>
    let r1 := gen.SetImportLinkProperty mf suffix target
      "IMPORTED_LINK_INTERFACE_LANGUAGES".toList iface.Languages properties1
      missingTargets
    let r2 := gen.SetImportLinkProperty mf suffix target
      "IMPORTED_LINK_DEPENDENT_LIBRARIES".toList iface.SharedDeps r1.1 []
    let properties3 :=
      if iface.Multiplicity > 0 then
        mapAssign r2.1 ("IMPORTED_LINK_INTERFACE_MULTIPLICITY".toList ++ suffix)
          (Nat.repr iface.Multiplicity).toList
      else r2.1
    (properties3, r1.2)

/-! ## Script emission (lines 515-531, 1002-1084)

A function that writes to `std::ostream& os` returns the text it appends. -/

/-- The lines `  KEY "VALUE"` the loops of lines 524-528 and 1028-1032 write
for the entries of `properties`, in the order of the map. -/
def propertyLines : ImportPropertyMap → Str
  | [] => []
  | pi :: rest =>
    ("  ".toList ++ pi.1 ++ " \"".toList ++ pi.2 ++ "\"\n".toList)
      ++ propertyLines rest

/-- `cmExportFileGenerator::GenerateInterfaceProperties(target, os,
properties)` (lines 515-531). -/
def cmExportFileGenerator.GenerateInterfaceProperties
    (gen : cmExportFileGenerator) (target : cmTarget)
    (properties : ImportPropertyMap) : Str :=
  if properties ≠ [] then
    let targetName := gen.Namespace ++ target.ExportName
    "set_target_properties(".toList ++ targetName ++ " PROPERTIES\n".toList
      ++ propertyLines properties ++ ")\n\n".toList
  else []

/-- `cmExportFileGenerator::GenerateImportPropertyCode(os, config, target,
properties)` (lines 1002-1035). -/
def cmExportFileGenerator.GenerateImportPropertyCode
    (gen : cmExportFileGenerator) (bm : cmBuildModel) (config : Str)
    (target : cmTarget) (properties : ImportPropertyMap) : Str :=
  let targetName := gen.Namespace ++ target.ExportName
  "# Import target \"".toList ++ targetName ++ "\" for configuration \"".toList
    ++ config ++ "\"\n".toList
    ++ "set_property(TARGET ".toList ++ targetName
    ++ " APPEND PROPERTY IMPORTED_CONFIGURATIONS ".toList
    ++ (if config ≠ [] then bm.UpperCase config else "NOCONFIG".toList)
    ++ ")\n".toList
    ++ "set_target_properties(".toList ++ targetName ++ " PROPERTIES\n".toList
    ++ propertyLines properties
    ++ "  )\n".toList ++ "\n".toList

/-- The text `GenerateMissingTargetsCheckCode` writes for an empty
`missingTargets` (lines 1044-1046). -/
def noMissingTargetsText : Str :=
  ("# This file does not depend on other imported targets which have\n"
    ++ "# been exported from the same project but in a separate "
    ++ "export set.\n\n").toList

/-- The text before the names of the missing targets (lines 1049-1052). -/
def missingTargetsHead : Str :=
  ("# Make sure the targets which have been exported in some other \n"
    ++ "# export set exist.\n"
    ++ "unset($\x7bCMAKE_FIND_PACKAGE_NAME\x7d_NOT_FOUND_MESSAGE_targets)\n"
    ++ "foreach(_target ").toList

/-- The text after the names of the missing targets (lines 1061-1083). -/
def missingTargetsTail : Str :=
  (")\n"
    ++ "  if(NOT TARGET \"$\x7b_target\x7d\" )\n"
    ++ "    set($\x7bCMAKE_FIND_PACKAGE_NAME\x7d_NOT_FOUND_MESSAGE_targets \""
    ++ "$\x7b$\x7bCMAKE_FIND_PACKAGE_NAME\x7d_NOT_FOUND_MESSAGE_targets\x7d $\x7b_target\x7d\")"
    ++ "\n"
    ++ "  endif()\n"
    ++ "endforeach()\n"
    ++ "\n"
    ++ "if(DEFINED $\x7bCMAKE_FIND_PACKAGE_NAME\x7d_NOT_FOUND_MESSAGE_targets)\n"
    ++ "  if(CMAKE_FIND_PACKAGE_NAME)\n"
    ++ "    set( $\x7bCMAKE_FIND_PACKAGE_NAME\x7d_FOUND FALSE)\n"
    ++ "    set( $\x7bCMAKE_FIND_PACKAGE_NAME\x7d_NOT_FOUND_MESSAGE "
    ++ "\"The following imported targets are "
    ++ "referenced, but are missing: "
    ++ "$\x7b$\x7bCMAKE_FIND_PACKAGE_NAME\x7d_NOT_FOUND_MESSAGE_targets\x7d\")\n"
    ++ "  else()\n"
    ++ "    message(FATAL_ERROR \"The following imported targets are "
    ++ "referenced, but are missing: "
    ++ "$\x7b$\x7bCMAKE_FIND_PACKAGE_NAME\x7d_NOT_FOUND_MESSAGE_targets\x7d\")\n"
    ++ "  endif()\n"
    ++ "endif()\n"
    ++ "unset($\x7bCMAKE_FIND_PACKAGE_NAME\x7d_NOT_FOUND_MESSAGE_targets)\n"
    ++ "\n").toList

/-- The loop of lines 1053-1060 of `GenerateMissingTargetsCheckCode`; the
state is the text written so far and the set `emitted`. A name is written
when `emitted.insert` reports it as new. -/
def missingTargetsLoop : List Str → Str → StrSet → Str
  | [], os, _ => os
  | t :: rest, os, emitted =>
    if t ∈ emitted then missingTargetsLoop rest os emitted
    else
      missingTargetsLoop rest (os ++ ("\"".toList ++ t ++ "\" ".toList))
        (setInsert emitted t)

/-- `cmExportFileGenerator::GenerateMissingTargetsCheckCode(os,
missingTargets)` (lines 1039-1084). -/
def cmExportFileGenerator.GenerateMissingTargetsCheckCode
    (_gen : cmExportFileGenerator) (missingTargets : List Str) : Str :=
  if missingTargets = [] then noMissingTargetsText
  else missingTargetsLoop missingTargets missingTargetsHead [] ++ missingTargetsTail

/-! ## Further concrete projects -/

/-- A makefile whose install prefix holds a generator expression and lies
under the build directory `/build`. -/
def stageMakefile : cmMakefile :=
  { demoMakefile with InstallPrefix := "/build/stage-$<CONFIG>".toList }

/-- The same makefile with the plain install prefix `/build/stage`. -/
def plainStageMakefile : cmMakefile :=
  { demoMakefile with InstallPrefix := "/build/stage".toList }

/-- A makefile whose build directory `/src/build` lies in the source
directory `/src`, with the install prefix `/src/build/install`. -/
def nestedMakefile : cmMakefile :=
  { demoMakefile with
    InstallPrefix := "/src/build/install".toList
    HomeDirectory := "/src".toList
    HomeOutputDirectory := "/src/build".toList }

/-- A makefile of an in-source build in `/src`. -/
def inSourceMakefile : cmMakefile :=
  { demoMakefile with
    HomeDirectory := "/src".toList
    HomeOutputDirectory := "/src".toList }

/-- A target whose `INTERFACE_LINK_LIBRARIES` names the exported target `a`,
the target `ext` outside the export set, a library that is no target, and the
location of `b` through an expression. -/
def demoLinked : cmTarget :=
  { Name := "linked".toList
    ExportName := "linked".toList
    Properties :=
      [("INTERFACE_LINK_LIBRARIES".toList, "a;ext;m;$<TARGET_PROPERTY:b,LOCATION>".toList)] }

/-- A target that is not linkable, with `INTERFACE_LINK_LIBRARIES` set. -/
def demoNotLinkable : cmTarget :=
  { demoLinked with Linkable := false }

/-! ## Predicates on the data -/

/-- The invariant of a `std::map`: the keys of the entries ascend strictly. -/
def mapOrdered (properties : ImportPropertyMap) : Prop :=
  List.Pairwise (fun a b => strLess a.1 b.1 = true) properties

instance : DecidablePred mapOrdered := fun properties => by
  unfold mapOrdered
  exact inferInstance

/-- The names one target lists in its four `COMPATIBLE_INTERFACE_*`
properties, as a plain list: the union the set `ifaceProperties` is compared
with. -/
def declaredCompatibleNames (bm : cmBuildModel) (tgt : cmTarget) : List Str :=
  ["COMPATIBLE_INTERFACE_BOOL".toList, "COMPATIBLE_INTERFACE_STRING".toList,
    "COMPATIBLE_INTERFACE_NUMBER_MIN".toList,
    "COMPATIBLE_INTERFACE_NUMBER_MAX".toList].flatMap
    (fun prop =>
      match tgt.GetProperty prop with
      | none => []
      | some p => bm.ExpandListArgument p)

/-! ## A concrete build model -/

/-- The dependency `depA`, which lists `FOO` in `COMPATIBLE_INTERFACE_BOOL`. -/
def demoDepA : cmTarget :=
  { Name := "depA".toList
    ExportName := "depA".toList
    Properties := [("COMPATIBLE_INTERFACE_BOOL".toList, "FOO".toList)] }

/-- The dependency `depB`, which lists nothing. -/
def demoDepB : cmTarget := { Name := "depB".toList, ExportName := "depB".toList }

/-- The target `consumer`, which links `depA` and `depB` and has the property
`FOO` set, `INTERFACE_FOO` unset. -/
def demoConsumer : cmTarget :=
  { Name := "consumer".toList
    ExportName := "consumer".toList
    Properties := [("FOO".toList, "ON".toList)] }

/-- The target `consumer` with `INTERFACE_FOO` set and `FOO` unset. -/
def demoConsumerInterface : cmTarget :=
  { Name := "consumer".toList
    ExportName := "consumer".toList
    Properties := [("INTERFACE_FOO".toList, "ON".toList)] }

/-- The shared library `shared`. -/
def demoShared : cmTarget :=
  { Name := "shared".toList
    ExportName := "shared".toList
    GetType := TargetType.SHARED_LIBRARY }

/-- The static library `nolibs`, whose link interface has no library. -/
def demoNoLibs : cmTarget := { Name := "nolibs".toList, ExportName := "nolibs".toList }

/-- The target `legacy` with policy CMP0022 set to OLD, whose
`LINK_INTERFACE_LIBRARIES` names an unknown target. -/
def demoLegacy : cmTarget :=
  { Name := "legacy".toList
    ExportName := "legacy".toList
    Properties := [("LINK_INTERFACE_LIBRARIES".toList, "$<TARGET_NAME:nosuch>".toList)]
    PolicyStatusCMP0022 := PolicyStatus.OLD }

/-- The target `legacy` with policy CMP0022 set to NEW and an empty
`LINK_INTERFACE_LIBRARIES`. -/
def demoLegacyNew : cmTarget :=
  { Name := "legacy".toList
    ExportName := "legacy".toList
    Properties := [("LINK_INTERFACE_LIBRARIES".toList, [])]
    PolicyStatusCMP0022 := PolicyStatus.NEW }

/-- Modelled from the spec: the member functions gathered in `cmBuildModel`
are in other translation units. Following the spec (2, 4.6, 5) a list value
is split on `;`, a configuration name is upper-cased letter by letter, the
declared configurations are `Debug` and `Release`, the platform is not a DLL
platform, a soname exists in `Release` only, `consumer` links `depA` and
`depB`, the link interface of `shared` is its implementation with the
libraries `a` and `ext`, that of `nolibs` is its implementation with no
library, and that of `legacy` is not its implementation. -/
def demoBuildModel : cmBuildModel :=
  { ExpandListArgument := fun p => splitOnSemicolon p [] []
    UpperCase := fun s => s.map Char.toUpper
    IsOn := fun _ => false
    GetConfigurations := ["Debug".toList, "Release".toList]
    HasSOName := fun _ config => decide (config = "Release".toList)
    GetSOName := fun _ _ => "libshared.so.1".toList
    GetLinkInterface := fun t _ =>
      if t.Name = "shared".toList then
        some { Libraries := ["a".toList, "ext".toList], ImplementationIsInterface := true }
      else if t.Name = "nolibs".toList then
        some { ImplementationIsInterface := true }
      else if t.Name = "legacy".toList then some {}
      else none
    GetLinkInformation := fun t _ =>
      if t.Name = "consumer".toList then some [some demoDepA, none, some demoDepB]
      else some []
    InstallNameDir := fun _ _ => [] }

/-! ## Creation of the imported target (lines 937-999) -/

/-- Predicates of `cmTarget` that `GenerateImportTargetCode` reads; their code
is in another translation unit. -/
structure cmTargetMarks where
  /-- `target->IsExecutableWithExports()`. -/
  IsExecutableWithExports : cmTarget → Bool
  /-- `target->IsFrameworkOnApple()`. -/
  IsFrameworkOnApple : cmTarget → Bool
  /-- `target->IsAppBundleOnApple()`. -/
  IsAppBundleOnApple : cmTarget → Bool
  /-- `target->IsCFBundleOnApple()`. -/
  IsCFBundleOnApple : cmTarget → Bool

/-- The `switch` of lines 948-971: the statement that creates the imported
target `targetName` of the given kind; nothing for the other kinds. -/
def creationStatement (kind : TargetType) (targetName : Str) : Str :=
  match kind with
  | TargetType.EXECUTABLE =>
    "add_executable(".toList ++ targetName ++ " IMPORTED)\n".toList
  | TargetType.STATIC_LIBRARY =>
    "add_library(".toList ++ targetName ++ " STATIC IMPORTED)\n".toList
  | TargetType.SHARED_LIBRARY =>
    "add_library(".toList ++ targetName ++ " SHARED IMPORTED)\n".toList
  | TargetType.MODULE_LIBRARY =>
    "add_library(".toList ++ targetName ++ " MODULE IMPORTED)\n".toList
  | TargetType.UNKNOWN_LIBRARY =>
    "add_library(".toList ++ targetName ++ " UNKNOWN IMPORTED)\n".toList
  | TargetType.INTERFACE_LIBRARY =>
    "add_library(".toList ++ targetName ++ " INTERFACE IMPORTED)\n".toList
  | _ => []

/-- One of the four `set_property` statements of lines 974-997, written when
`mark` holds. -/
def markStatement (mark : Bool) (targetName property : Str) : List Str :=
  if mark = true then
    ["set_property(TARGET ".toList ++ targetName ++ " PROPERTY ".toList ++ property
      ++ " 1)\n".toList]
  else []

/-- The statements of lines 974-997, in the order they are written. -/
def markStatements (marks : cmTargetMarks) (target : cmTarget)
    (targetName : Str) : List Str :=
  markStatement (marks.IsExecutableWithExports target) targetName "ENABLE_EXPORTS".toList
    ++ markStatement (marks.IsFrameworkOnApple target) targetName "FRAMEWORK".toList
    ++ markStatement (marks.IsAppBundleOnApple target) targetName "MACOSX_BUNDLE".toList
    ++ markStatement (marks.IsCFBundleOnApple target) targetName "BUNDLE".toList

/-- `cmExportFileGenerator::GenerateImportTargetCode(os, target)` (lines
937-999). -/
def cmExportFileGenerator.GenerateImportTargetCode (gen : cmExportFileGenerator)
    (marks : cmTargetMarks) (target : cmTarget) : Str :=
  let targetName := gen.Namespace ++ target.ExportName
  "# Create imported target ".toList ++ targetName ++ "\n".toList
    ++ creationStatement target.GetType targetName
    ++ (markStatements marks target targetName).flatten
    ++ "\n".toList

/-! ## Further concrete data -/

/-- Marks of the concrete project: an executable has exports, nothing is an
Apple bundle or framework. -/
def demoMarks : cmTargetMarks :=
  { IsExecutableWithExports := fun t => decide (t.GetType = TargetType.EXECUTABLE)
    IsFrameworkOnApple := fun _ => false
    IsAppBundleOnApple := fun _ => false
    IsCFBundleOnApple := fun _ => false }

/-- The executable `tool`. -/
def demoTool : cmTarget :=
  { Name := "tool".toList, ExportName := "tool".toList,
    GetType := TargetType.EXECUTABLE }

/-- The makefile of a project whose only target is the static library
`core`. -/
def coreMakefile : cmMakefile :=
  { demoMakefile with
    FindTargetToUse := fun name =>
      if name = "core".toList then some demoCore else none }

/-- The generator of the export set `{core}` with namespace `Pkg::`. -/
def coreGenerator : cmExportFileGenerator :=
  { demoGenerator with ExportedTargets := [demoCore] }

/-- A build model in which every target has a link interface with the
language `CXX` and the shared dependencies `ext` and `a`. -/
def sharedDepsModel : cmBuildModel :=
  { demoBuildModel with
    GetLinkInterface := fun _ _ =>
      some { Languages := ["CXX".toList], SharedDeps := ["ext".toList, "a".toList] } }

/-- The first occurrence: `pat` starts at offset `i` and at no smaller offset. -/
theorem findFirst_eq_some_iff (pat s : Str) (i : Nat) :
    findFirst pat s = some i
      ↔ i ≤ s.length ∧ pat <+: s.drop i ∧ ∀ j, j < i → ¬ pat <+: s.drop j := by
  induction s generalizing i with
  | nil =>
    by_cases hp : pat = []
    · subst hp
      simp only [findFirst, if_true, Option.some.injEq, List.length_nil, List.drop_nil]
      constructor
      · intro h; subst h; simp
      · rintro ⟨h, -, -⟩; omega
    · simp [findFirst, hp]
  | cons c cs ih =>
    unfold findFirst
    by_cases hpre : pat.isPrefixOf (c :: cs) = true
    · have hpre2 : pat <+: c :: cs := List.isPrefixOf_iff_prefix.1 hpre
      simp only [hpre, if_true, Option.some.injEq]
      constructor
      · intro h; subst h; simp [hpre2]
      · rintro ⟨-, -, h3⟩
        by_contra hne
        exact h3 0 (by omega) (by simpa using hpre2)
    · have hpre2 : ¬ pat <+: c :: cs := fun h => hpre (List.isPrefixOf_iff_prefix.2 h)
      simp only [hpre, Bool.false_eq_true, if_false, Option.map_eq_some']
      constructor
      · rintro ⟨i', hi', rfl⟩
        obtain ⟨h1, h2, h3⟩ := (ih i').1 hi'
        refine ⟨by simp; omega, by simpa using h2, ?_⟩
        intro j hj
        cases j with
        | zero => simpa using hpre2
        | succ j' => simpa using h3 j' (by omega)
      · rintro ⟨h1, h2, h3⟩
        cases i with
        | zero => exact absurd (by simpa using h2) hpre2
        | succ i' =>
          refine ⟨i', (ih i').2 ⟨by simpa using h1, by simpa using h2, ?_⟩, rfl⟩
          intro j hj
          simpa using h3 (j + 1) (by omega)

/-- No occurrence: `pat` starts at no offset of `s`. -/
theorem findFirst_eq_none_iff (pat s : Str) :
    findFirst pat s = none ↔ ∀ j, j ≤ s.length → ¬ pat <+: s.drop j := by
  induction s with
  | nil =>
    by_cases hp : pat = []
    · subst hp; simp [findFirst]
    · simp [findFirst, hp]
  | cons c cs ih =>
    unfold findFirst
    by_cases hpre : pat.isPrefixOf (c :: cs) = true
    · have hpre2 : pat <+: c :: cs := List.isPrefixOf_iff_prefix.1 hpre
      simp only [hpre, if_true]
      constructor
      · intro h; cases h
      · intro h; exact absurd (by simpa using hpre2) (h 0 (by simp))
    · have hpre2 : ¬ pat <+: c :: cs := fun h => hpre (List.isPrefixOf_iff_prefix.2 h)
      simp only [hpre, Bool.false_eq_true, if_false, Option.map_eq_none']
      rw [ih]
      constructor
      · intro h j hj
        cases j with
        | zero => simpa using hpre2
        | succ j' => simpa using h j' (by simpa using hj)
      · intro h j hj
        simpa using h (j + 1) (by simpa using hj)

/-- An occurrence lies within the text. -/
theorem findFirst_some_bound (pat s : Str) (i : Nat)
    (h : findFirst pat s = some i) : i + pat.length ≤ s.length := by
  obtain ⟨h1, h2, -⟩ := (findFirst_eq_some_iff pat s i).1 h
  have := h2.length_le
  simp at this
  omega

/-- An occurrence at `j` puts the first occurrence at or before `j`. -/
theorem findFirst_le_of_prefix (pat s : Str) (j : Nat) (hj : j ≤ s.length)
    (h : pat <+: s.drop j) : ∃ i, i ≤ j ∧ findFirst pat s = some i := by
  cases hf : findFirst pat s with
  | none => exact absurd h ((findFirst_eq_none_iff pat s).1 hf j hj)
  | some i =>
    refine ⟨i, ?_, rfl⟩
    by_contra hlt
    exact ((findFirst_eq_some_iff pat s i).1 hf).2.2 j (by omega) h

/-- A `find` from offset 0 is the first occurrence. -/
theorem strFind_zero (s pat : Str) : strFind s pat 0 = findFirst pat s := by
  simp [strFind]

/-- A `find` from `pos` is the first occurrence in the text from `pos` on, shifted by `pos`. -/
theorem strFind_of_le (s pat : Str) (pos : Nat) (h : pos ≤ s.length) :
    strFind s pat pos = (findFirst pat (s.drop pos)).map (· + pos) := by
  simp [strFind, h]

/-- Text before `lastPos` only shifts what `find` returns. -/
theorem strFind_shift (pre s pat : Str) (k : Nat) :
    strFind (pre ++ s) pat (pre.length + k)
      = (strFind s pat k).map (· + pre.length) := by
  unfold strFind
  by_cases hk : k ≤ s.length
  · have h1 : pre.length + k ≤ (pre ++ s).length := by simp; omega
    simp only [h1, hk, if_true, List.drop_append, Option.map_map]
    congr 1
    funext i
    simp only [Function.comp]
    omega
  · have h1 : ¬ pre.length + k ≤ (pre ++ s).length := by simp; omega
    simp [h1, hk]

/-- Text before the offset does not change a `substr`. -/
theorem strSubstr_shift (pre s : Str) (pos n : Nat) :
    strSubstr (pre ++ s) (pre.length + pos) n = strSubstr s pos n := by
  simp [strSubstr, List.drop_append]

/-- Text before the offset is left alone by `replace`. -/
theorem strReplace_shift (pre s r : Str) (pos n : Nat) :
    strReplace (pre ++ s) (pre.length + pos) n r = pre ++ strReplace s pos n r := by
  unfold strReplace
  have h1 : (pre ++ s).take (pre.length + pos) = pre ++ s.take pos := by
    simp [List.take_append]
  have h2 : (pre ++ s).drop (pre.length + pos + n) = s.drop (pos + n) := by
    rw [Nat.add_assoc, List.drop_append]
  rw [h1, h2]
  simp [List.append_assoc]

/-- Comparing offsets is invariant under a common shift. -/
theorem nposLt_shift (x : Option Nat) (a b : Nat) :
    nposLt (x.map (· + a)) (b + a) = nposLt x b := by
  cases x <;> simp [nposLt]

/-- The `$<TARGET_PROPERTY:` loop never looks at the text before `lastPos`: it carries it along unchanged. -/
theorem targetPropertyLoop_shift (gen : cmExportFileGenerator) (mf : cmMakefile)
    (target : cmTarget) (fuel : Nat) (pre s : Str) (k : Nat) (m : List Str) :
    gen.targetPropertyLoop mf target fuel (pre ++ s) (pre.length + k) m
      = (gen.targetPropertyLoop mf target fuel s k m).map
          (fun r => (pre ++ r.1, r.2)) := by
  induction fuel generalizing s k m with
  | zero => simp [cmExportFileGenerator.targetPropertyLoop]
  | succ fuel ih =>
    unfold cmExportFileGenerator.targetPropertyLoop
    generalize hL : "$<TARGET_PROPERTY:".toList = L
    generalize hgt : ">".toList = gt
    generalize hcomma : ",".toList = cm
    generalize hopen : "$<".toList = op
    rw [strFind_shift]
    cases hfind : strFind s L k with
    | none => simp
    | some pos =>
      simp only [Option.map_some']
      have e1 : pos + pre.length + L.length = pre.length + (pos + L.length) := by omega
      rw [e1, strFind_shift, strFind_shift, strFind_shift]
      cases hc : strFind s cm (pos + L.length) with
      | none => simp only [Option.map_none']; exact ih _ _ _
      | some comma =>
        simp only [Option.map_some']
        have e2 : comma + pre.length - (pre.length + (pos + L.length))
            = comma - (pos + L.length) := by omega
        rw [nposLt_shift, nposLt_shift, e2, strSubstr_shift, strReplace_shift]
        have e3 : (strFind s gt (pos + L.length)).map (· + pre.length) = none
            ↔ strFind s gt (pos + L.length) = none := by simp
        simp only [e3]
        have e4 : ∀ n : Nat, pre.length + (pos + L.length) + n + 1
            = pre.length + (pos + L.length + n + 1) := by intro n; omega
        split_ifs with hskip hr
        · exact ih _ _ _
        · rw [e4]; exact ih _ _ _
        · rw [e4]; exact ih _ _ _

/-- When `AddTargetNamespace` returns false it has changed neither the name nor `missingTargets`. -/
theorem AddTargetNamespace_false (gen : cmExportFileGenerator) (mf : cmMakefile)
    (n : Str) (target : cmTarget) (m : List Str)
    (h : (gen.AddTargetNamespace mf n target m).1 = false) :
    (gen.AddTargetNamespace mf n target m).2.1 = n
      ∧ (gen.AddTargetNamespace mf n target m).2.2 = m := by
  unfold cmExportFileGenerator.AddTargetNamespace at h ⊢
  cases hf : mf.FindTargetToUse n with
  | none => simp
  | some tgt =>
    rw [hf] at h
    simp only at h
    split_ifs at h

/-- The character at the offset `find` returns for a one-character pattern. -/
theorem drop_of_findFirst_char (c : Char) (s : Str) (i : Nat)
    (h : findFirst [c] s = some i) : s.drop i = c :: s.drop (i + 1) := by
  obtain ⟨h1, h2, -⟩ := (findFirst_eq_some_iff [c] s i).1 h
  obtain ⟨t, ht⟩ := h2
  have : s.drop (i + 1) = t := by
    rw [← List.drop_drop, ← ht]
    simp
  rw [this, ← ht]
  simp

/-- One iteration of the `$<TARGET_PROPERTY:` loop. -/
theorem targetPropertyLoop_succ (gen : cmExportFileGenerator)
    (mf : cmMakefile) (target : cmTarget) (fuel : Nat) (input : Str)
    (lastPos : Nat) (missingTargets : List Str) :
    gen.targetPropertyLoop mf target (fuel + 1) input lastPos missingTargets
      = match strFind input "$<TARGET_PROPERTY:".toList lastPos with
        | none => some (input, missingTargets)
        | some pos =>
          match strFind input ",".toList (pos + "$<TARGET_PROPERTY:".toList.length) with
          | none => gen.targetPropertyLoop mf target fuel input
              (pos + "$<TARGET_PROPERTY:".toList.length) missingTargets
          | some comma =>
            if strFind input ">".toList (pos + "$<TARGET_PROPERTY:".toList.length) = none
                ∨ nposLt (strFind input ">".toList
                    (pos + "$<TARGET_PROPERTY:".toList.length)) comma = true
                ∨ nposLt (strFind input "$<".toList
                    (pos + "$<TARGET_PROPERTY:".toList.length)) comma = true then
              gen.targetPropertyLoop mf target fuel input
                (pos + "$<TARGET_PROPERTY:".toList.length) missingTargets
            else
              gen.targetPropertyLoop mf target fuel
                (if (gen.AddTargetNamespace mf
                      (strSubstr input (pos + "$<TARGET_PROPERTY:".toList.length)
                        (comma - (pos + "$<TARGET_PROPERTY:".toList.length)))
                      target missingTargets).1 = true then
                  strReplace input (pos + "$<TARGET_PROPERTY:".toList.length)
                    (comma - (pos + "$<TARGET_PROPERTY:".toList.length))
                    (gen.AddTargetNamespace mf
                      (strSubstr input (pos + "$<TARGET_PROPERTY:".toList.length)
                        (comma - (pos + "$<TARGET_PROPERTY:".toList.length)))
                      target missingTargets).2.1
                else input)
                (pos + "$<TARGET_PROPERTY:".toList.length
                  + (gen.AddTargetNamespace mf
                      (strSubstr input (pos + "$<TARGET_PROPERTY:".toList.length)
                        (comma - (pos + "$<TARGET_PROPERTY:".toList.length)))
                      target missingTargets).2.1.length + 1)
                (gen.AddTargetNamespace mf
                  (strSubstr input (pos + "$<TARGET_PROPERTY:".toList.length)
                    (comma - (pos + "$<TARGET_PROPERTY:".toList.length)))
                  target missingTargets).2.2 := by
  rw [cmExportFileGenerator.targetPropertyLoop]

/-- The loop ends when no `$<TARGET_PROPERTY:` is left. -/
theorem targetPropertyLoop_step_none (gen : cmExportFileGenerator)
    (mf : cmMakefile) (target : cmTarget) (fuel : Nat) (s : Str) (m : List Str)
    (hL : findFirst "$<TARGET_PROPERTY:".toList s = none) :
    gen.targetPropertyLoop mf target (fuel + 1) s 0 m = some (s, m) := by
  rw [targetPropertyLoop_succ, strFind_zero, hL]

/-- A skipped construct: the loop goes on with the text after `$<TARGET_PROPERTY:`, given the test of lines 624-627 holds for it. -/
theorem targetPropertyLoop_step_skip (gen : cmExportFileGenerator)
    (mf : cmMakefile) (target : cmTarget) (fuel : Nat) (s : Str) (m : List Str)
    (p : Nat) (hL : findFirst "$<TARGET_PROPERTY:".toList s = some p)
    (hskip : ∀ c, findFirst ",".toList (s.drop (p + 18)) = some c →
      findFirst ">".toList (s.drop (p + 18)) = none
        ∨ nposLt (findFirst ">".toList (s.drop (p + 18))) c = true
        ∨ nposLt (findFirst "$<".toList (s.drop (p + 18))) c = true) :
    gen.targetPropertyLoop mf target (fuel + 1) s 0 m
      = (gen.targetPropertyLoop mf target fuel (s.drop (p + 18)) 0 m).map
          (fun r => (s.take (p + 18) ++ r.1, r.2)) := by
  have hb := findFirst_some_bound _ _ _ hL
  have hlen : "$<TARGET_PROPERTY:".toList.length = 18 := by decide
  rw [hlen] at hb
  have hshift := targetPropertyLoop_shift gen mf target fuel (s.take (p + 18))
    (s.drop (p + 18)) 0 m
  rw [List.take_append_drop, List.length_take, Nat.min_eq_left hb, Nat.add_zero] at hshift
  rw [targetPropertyLoop_succ, strFind_zero, hL]
  simp only [hlen]
  rw [strFind_of_le _ _ _ hb, strFind_of_le _ _ _ hb, strFind_of_le _ _ _ hb]
  cases hc : findFirst ",".toList (s.drop (p + 18)) with
  | none => exact hshift
  | some c =>
    simp only [Option.map_some', nposLt_shift]
    have h := hskip c hc
    have e3 : ((findFirst ">".toList (s.drop (p + 18))).map (· + (p + 18)) = none)
        = (findFirst ">".toList (s.drop (p + 18)) = none) := by
      cases findFirst ">".toList (s.drop (p + 18)) <;> simp
    simp only [e3]
    rw [if_pos h]
    exact hshift

/-- A construct with a literal name: the name goes through `AddTargetNamespace` and the loop goes on with the text after the comma. -/
theorem targetPropertyLoop_step_name (gen : cmExportFileGenerator)
    (mf : cmMakefile) (target : cmTarget) (fuel : Nat) (s : Str) (m : List Str)
    (p c : Nat) (hL : findFirst "$<TARGET_PROPERTY:".toList s = some p)
    (hc : findFirst ",".toList (s.drop (p + 18)) = some c)
    (hclose : findFirst ">".toList (s.drop (p + 18)) ≠ none)
    (hcloseLt : nposLt (findFirst ">".toList (s.drop (p + 18))) c = false)
    (hopenLt : nposLt (findFirst "$<".toList (s.drop (p + 18))) c = false) :
    gen.targetPropertyLoop mf target (fuel + 1) s 0 m
      = (gen.targetPropertyLoop mf target fuel (s.drop (p + 18 + (c + 1))) 0
          (gen.AddTargetNamespace mf ((s.drop (p + 18)).take c) target m).2.2).map
          (fun r => (s.take (p + 18)
            ++ ((gen.AddTargetNamespace mf ((s.drop (p + 18)).take c) target m).2.1
              ++ (',' :: r.1)), r.2)) := by
  have hb := findFirst_some_bound _ _ _ hL
  have hlen : "$<TARGET_PROPERTY:".toList.length = 18 := by decide
  rw [hlen] at hb
  have hcomma : (s.drop (p + 18)).drop c = ',' :: (s.drop (p + 18)).drop (c + 1) :=
    drop_of_findFirst_char ',' _ _ hc
  rw [List.drop_drop, List.drop_drop] at hcomma
  rw [targetPropertyLoop_succ, strFind_zero, hL]
  simp only [hlen]
  rw [strFind_of_le _ _ _ hb, strFind_of_le _ _ _ hb, strFind_of_le _ _ _ hb, hc]
  simp only [Option.map_some', nposLt_shift]
  have e3 : ((findFirst ">".toList (s.drop (p + 18))).map (· + (p + 18)) = none)
      = (findFirst ">".toList (s.drop (p + 18)) = none) := by
    cases findFirst ">".toList (s.drop (p + 18)) <;> simp
  have hnot : ¬ (findFirst ">".toList (s.drop (p + 18)) = none
      ∨ nposLt (findFirst ">".toList (s.drop (p + 18))) c = true
      ∨ nposLt (findFirst "$<".toList (s.drop (p + 18))) c = true) := by
    rw [hcloseLt, hopenLt]
    rintro (h | h | h)
    · exact hclose h
    · cases h
    · cases h
  simp only [e3]
  rw [if_neg hnot]
  have e5 : c + (p + 18) - (p + 18) = c := by omega
  rw [e5]
  have hname : strSubstr s (p + 18) c = (s.drop (p + 18)).take c := rfl
  rw [hname]
  generalize hr : gen.AddTargetNamespace mf ((s.drop (p + 18)).take c) target m = r
  have hshift := targetPropertyLoop_shift gen mf target fuel
    (s.take (p + 18) ++ (r.2.1 ++ [','])) (s.drop (p + 18 + (c + 1))) 0 r.2.2
  have hpre : (s.take (p + 18) ++ (r.2.1 ++ [','])).length + 0
      = p + 18 + r.2.1.length + 1 := by
    simp only [List.length_append, List.length_take, Nat.min_eq_left hb,
      List.length_singleton]
    omega
  rw [hpre] at hshift
  have hinput : (if r.1 = true then strReplace s (p + 18) c r.2.1 else s)
      = s.take (p + 18) ++ (r.2.1 ++ [',']) ++ s.drop (p + 18 + (c + 1)) := by
    split_ifs with h1
    · unfold strReplace
      rw [hcomma]
      simp only [List.append_assoc, List.singleton_append]
    · have hfalse : r.1 = false := by simpa using h1
      rw [← hr] at hfalse
      have htext := (AddTargetNamespace_false gen mf _ target m hfalse).1
      rw [hr] at htext
      rw [htext]
      have : s = s.take (p + 18) ++ ((s.drop (p + 18)).take c ++ s.drop (p + 18 + c)) := by
        conv_lhs =>
          rw [← List.take_append_drop (p + 18) s,
            ← List.take_append_drop c (s.drop (p + 18)), List.drop_drop]
      rw [hcomma] at this
      simpa only [List.append_assoc, List.singleton_append] using this
  rw [hinput, hshift]
  cases gen.targetPropertyLoop mf target fuel (s.drop (p + 18 + (c + 1))) 0 r.2.2 with
  | none => rfl
  | some q => simp only [Option.map_some', List.append_assoc, List.singleton_append]

/-- What `impliedThisTarget` says when it holds. -/
theorem impliedThisTarget_true (rest : Str) (h : impliedThisTarget rest = true) :
    ∀ c, findFirst ",".toList rest = some c →
      findFirst ">".toList rest = none
        ∨ nposLt (findFirst ">".toList rest) c = true
        ∨ nposLt (findFirst "$<".toList rest) c = true := by
  intro c hc
  unfold impliedThisTarget at h
  rw [hc] at h
  simp only [Bool.or_eq_true, decide_eq_true_eq] at h
  rcases h with (h | h) | h
  · exact Or.inl h
  · exact Or.inr (Or.inl h)
  · exact Or.inr (Or.inr h)

/-- What `impliedThisTarget` says when it fails: a comma, a `>`, and neither `>` nor `$<` before the comma. -/
theorem impliedThisTarget_false (rest : Str) (h : impliedThisTarget rest = false) :
    ∃ c, findFirst ",".toList rest = some c
      ∧ findFirst ">".toList rest ≠ none
      ∧ nposLt (findFirst ">".toList rest) c = false
      ∧ nposLt (findFirst "$<".toList rest) c = false := by
  unfold impliedThisTarget at h
  cases hc : findFirst ",".toList rest with
  | none => rw [hc] at h; cases h
  | some c =>
    rw [hc] at h
    simp only [Bool.or_eq_false_iff, decide_eq_false_iff_not] at h
    exact ⟨c, rfl, h.1.1, h.1.2, h.2⟩

/-- The `$<TARGET_PROPERTY:` loop ends within as many iterations as the text has characters, plus one, and its result is the one the big-step relation describes. -/
theorem TargetPropertyRewrite_total (gen : cmExportFileGenerator)
    (mf : cmMakefile) (target : cmTarget) (n : Nat) :
    ∀ (s : Str), s.length ≤ n → ∀ (m : List Str) (fuel : Nat), s.length < fuel →
      ∃ y m1, gen.targetPropertyLoop mf target fuel s 0 m = some (y, m1)
        ∧ gen.TargetPropertyRewrite mf target s m y m1 := by
  induction n with
  | zero =>
    intro s hs m fuel hfuel
    have hnil : s = [] := List.length_eq_zero.1 (by omega)
    subst hnil
    obtain ⟨f, rfl⟩ : ∃ f, fuel = f + 1 := ⟨fuel - 1, by omega⟩
    have hL : findFirst "$<TARGET_PROPERTY:".toList [] = none := by decide
    exact ⟨[], m, targetPropertyLoop_step_none gen mf target f [] m hL,
      cmExportFileGenerator.TargetPropertyRewrite.done [] m hL⟩
  | succ n ih =>
    intro s hs m fuel hfuel
    obtain ⟨f, rfl⟩ : ∃ f, fuel = f + 1 := ⟨fuel - 1, by omega⟩
    cases hL : findFirst "$<TARGET_PROPERTY:".toList s with
    | none =>
      exact ⟨s, m, targetPropertyLoop_step_none gen mf target f s m hL,
        cmExportFileGenerator.TargetPropertyRewrite.done s m hL⟩
    | some p =>
      have hb := findFirst_some_bound _ _ _ hL
      have hlen : "$<TARGET_PROPERTY:".toList.length = 18 := by decide
      rw [hlen] at hb
      have hAlen : (s.take (p + 18)).length = p + 18 := by
        rw [List.length_take]; omega
      have hs_eq : s.take (p + 18) ++ s.drop (p + 18) = s := List.take_append_drop _ _
      cases hskip : impliedThisTarget (s.drop (p + 18)) with
      | true =>
        have hrest : (s.drop (p + 18)).length ≤ n := by
          rw [List.length_drop]; omega
        obtain ⟨y, m1, hloop, hrel⟩ := ih (s.drop (p + 18)) hrest m f
          (by rw [List.length_drop]; omega)
        refine ⟨s.take (p + 18) ++ y, m1, ?_, ?_⟩
        · rw [targetPropertyLoop_step_skip gen mf target f s m p hL
            (impliedThisTarget_true _ hskip), hloop]
          rfl
        · have := @cmExportFileGenerator.TargetPropertyRewrite.skip gen
            mf target (s.take (p + 18)) (s.drop (p + 18)) y m m1 p
            (by rw [hs_eq]; exact hL) hAlen hskip hrel
          rw [hs_eq] at this
          exact this
      | false =>
        obtain ⟨c, hc, hclose, hcloseLt, hopenLt⟩ := impliedThisTarget_false _ hskip
        have hcb := findFirst_some_bound _ _ _ hc
        have hclen : ",".toList.length = 1 := by decide
        rw [hclen, List.length_drop] at hcb
        have hcomma : (s.drop (p + 18)).drop c = ',' :: (s.drop (p + 18)).drop (c + 1) :=
          drop_of_findFirst_char ',' _ _ hc
        have hrest_eq : (s.drop (p + 18)).take c ++ ',' :: (s.drop (p + 18)).drop (c + 1)
            = s.drop (p + 18) := by
          rw [← hcomma, List.take_append_drop]
        have hnamelen : ((s.drop (p + 18)).take c).length = c := by
          rw [List.length_take, List.length_drop]; omega
        have htail : ((s.drop (p + 18)).drop (c + 1)).length ≤ n := by
          rw [List.length_drop, List.length_drop]; omega
        obtain ⟨y, m1, hloop, hrel⟩ := ih ((s.drop (p + 18)).drop (c + 1)) htail
          (gen.AddTargetNamespace mf ((s.drop (p + 18)).take c) target m).2.2 f
          (by rw [List.length_drop, List.length_drop]; omega)
        refine ⟨s.take (p + 18)
          ++ ((gen.AddTargetNamespace mf ((s.drop (p + 18)).take c) target m).2.1
            ++ ',' :: y), m1, ?_, ?_⟩
        · rw [targetPropertyLoop_step_name gen mf target f s m p c hL hc hclose
            hcloseLt hopenLt]
          rw [List.drop_drop] at hloop
          rw [hloop]
          rfl
        · have := @cmExportFileGenerator.TargetPropertyRewrite.name gen
            mf target (s.take (p + 18)) ((s.drop (p + 18)).take c)
            ((s.drop (p + 18)).drop (c + 1)) y m m1 p
            (by rw [hrest_eq, hs_eq]; exact hL) hAlen
            (by rw [hrest_eq, hnamelen]; exact hc)
            (by rw [hrest_eq]; exact hskip) hrel
          rw [hrest_eq, hs_eq] at this
          exact this

/-- The loop computes what the big-step relation describes. -/
theorem TargetPropertyRewrite_loop (gen : cmExportFileGenerator)
    (mf : cmMakefile) (target : cmTarget) (s y : Str) (m m1 : List Str)
    (h : gen.TargetPropertyRewrite mf target s m y m1) :
    ∀ fuel, s.length < fuel →
      gen.targetPropertyLoop mf target fuel s 0 m = some (y, m1) := by
  induction h with
  | done s m hL =>
    intro fuel hfuel
    obtain ⟨f, rfl⟩ : ∃ f, fuel = f + 1 := ⟨fuel - 1, by omega⟩
    exact targetPropertyLoop_step_none gen mf target f s m hL
  | skip opener rest y m m1 p hL hlen hskip _ ih =>
    intro fuel hfuel
    obtain ⟨f, rfl⟩ : ∃ f, fuel = f + 1 := ⟨fuel - 1, by omega⟩
    have hdrop : (opener ++ rest).drop (p + 18) = rest := by
      rw [← hlen]; exact List.drop_left' rfl
    have htake : (opener ++ rest).take (p + 18) = opener := by
      rw [← hlen]; exact List.take_left' rfl
    rw [targetPropertyLoop_step_skip gen mf target f _ m p hL
      (by rw [hdrop]; exact impliedThisTarget_true _ hskip), hdrop, htake,
      ih f (by simp at hfuel; omega)]
    rfl
  | name opener name tail y m m1 p hL hlen hc hskip _ ih =>
    intro fuel hfuel
    obtain ⟨f, rfl⟩ : ∃ f, fuel = f + 1 := ⟨fuel - 1, by omega⟩
    have hdrop : (opener ++ (name ++ ',' :: tail)).drop (p + 18) = name ++ ',' :: tail := by
      rw [← hlen]; exact List.drop_left' rfl
    have htake : (opener ++ (name ++ ',' :: tail)).take (p + 18) = opener := by
      rw [← hlen]; exact List.take_left' rfl
    have hdrop2 : (opener ++ (name ++ ',' :: tail)).drop (p + 18 + (name.length + 1))
        = tail := by
      rw [← List.drop_drop, hdrop]
      have : name ++ ',' :: tail = (name ++ [',']) ++ tail := by simp
      rw [this]
      exact List.drop_left' (by simp)
    have htake2 : (name ++ ',' :: tail).take name.length = name := List.take_left' rfl
    obtain ⟨c, hc2, hclose, hcloseLt, hopenLt⟩ := impliedThisTarget_false _ hskip
    have hceq : c = name.length := by
      rw [hc] at hc2; exact (Option.some.inj hc2).symm
    subst hceq
    rw [targetPropertyLoop_step_name gen mf target f _ m p name.length hL
      (by rw [hdrop]; exact hc) (by rw [hdrop]; exact hclose)
      (by rw [hdrop]; exact hcloseLt) (by rw [hdrop]; exact hopenLt),
      hdrop, htake, hdrop2, htake2, ih f (by simp at hfuel; omega)]
    rfl

/-! ### Occurrences in a concatenation -/

/-- An occurrence that ends within `a` is an occurrence in `a`. -/
theorem prefix_drop_append (pat a z : Str) (k : Nat)
    (hk : k + pat.length ≤ a.length) :
    pat <+: (a ++ z).drop k ↔ pat <+: a.drop k := by
  have hdrop : (a ++ z).drop k = a.drop k ++ z :=
    List.drop_append_of_le_length (by omega)
  rw [hdrop]
  constructor
  · intro h
    exact List.prefix_of_prefix_length_le h (List.prefix_append _ _)
      (by rw [List.length_drop]; omega)
  · intro h
    exact h.trans (List.prefix_append _ _)

/-- The first occurrence in `a` is the first occurrence in `a ++ z`. -/
theorem findFirst_append_left (pat a z : Str) (i : Nat)
    (h : findFirst pat a = some i) : findFirst pat (a ++ z) = some i := by
  have hb := findFirst_some_bound pat a i h
  obtain ⟨h1, h2, h3⟩ := (findFirst_eq_some_iff pat a i).1 h
  rw [findFirst_eq_some_iff]
  refine ⟨by simp; omega, (prefix_drop_append pat a z i hb).2 h2, ?_⟩
  intro j hj hpre
  exact h3 j hj ((prefix_drop_append pat a z j (by omega)).1 hpre)

/-- A first occurrence in `a ++ z` that ends within `a` is the first occurrence in `a`. -/
theorem findFirst_of_append (pat a z : Str) (k : Nat)
    (h : findFirst pat (a ++ z) = some k) (hk : k + pat.length ≤ a.length) :
    findFirst pat a = some k := by
  obtain ⟨h1, h2, h3⟩ := (findFirst_eq_some_iff pat (a ++ z) k).1 h
  rw [findFirst_eq_some_iff]
  refine ⟨by omega, (prefix_drop_append pat a z k hk).1 h2, ?_⟩
  intro j hj hpre
  exact h3 j hj ((prefix_drop_append pat a z j (by omega)).2 hpre)

/-- The first occurrence depends only on the text up to its end. -/
theorem findFirst_opener (pat opener rest z : Str) (p : Nat)
    (h : findFirst pat (opener ++ rest) = some p)
    (hlen : opener.length = p + pat.length) :
    findFirst pat (opener ++ z) = some p :=
  findFirst_append_left pat opener z p
    (findFirst_of_append pat opener rest p h (by omega))

/-- A text without occurrence has none in its parts. -/
theorem findFirst_none_append (pat a z : Str)
    (h : findFirst pat (a ++ z) = none) :
    findFirst pat a = none ∧ findFirst pat z = none := by
  constructor
  · cases ha : findFirst pat a with
    | none => rfl
    | some i => rw [findFirst_append_left pat a z i ha] at h; cases h
  · rw [findFirst_eq_none_iff] at h ⊢
    intro j hj hpre
    apply h (a.length + j) (by simp; omega)
    rw [List.drop_append]
    exact hpre

/-- A one-character pattern is not found exactly when the character is absent. -/
theorem findFirst_char_none_iff (c : Char) (s : Str) :
    findFirst [c] s = none ↔ c ∉ s := by
  induction s with
  | nil => simp [findFirst]
  | cons d ds ih =>
    unfold findFirst
    by_cases hcd : c = d
    · subst hcd
      simp [List.isPrefixOf]
    · have : List.isPrefixOf [c] (d :: ds) = false := by
        simp [List.isPrefixOf, hcd]
      simp only [this, Bool.false_eq_true, if_false, Option.map_eq_none', ih,
        List.mem_cons, not_or]
      exact ⟨fun h => ⟨hcd, h⟩, fun h => h.2⟩

/-- A one-character pattern that is absent from `a` is found in `a ++ z` where it is found in `z`. -/
theorem findFirst_char_append (c : Char) (a z : Str) (h : c ∉ a) :
    findFirst [c] (a ++ z) = (findFirst [c] z).map (· + a.length) := by
  induction a with
  | nil => simp
  | cons d ds ih =>
    have hcd : c ≠ d := fun e => h (by simp [e])
    have hds : c ∉ ds := fun e => h (by simp [e])
    have hpre : List.isPrefixOf [c] (d :: (ds ++ z)) = false := by
      simp [List.isPrefixOf, hcd]
    rw [List.cons_append, findFirst]
    simp only [hpre, Bool.false_eq_true, if_false, ih hds, Option.map_map,
      List.length_cons]
    congr 1

/-- The first occurrence of a character right after a text without it. -/
theorem findFirst_char_here (c : Char) (a z : Str) (h : c ∉ a) :
    findFirst [c] (a ++ c :: z) = some a.length := by
  rw [findFirst_char_append c a _ h]
  simp [findFirst, List.isPrefixOf]

/-- A character first found right after `a` is absent from `a`. -/
theorem not_mem_of_findFirst_char (c : Char) (a z : Str)
    (h : findFirst [c] (a ++ z) = some a.length) : c ∉ a := by
  intro hmem
  have hne : findFirst [c] a ≠ none := fun e => (findFirst_char_none_iff c a).1 e hmem
  cases ha : findFirst [c] a with
  | none => exact hne ha
  | some i =>
    have hb := findFirst_some_bound _ _ _ ha
    rw [findFirst_append_left [c] a z i ha] at h
    simp at hb
    have := Option.some.inj h
    omega

/-! ### Literal names -/

/-- A name the loop hands to `AddTargetNamespace` is literal, and a `>` follows its comma. -/
theorem literalName_of_not_implied (name tail : Str)
    (hc : findFirst ",".toList (name ++ ',' :: tail) = some name.length)
    (hskip : impliedThisTarget (name ++ ',' :: tail) = false) :
    literalName name ∧ '>' ∈ tail := by
  obtain ⟨c, hc2, hclose, hcloseLt, hopenLt⟩ := impliedThisTarget_false _ hskip
  have hceq : c = name.length := by
    rw [hc] at hc2; exact (Option.some.inj hc2).symm
  subst hceq
  have hcomma : ',' ∉ name := not_mem_of_findFirst_char ',' name _ hc
  have hgt : '>' ∉ name := by
    intro hmem
    cases ha : findFirst ['>'] name with
    | none => exact (findFirst_char_none_iff '>' name).1 ha hmem
    | some i =>
      have hb := findFirst_some_bound _ _ _ ha
      have h2 : findFirst ">".toList (name ++ ',' :: tail) = some i :=
        findFirst_append_left _ name _ i ha
      rw [h2] at hcloseLt
      simp [nposLt] at hcloseLt hb
      omega
  have hopen : findFirst "$<".toList name = none := by
    cases ha : findFirst "$<".toList name with
    | none => rfl
    | some i =>
      have hb := findFirst_some_bound _ _ _ ha
      have hlen : "$<".toList.length = 2 := by decide
      rw [findFirst_append_left _ name _ i ha] at hopenLt
      rw [hlen] at hb
      simp only [nposLt, decide_eq_false_iff_not] at hopenLt
      omega
  refine ⟨⟨hcomma, hgt, hopen⟩, ?_⟩
  have hmem : '>' ∈ name ++ ',' :: tail := by
    by_contra hno
    exact hclose ((findFirst_char_none_iff '>' _).2 hno)
  rcases List.mem_append.1 hmem with h | h
  · exact absurd h hgt
  · rcases List.mem_cons.1 h with h | h
    · exact absurd h (by decide)
    · exact h

/-- No `$<` starts before the comma that follows a name without `$<`. -/
theorem open_not_before_comma (name tail : Str)
    (hopen : findFirst "$<".toList name = none) :
    nposLt (findFirst "$<".toList (name ++ ',' :: tail)) name.length = false := by
  cases ho : findFirst "$<".toList (name ++ ',' :: tail) with
  | none => rfl
  | some o =>
    simp only [nposLt, decide_eq_false_iff_not]
    intro hlt
    by_cases hin : o + 2 ≤ name.length
    · have := findFirst_of_append "$<".toList name _ o ho hin
      rw [hopen] at this
      cases this
    · have ho1 : o + 1 = name.length := by omega
      obtain ⟨-, hocc, -⟩ := (findFirst_eq_some_iff _ _ _).1 ho
      rw [List.drop_append_of_le_length (by omega)] at hocc
      have hlen1 : (name.drop o).length = 1 := by
        rw [List.length_drop]; omega
      obtain ⟨x, hx⟩ := List.length_eq_one.1 hlen1
      rw [hx] at hocc
      have hocc2 : ['$', '<'] <+: x :: ',' :: tail := hocc
      rw [List.cons_prefix_cons, List.cons_prefix_cons] at hocc2
      exact absurd hocc2.2.1 (by decide)

/-- No `$<` starts within a name without `$<`, nor at the comma after it. -/
theorem no_open_in_name (name tail : Str)
    (hopen : findFirst "$<".toList name = none) (i : Nat) (hi : i ≤ name.length) :
    ¬ "$<".toList <+: (name ++ ',' :: tail).drop i := by
  intro hocc
  obtain ⟨o, hoi, ho⟩ := findFirst_le_of_prefix _ _ i (by simp; omega) hocc
  have h3 := open_not_before_comma name tail hopen
  rw [ho] at h3
  simp only [nposLt, decide_eq_false_iff_not] at h3
  have hoeq : o = name.length := by omega
  subst hoeq
  obtain ⟨-, hocc2, -⟩ := (findFirst_eq_some_iff _ _ _).1 ho
  rw [List.drop_left] at hocc2
  have hocc3 : ['$', '<'] <+: ',' :: tail := hocc2
  rw [List.cons_prefix_cons] at hocc3
  exact absurd hocc3.1 (by decide)

/-- A literal name followed by a comma and, later, a `>` is handed to `AddTargetNamespace`. -/
theorem not_implied_of_literalName (name tail : Str) (hlit : literalName name)
    (hgt : '>' ∈ tail) :
    findFirst ",".toList (name ++ ',' :: tail) = some name.length
      ∧ impliedThisTarget (name ++ ',' :: tail) = false := by
  obtain ⟨hcomma, hclose, hopen⟩ := hlit
  have hc : findFirst ",".toList (name ++ ',' :: tail) = some name.length :=
    findFirst_char_here ',' name tail hcomma
  refine ⟨hc, ?_⟩
  have h1 : findFirst ">".toList (name ++ ',' :: tail)
      = (findFirst ['>'] (',' :: tail)).map (· + name.length) :=
    findFirst_char_append '>' name _ hclose
  have h2 : findFirst ['>'] (',' :: tail) ≠ none := by
    intro e
    exact (findFirst_char_none_iff '>' _).1 e (List.mem_cons_of_mem _ hgt)
  have h3 := open_not_before_comma name tail hopen
  unfold impliedThisTarget
  rw [hc]
  simp only [Bool.or_eq_false_iff, decide_eq_false_iff_not]
  refine ⟨⟨?_, ?_⟩, h3⟩
  · rw [h1]
    intro e
    exact h2 (Option.map_eq_none'.1 e)
  · rw [h1]
    cases hk : findFirst ['>'] (',' :: tail) with
    | none => rfl
    | some k => simp [nposLt]

/-! ### What the loop preserves -/

/-- A text without `>` is left unchanged. -/
theorem TargetPropertyRewrite_unchanged_of_no_close (gen : cmExportFileGenerator)
    (mf : cmMakefile) (target : cmTarget) (s y : Str) (m m1 : List Str)
    (h : gen.TargetPropertyRewrite mf target s m y m1) (hno : '>' ∉ s) : y = s := by
  induction h with
  | done s m _ => rfl
  | skip opener rest y m m1 p _ _ _ _ ih =>
    rw [ih (fun e => hno (List.mem_append_right _ e))]
  | name opener name tail y m m1 p _ _ hc hskip _ _ =>
    have := (literalName_of_not_implied name tail hc hskip).2
    exact absurd (List.mem_append_right _
      (List.mem_append_right _ (List.mem_cons_of_mem _ this))) hno

/-- The loop keeps a `>` of the text. -/
theorem TargetPropertyRewrite_close (gen : cmExportFileGenerator)
    (mf : cmMakefile) (target : cmTarget) (s y : Str) (m m1 : List Str)
    (h : gen.TargetPropertyRewrite mf target s m y m1) (hmem : '>' ∈ s) : '>' ∈ y := by
  induction h with
  | done s m _ => exact hmem
  | skip opener rest y m m1 p _ _ _ _ ih =>
    rcases List.mem_append.1 hmem with h1 | h1
    · exact List.mem_append_left _ h1
    · exact List.mem_append_right _ (ih h1)
  | name opener name tail y m m1 p _ _ hc hskip _ ih =>
    have htail := (literalName_of_not_implied name tail hc hskip).2
    exact List.mem_append_right _
      (List.mem_append_right _ (List.mem_cons_of_mem _ (ih htail)))

/-- After a `$<TARGET_PROPERTY:` the test of lines 624-627 depends on the following text only through its first `>`. -/
theorem impliedThisTarget_opener (opener z z1 : Str) (p : Nat)
    (hL : findFirst "$<TARGET_PROPERTY:".toList (opener ++ z) = some p)
    (hlen : opener.length = p + 18)
    (h : impliedThisTarget (opener ++ z) = true)
    (hclose : findFirst ">".toList (opener ++ z) = none → z1 = z) :
    impliedThisTarget (opener ++ z1) = true := by
  have hLlen : "$<TARGET_PROPERTY:".toList.length = 18 := by decide
  have hLA := findFirst_of_append _ opener z p hL (by rw [hLlen]; omega)
  obtain ⟨-, hocc, -⟩ := (findFirst_eq_some_iff _ _ _).1 hLA
  have hpre : "$<".toList <+: "$<TARGET_PROPERTY:".toList := by decide
  obtain ⟨o, hop, ho⟩ := findFirst_le_of_prefix "$<".toList opener p (by omega)
    (hpre.trans hocc)
  have ho1 := findFirst_append_left _ opener z1 o ho
  have ho0 := findFirst_append_left _ opener z o ho
  cases hcA : findFirst ",".toList opener with
  | some c0 =>
    have hcb := findFirst_some_bound _ _ _ hcA
    have hclen : ",".toList.length = 1 := by decide
    rw [hclen] at hcb
    have hc1 := findFirst_append_left _ opener z1 c0 hcA
    have hc0 := findFirst_append_left _ opener z c0 hcA
    rcases impliedThisTarget_true _ h c0 hc0 with h1 | h1 | h1
    · rw [hclose h1]; exact h
    · cases hk : findFirst ">".toList (opener ++ z) with
      | none => rw [hk] at h1; cases h1
      | some k =>
        rw [hk] at h1
        simp only [nposLt, decide_eq_true_eq] at h1
        have hkA := findFirst_of_append _ opener z k hk
          (by have : ">".toList.length = 1 := by decide
              rw [this]; omega)
        have hk1 := findFirst_append_left _ opener z1 k hkA
        unfold impliedThisTarget
        rw [hc1, hk1]
        simp [nposLt, h1]
    · rw [ho0] at h1
      unfold impliedThisTarget
      rw [hc1, ho1]
      simp [h1]
  | none =>
    unfold impliedThisTarget
    cases hc1 : findFirst ",".toList (opener ++ z1) with
    | none => rfl
    | some c1 =>
      have hlt : o < c1 := by
        by_contra hge
        have := findFirst_of_append _ opener z1 c1 hc1
          (by have : ",".toList.length = 1 := by decide
              rw [this]; omega)
        rw [hcA] at this
        cases this
      rw [ho1]
      simp [nposLt, hlt]

/-- A text the test of lines 624-627 skips is still skipped after the loop has rewritten it. -/
theorem TargetPropertyRewrite_implied (gen : cmExportFileGenerator)
    (mf : cmMakefile) (target : cmTarget) (s y : Str) (m m1 : List Str)
    (h : gen.TargetPropertyRewrite mf target s m y m1)
    (himplied : impliedThisTarget s = true) : impliedThisTarget y = true := by
  induction h with
  | done _ _ _ => exact himplied
  | skip opener rest y m m1 p hL hlen _ hrest _ =>
    apply impliedThisTarget_opener opener rest y p hL hlen himplied
    intro hno
    have hno2 : '>' ∉ opener ++ rest := (findFirst_char_none_iff '>' _).1 hno
    exact TargetPropertyRewrite_unchanged_of_no_close gen mf target rest y m m1 hrest
      (fun e => hno2 (List.mem_append_right _ e))
  | name opener name tail y m m1 p hL hlen hc hskip hrest _ =>
    apply impliedThisTarget_opener opener (name ++ ',' :: tail) _ p hL hlen himplied
    intro hno
    have hno2 : '>' ∉ opener ++ (name ++ ',' :: tail) :=
      (findFirst_char_none_iff '>' _).1 hno
    have := (literalName_of_not_implied name tail hc hskip).2
    exact absurd (List.mem_append_right _
      (List.mem_append_right _ (List.mem_cons_of_mem _ this))) hno2

/-- The `$<TARGET_PROPERTY:` pass changes nothing in a text it has already
rewritten, provided the names `AddTargetNamespace` returns are literal and
are returned unchanged when given to it again. -/
theorem TargetPropertyRewrite_idempotent (gen : cmExportFileGenerator)
    (mf : cmMakefile) (target : cmTarget)
    (hclean : ∀ n m, literalName n →
      literalName (gen.AddTargetNamespace mf n target m).2.1)
    (hstable : ∀ n m m1,
      (gen.AddTargetNamespace mf (gen.AddTargetNamespace mf n target m).2.1
        target m1).2.1 = (gen.AddTargetNamespace mf n target m).2.1)
    (s y : Str) (m m1 : List Str)
    (h : gen.TargetPropertyRewrite mf target s m y m1) :
    ∀ m2, ∃ m3, gen.TargetPropertyRewrite mf target y m2 y m3 := by
  induction h with
  | done s m hL =>
    intro m2
    exact ⟨m2, cmExportFileGenerator.TargetPropertyRewrite.done s m2 hL⟩
  | skip opener rest y m m1 p hL hlen hskip hrest ih =>
    intro m2
    obtain ⟨m3, h3⟩ := ih m2
    exact ⟨m3, cmExportFileGenerator.TargetPropertyRewrite.skip opener y y m2 m3 p
      (findFirst_opener _ opener rest y p hL (by rw [hlen]; rfl)) hlen
      (TargetPropertyRewrite_implied gen mf target rest y m m1 hrest hskip) h3⟩
  | name opener name tail y m m1 p hL hlen hc hskip hrest ih =>
    intro m2
    obtain ⟨hlit, htail⟩ := literalName_of_not_implied name tail hc hskip
    have hlit1 := hclean name m hlit
    have hy : '>' ∈ y := TargetPropertyRewrite_close gen mf target tail y _ m1 hrest htail
    obtain ⟨hc1, hskip1⟩ := not_implied_of_literalName _ y hlit1 hy
    obtain ⟨m3, h3⟩ := ih
      (gen.AddTargetNamespace mf (gen.AddTargetNamespace mf name target m).2.1
        target m2).2.2
    have := @cmExportFileGenerator.TargetPropertyRewrite.name gen mf
      target opener (gen.AddTargetNamespace mf name target m).2.1 y y
      m2 m3 p
      (findFirst_opener _ opener _ _ p hL (by rw [hlen]; rfl)) hlen hc1 hskip1 h3
    rw [hstable name m m2] at this
    exact ⟨m3, this⟩

/-! ### `$<TARGET_NAME:` does not appear by rewriting names -/

/-- No occurrence starts in `a`, none is in `z`: none is in `a ++ z`. -/
theorem findFirst_none_of_parts (pat a z : Str)
    (ha : ∀ j, j < a.length → ¬ pat <+: (a ++ z).drop j)
    (hz : findFirst pat z = none) : findFirst pat (a ++ z) = none := by
  rw [findFirst_eq_none_iff] at hz ⊢
  intro j hj hocc
  by_cases hlt : j < a.length
  · exact ha j hlt hocc
  · obtain ⟨i, rfl⟩ : ∃ i, j = a.length + i := ⟨j - a.length, by omega⟩
    rw [List.drop_append] at hocc
    exact hz i (by simp at hj; omega) hocc

/-- `$<TARGET_NAME:` does not start within the last thirteen characters of `$<TARGET_PROPERTY:`. -/
theorem opener_tail_no_dollar (i : Nat) (h5 : 5 ≤ i) (h18 : i < 18) (z : Str) :
    ¬ "$<TARGET_NAME:".toList <+: "$<TARGET_PROPERTY:".toList.drop i ++ z := by
  intro h
  have hTN : "$<TARGET_NAME:".toList = '$' :: "<TARGET_NAME:".toList := by decide
  rw [hTN] at h
  interval_cases i <;>
    exact absurd (List.cons_prefix_cons.1 h).1 (by decide)

/-- No `$<TARGET_NAME:` starts in the text up to a first `$<TARGET_PROPERTY:`, whatever follows it. -/
theorem no_target_name_in_opener (opener rest z : Str) (p : Nat)
    (hL : findFirst "$<TARGET_PROPERTY:".toList (opener ++ rest) = some p)
    (hlen : opener.length = p + 18)
    (hTN : findFirst "$<TARGET_NAME:".toList (opener ++ rest) = none)
    (j : Nat) (hj : j < opener.length) :
    ¬ "$<TARGET_NAME:".toList <+: (opener ++ z).drop j := by
  have hLlen : "$<TARGET_PROPERTY:".toList.length = 18 := by decide
  have hTNlen : "$<TARGET_NAME:".toList.length = 14 := by decide
  have hLA := findFirst_of_append _ opener rest p hL (by rw [hLlen]; omega)
  obtain ⟨-, hocc, -⟩ := (findFirst_eq_some_iff _ _ _).1 hLA
  have hdropp : opener.drop p = "$<TARGET_PROPERTY:".toList :=
    (hocc.eq_of_length (by rw [List.length_drop, hLlen]; omega)).symm
  have hTNA := (findFirst_none_append _ opener rest hTN).1
  intro h
  by_cases hin : j + 14 ≤ opener.length
  · have := (prefix_drop_append _ opener z j (by rw [hTNlen]; exact hin)).1 h
    exact (findFirst_eq_none_iff _ _).1 hTNA j (by omega) this
  · rw [List.drop_append_of_le_length (by omega)] at h
    have hj2 : opener.drop j = "$<TARGET_PROPERTY:".toList.drop (j - p) := by
      rw [← hdropp, List.drop_drop]
      congr 1
      omega
    rw [hj2] at h
    exact opener_tail_no_dollar (j - p) (by omega) (by omega) z h

/-- The `$<TARGET_PROPERTY:` loop brings no `$<TARGET_NAME:` into a text without one, when the names `AddTargetNamespace` returns are literal. -/
theorem TargetPropertyRewrite_no_target_name (gen : cmExportFileGenerator)
    (mf : cmMakefile) (target : cmTarget)
    (hclean : ∀ n m, literalName n →
      literalName (gen.AddTargetNamespace mf n target m).2.1)
    (s y : Str) (m m1 : List Str)
    (h : gen.TargetPropertyRewrite mf target s m y m1)
    (hTN : findFirst "$<TARGET_NAME:".toList s = none) :
    findFirst "$<TARGET_NAME:".toList y = none := by
  induction h with
  | done s m _ => exact hTN
  | skip opener rest y m m1 p hL hlen _ _ ih =>
    apply findFirst_none_of_parts
    · intro j hj
      exact no_target_name_in_opener opener rest y p hL hlen hTN j hj
    · exact ih (findFirst_none_append _ opener rest hTN).2
  | name opener name tail y m m1 p hL hlen hc hskip _ ih =>
    have hlit := hclean name m (literalName_of_not_implied name tail hc hskip).1
    have htail : findFirst "$<TARGET_NAME:".toList tail = none := by
      have h1 := (findFirst_none_append _ opener _ hTN).2
      have h2 : name ++ ',' :: tail = (name ++ [',']) ++ tail := by simp
      rw [h2] at h1
      exact (findFirst_none_append _ _ tail h1).2
    have hy := ih htail
    have hpre : "$<".toList <+: "$<TARGET_NAME:".toList := by decide
    generalize hn1 : (gen.AddTargetNamespace mf name target m).2.1 = n1 at hlit ⊢
    have hsplit : opener ++ (n1 ++ ',' :: y) = (opener ++ (n1 ++ [','])) ++ y := by simp
    rw [hsplit]
    apply findFirst_none_of_parts _ _ _ _ hy
    intro j hj
    rw [← hsplit]
    by_cases hjo : j < opener.length
    · exact no_target_name_in_opener opener _ _ p hL hlen hTN j hjo
    · obtain ⟨i, rfl⟩ : ∃ i, j = opener.length + i := ⟨j - opener.length, by omega⟩
      rw [List.drop_append]
      intro hocc
      exact no_open_in_name n1 y hlit.2.2 i (by simp at hj; omega) (hpre.trans hocc)

/-! ### The whole of `ResolveTargetsInGeneratorExpression` -/

/-- The `$<TARGET_NAME:` loop ends at once on a text without `$<TARGET_NAME:`. -/
theorem targetNameLoop_none (gen : cmExportFileGenerator) (mf : cmMakefile)
    (target : cmTarget) (fuel : Nat) (s : Str) (m : List Str)
    (h : findFirst "$<TARGET_NAME:".toList s = none) :
    gen.targetNameLoop mf target (fuel + 1) s 0 m = some (s, m, []) := by
  rw [cmExportFileGenerator.targetNameLoop, strFind_zero, h]

/-- The whole function on a text whose `$<TARGET_PROPERTY:` pass leaves no `$<TARGET_NAME:`. -/
theorem ResolveTargetsInGeneratorExpression_of_rewrite
    (gen : cmExportFileGenerator) (mf : cmMakefile) (target : cmTarget)
    (s y : Str) (m m1 : List Str)
    (h : gen.TargetPropertyRewrite mf target s m y m1)
    (hTN : findFirst "$<TARGET_NAME:".toList y = none)
    (fuel : Nat) (hfuel : s.length < fuel) :
    gen.ResolveTargetsInGeneratorExpression mf fuel s target m = some (y, m1, []) := by
  obtain ⟨f, rfl⟩ : ∃ f, fuel = f + 1 := ⟨fuel - 1, by omega⟩
  unfold cmExportFileGenerator.ResolveTargetsInGeneratorExpression
  rw [TargetPropertyRewrite_loop gen mf target s y m m1 h (f + 1) hfuel]
  simp only
  rw [targetNameLoop_none gen mf target f y m1 hTN]
  simp [cmExportFileGenerator.ReplaceInstallPrefix]

/-- Default-mode resolution of a text without `$<TARGET_NAME:` returns, and
resolving its result again returns that result. -/
theorem ResolveTargetsInGeneratorExpression_idempotent_core
    (gen : cmExportFileGenerator) (mf : cmMakefile) (target : cmTarget)
    (hclean : ∀ n m, literalName n →
      literalName (gen.AddTargetNamespace mf n target m).2.1)
    (hstable : ∀ n m m1,
      (gen.AddTargetNamespace mf (gen.AddTargetNamespace mf n target m).2.1
        target m1).2.1 = (gen.AddTargetNamespace mf n target m).2.1)
    (x : Str) (m0 : List Str) (fuel : Nat)
    (hTN : findFirst "$<TARGET_NAME:".toList x = none) (hfuel : x.length < fuel) :
    ∃ y m1, gen.ResolveTargetsInGeneratorExpression mf fuel x target m0
        = some (y, m1, [])
      ∧ ∀ fuel2 m, y.length < fuel2 →
        ∃ m2, gen.ResolveTargetsInGeneratorExpression mf fuel2 y target m
          = some (y, m2, []) := by
  obtain ⟨y, m1, -, hrel⟩ := TargetPropertyRewrite_total gen mf target x.length x
    (Nat.le_refl _) m0 fuel hfuel
  have hy := TargetPropertyRewrite_no_target_name gen mf target hclean x y m0 m1 hrel hTN
  refine ⟨y, m1,
    ResolveTargetsInGeneratorExpression_of_rewrite gen mf target x y m0 m1 hrel hy
      fuel hfuel, ?_⟩
  intro fuel2 m hfuel2
  obtain ⟨m2, h2⟩ := TargetPropertyRewrite_idempotent gen mf target hclean hstable
    x y m0 m1 hrel m
  exact ⟨m2, ResolveTargetsInGeneratorExpression_of_rewrite gen mf target y y m m2 h2 hy
    fuel2 hfuel2⟩

/-! ### The loop over the items in replace-free-targets mode -/

/-- The text built so far is a prefix of the result. -/
theorem joinItems_append (items : List Str) (input sep : Str) :
    joinItems items input sep = input ++ joinItems items [] sep := by
  induction items generalizing input sep with
  | nil => simp [joinItems]
  | cons li rest ih =>
    simp only [joinItems]
    rw [ih (input ++ (sep ++ li)), ih ([] ++ (sep ++ li))]
    simp [List.append_assoc]

/-- From the empty state the loop builds the `;`-join of the items. -/
theorem joinItems_eq_intercalate (items : List Str) :
    joinItems items [] [] = ";".toList.intercalate items := by
  have key : ∀ (items : List Str) (li : Str),
      joinItems items li ";".toList = ";".toList.intercalate (li :: items) := by
    intro items
    induction items with
    | nil => intro li; simp [joinItems, List.intercalate]
    | cons a rest ih =>
      intro li
      simp only [joinItems]
      have h := ih a
      rw [joinItems_append] at h
      have hint : ";".toList.intercalate (li :: a :: rest)
          = li ++ (";".toList ++ ";".toList.intercalate (a :: rest)) := by
        simp [List.intercalate, List.intersperse]
      rw [joinItems_append, hint, ← h]
      simp only [List.append_assoc]
  cases items with
  | nil => simp [joinItems, List.intercalate]
  | cons li rest =>
    simp only [joinItems]
    exact key rest li

/-- The loop over the items returns the text built from the rewritten items; each rewritten item is left unchanged by the rewriting that produced it. -/
theorem resolveParts_first (gen : cmExportFileGenerator) (mf : cmMakefile)
    (ge : cmGeneratorExpression) (target : cmTarget)
    (hclean : ∀ n m, literalName n →
      literalName (gen.AddTargetNamespace mf n target m).2.1)
    (hstable : ∀ n m m1,
      (gen.AddTargetNamespace mf (gen.AddTargetNamespace mf n target m).2.1
        target m1).2.1 = (gen.AddTargetNamespace mf n target m).2.1)
    (fuel : Nat) (parts : List Str) :
    ∀ (input sep : Str) (m : List Str) (msgs : List Message),
      (∀ li ∈ parts, ge.Find li ≠ none →
        findFirst "$<TARGET_NAME:".toList li = none ∧ li.length < fuel) →
      ∃ items m1,
        gen.resolveParts mf ge fuel target parts input sep m msgs
          = some (joinItems items input sep, m1, msgs)
        ∧ List.Forall₂ (fun li li1 =>
            (ge.Find li = none →
              ∀ m, (gen.AddTargetNamespace mf li1 target m).2.1 = li1)
            ∧ (ge.Find li ≠ none → ∀ fuel2 m, li1.length < fuel2 →
              ∃ m2, gen.ResolveTargetsInGeneratorExpression mf fuel2 li1 target m
                = some (li1, m2, []))) parts items := by
  induction parts with
  | nil =>
    intro input sep m msgs _
    exact ⟨[], m, rfl, List.Forall₂.nil⟩
  | cons li rest ih =>
    intro input sep m msgs hparts
    have hrest : ∀ li ∈ rest, ge.Find li ≠ none →
        findFirst "$<TARGET_NAME:".toList li = none ∧ li.length < fuel :=
      fun l hl => hparts l (List.mem_cons_of_mem _ hl)
    by_cases hfind : ge.Find li = none
    · obtain ⟨items, m1, hrun, hrel⟩ := ih
        (input ++ (sep ++ (gen.AddTargetNamespace mf li target m).2.1)) ";".toList
        (gen.AddTargetNamespace mf li target m).2.2 msgs hrest
      refine ⟨(gen.AddTargetNamespace mf li target m).2.1 :: items, m1, ?_,
        List.Forall₂.cons ⟨fun _ m2 => hstable li m m2, fun h => absurd hfind h⟩ hrel⟩
      rw [cmExportFileGenerator.resolveParts, if_pos hfind]
      exact hrun
    · obtain ⟨hTN, hlen⟩ := hparts li (List.mem_cons_self _ _) hfind
      obtain ⟨y, m1, hrun1, hidem⟩ :=
        ResolveTargetsInGeneratorExpression_idempotent_core gen mf target hclean
          hstable li m fuel hTN hlen
      obtain ⟨items, m2, hrun, hrel⟩ := ih (input ++ (sep ++ y)) ";".toList m1 msgs hrest
      refine ⟨y :: items, m2, ?_,
        List.Forall₂.cons ⟨fun h => absurd h hfind, fun _ => hidem⟩ hrel⟩
      rw [cmExportFileGenerator.resolveParts, if_neg hfind, hrun1]
      simp only [List.append_nil]
      exact hrun

/-- The loop over the rewritten items returns the text built from them, when `Find` tells of each what it told of the item it comes from. -/
theorem resolveParts_second (gen : cmExportFileGenerator) (mf : cmMakefile)
    (ge : cmGeneratorExpression) (target : cmTarget) (fuel2 : Nat)
    (parts items : List Str)
    (hrel : List.Forall₂ (fun li li1 =>
        (ge.Find li = none →
          ∀ m, (gen.AddTargetNamespace mf li1 target m).2.1 = li1)
        ∧ (ge.Find li ≠ none → ∀ fuel2 m, li1.length < fuel2 →
          ∃ m2, gen.ResolveTargetsInGeneratorExpression mf fuel2 li1 target m
            = some (li1, m2, []))) parts items) :
    List.Forall₂ (fun li li1 => (ge.Find li = none ↔ ge.Find li1 = none)) parts items →
    (∀ li1 ∈ items, li1.length < fuel2) →
    ∀ (input sep : Str) (m : List Str) (msgs : List Message),
      ∃ m2, gen.resolveParts mf ge fuel2 target items input sep m msgs
        = some (joinItems items input sep, m2, msgs) := by
  induction hrel with
  | nil =>
    intro _ _ input sep m msgs
    exact ⟨m, rfl⟩
  | @cons li li1 rest items1 hhead _ ih =>
    intro hfind hlen input sep m msgs
    cases hfind with
    | cons hfindHead hfindRest =>
      have hlenRest : ∀ l ∈ items1, l.length < fuel2 :=
        fun l hl => hlen l (List.mem_cons_of_mem _ hl)
      by_cases h1 : ge.Find li1 = none
      · have hsame := hhead.1 (hfindHead.2 h1) m
        obtain ⟨m2, hrun⟩ := ih hfindRest hlenRest (input ++ (sep ++ li1)) ";".toList
          (gen.AddTargetNamespace mf li1 target m).2.2 msgs
        refine ⟨m2, ?_⟩
        rw [cmExportFileGenerator.resolveParts, if_pos h1]
        dsimp only
        rw [hsame]
        exact hrun
      · have hli : ge.Find li ≠ none := fun e => h1 (hfindHead.1 e)
        obtain ⟨m1, hrun1⟩ := hhead.2 hli fuel2 m (hlen li1 (List.mem_cons_self _ _))
        obtain ⟨m2, hrun⟩ := ih hfindRest hlenRest (input ++ (sep ++ li1)) ";".toList
          m1 msgs
        refine ⟨m2, ?_⟩
        rw [cmExportFileGenerator.resolveParts, if_neg h1, hrun1]
        simp only [List.append_nil]
        exact hrun

/-! ## String and map lemmas -/

theorem mapFind_mapAssign (properties : ImportPropertyMap) (key value : Str) :
    mapFind (mapAssign properties key value) key = some value := by
  induction properties with
  | nil => simp [mapAssign, mapFind, List.lookup]
  | cons kv rest ih =>
    obtain ⟨k, v⟩ := kv
    unfold mapAssign
    by_cases h1 : key = k
    · simp [h1, mapFind, List.lookup]
    · by_cases h2 : strLess key k = true
      · simp [h1, h2, mapFind, List.lookup]
      · have hne : (key == k) = false := by simpa using h1
        simp only [h1, h2, if_false, mapFind, List.lookup, hne]
        exact ih

/-! ## `AddTargetNamespace` -/

/-- C1: a name that `FindTargetToUse` resolves to a non-imported target of
`ExportedTargets` is rewritten to exactly `Namespace` followed by the export
name of that target, the call returns true and `missingTargets` is
unchanged. -/
theorem AddTargetNamespace_exported (gen : cmExportFileGenerator)
    (mf : cmMakefile) (input : Str) (target tgt : cmTarget)
    (missingTargets : List Str)
    (hfind : mf.FindTargetToUse input = some tgt)
    (himported : tgt.Imported = false)
    (hexported : tgt ∈ gen.ExportedTargets) :
    gen.AddTargetNamespace mf input target missingTargets
      = (true, gen.Namespace ++ tgt.ExportName, missingTargets) := by
  simp [cmExportFileGenerator.AddTargetNamespace, hfind, himported, hexported]

/-- Witness of C1: in the concrete project the name `a` becomes `Pkg::a`. -/
theorem AddTargetNamespace_exported_witness :
    demoMakefile.FindTargetToUse "a".toList = some demoA
      ∧ demoA.Imported = false
      ∧ demoA ∈ demoGenerator.ExportedTargets
      ∧ demoGenerator.AddTargetNamespace demoMakefile "a".toList demoB []
          = (true, "Pkg::a".toList, []) :=
  ⟨by decide, by decide, by decide,
    AddTargetNamespace_exported demoGenerator demoMakefile "a".toList demoB demoA []
      (by decide) (by decide) (by decide)⟩

/-- C6: a name that resolves to no known target makes the call return false
and leaves the name and `missingTargets` unchanged; a name that resolves to an
imported target makes the call return true and leaves both unchanged. -/
theorem AddTargetNamespace_unknown_or_imported (gen : cmExportFileGenerator)
    (mf : cmMakefile) (input : Str) (target : cmTarget)
    (missingTargets : List Str) :
    (mf.FindTargetToUse input = none →
      gen.AddTargetNamespace mf input target missingTargets
        = (false, input, missingTargets))
    ∧ (∀ tgt : cmTarget, mf.FindTargetToUse input = some tgt →
        tgt.Imported = true →
        gen.AddTargetNamespace mf input target missingTargets
          = (true, input, missingTargets)) := by
  constructor
  · intro hfind
    simp [cmExportFileGenerator.AddTargetNamespace, hfind]
  · intro tgt hfind himported
    simp [cmExportFileGenerator.AddTargetNamespace, hfind, himported]

/-- Witness of C6: `zlib` names no target of the concrete project, `imp` names
its imported target. -/
theorem AddTargetNamespace_unknown_or_imported_witness :
    (demoMakefile.FindTargetToUse "zlib".toList = none
      ∧ demoGenerator.AddTargetNamespace demoMakefile "zlib".toList demoA
          ["x".toList] = (false, "zlib".toList, ["x".toList]))
    ∧ (demoMakefile.FindTargetToUse "imp".toList = some demoImp
      ∧ demoImp.Imported = true
      ∧ demoGenerator.AddTargetNamespace demoMakefile "imp".toList demoA
          ["x".toList] = (true, "imp".toList, ["x".toList])) :=
  ⟨⟨by decide,
      (AddTargetNamespace_unknown_or_imported demoGenerator demoMakefile
        "zlib".toList demoA ["x".toList]).1 (by decide)⟩,
    ⟨by decide, by decide,
      (AddTargetNamespace_unknown_or_imported demoGenerator demoMakefile
        "imp".toList demoA ["x".toList]).2 demoImp (by decide) (by decide)⟩⟩

/-- C7: when the raw property is present but empty, both the generic
passthrough and the three-argument overload store the output key with the
empty string as its value; when the raw property is unset both leave the
property map as it was. -/
theorem PopulateInterfaceProperty_empty_or_unset (gen : cmExportFileGenerator)
    (mf : cmMakefile) (ge : cmGeneratorExpression) (fuel : Nat)
    (propName outputName : Str) (target : cmTarget)
    (preprocessRule : PreprocessContext) (properties : ImportPropertyMap)
    (missingTargets : List Str) :
    (target.GetProperty propName = some [] →
      gen.PopulateInterfaceProperty mf ge fuel propName outputName target
          preprocessRule properties missingTargets
        = some (mapAssign properties outputName [], missingTargets, [])
      ∧ mapFind (mapAssign properties outputName []) outputName = some []
      ∧ mapFind (gen.PopulateInterfaceProperty3 propName target properties) propName
        = some [])
    ∧ (target.GetProperty propName = none →
      gen.PopulateInterfaceProperty mf ge fuel propName outputName target
          preprocessRule properties missingTargets
        = some (properties, missingTargets, [])
      ∧ gen.PopulateInterfaceProperty3 propName target properties = properties) := by
  constructor
  · intro hraw
    refine ⟨?_, mapFind_mapAssign _ _ _, ?_⟩
    · simp [cmExportFileGenerator.PopulateInterfaceProperty, hraw]
    · simp [cmExportFileGenerator.PopulateInterfaceProperty3, hraw, mapFind_mapAssign]
  · intro hraw
    constructor
    · simp [cmExportFileGenerator.PopulateInterfaceProperty, hraw]
    · simp [cmExportFileGenerator.PopulateInterfaceProperty3, hraw]

/-- Witness of C7: `core` has `INTERFACE_COMPILE_OPTIONS` set to the empty
string and `INTERFACE_SOURCES` unset. -/
theorem PopulateInterfaceProperty_empty_or_unset_witness :
    (demoCore.GetProperty "INTERFACE_COMPILE_OPTIONS".toList = some []
      ∧ demoGenerator.PopulateInterfaceProperty demoMakefile demoExpression 1
          "INTERFACE_COMPILE_OPTIONS".toList "INTERFACE_COMPILE_OPTIONS".toList
          demoCore PreprocessContext.InstallInterface [] []
        = some ([("INTERFACE_COMPILE_OPTIONS".toList, [])], [], []))
    ∧ (demoCore.GetProperty "INTERFACE_SOURCES".toList = none
      ∧ demoGenerator.PopulateInterfaceProperty demoMakefile demoExpression 1
          "INTERFACE_SOURCES".toList "INTERFACE_SOURCES".toList
          demoCore PreprocessContext.InstallInterface [] []
        = some ([], [], [])) :=
  ⟨⟨by decide,
      ((PopulateInterfaceProperty_empty_or_unset demoGenerator demoMakefile
        demoExpression 1 "INTERFACE_COMPILE_OPTIONS".toList
        "INTERFACE_COMPILE_OPTIONS".toList demoCore
        PreprocessContext.InstallInterface [] []).1 (by decide)).1⟩,
    ⟨by decide,
      ((PopulateInterfaceProperty_empty_or_unset demoGenerator demoMakefile
        demoExpression 1 "INTERFACE_SOURCES".toList "INTERFACE_SOURCES".toList
        demoCore PreprocessContext.InstallInterface [] []).2 (by decide)).1⟩⟩

/-! ## `checkInterfaceDirs` -/

theorem checkInterfaceDirsPaths_mono (st : cmSystemTools) (mf : cmMakefile)
    (target : cmTarget) (li : Str) (messageType : MessageType) (e : Str)
    (msgs : List Message) (m : Message) (hm : m ∈ msgs) :
    m ∈ checkInterfaceDirsPaths st mf target li messageType e msgs := by
  unfold checkInterfaceDirsPaths
  simp only
  split_ifs <;> simp [hm]

theorem checkInterfaceDirsPaths_relative (st : cmSystemTools) (mf : cmMakefile)
    (target : cmTarget) (li : Str) (messageType : MessageType) (e : Str)
    (msgs : List Message) (hrel : st.FileIsFullPath li = false) :
    (messageType, e ++ relativePathText target li)
      ∈ checkInterfaceDirsPaths st mf target li messageType e msgs := by
  unfold checkInterfaceDirsPaths
  simp only [hrel, if_true]
  split_ifs <;> simp

theorem checkInterfaceDirsItem_mono (st : cmSystemTools)
    (ge : cmGeneratorExpression) (mf : cmMakefile) (target : cmTarget) (li : Str)
    (state : Bool × List Message) (m : Message) (hm : m ∈ state.2) :
    m ∈ (checkInterfaceDirsItem st ge mf target li state).2 := by
  have hp := checkInterfaceDirsPaths_mono st mf target li
  unfold checkInterfaceDirsItem
  generalize "$\x7b_IMPORT_PREFIX\x7d".toList = tok
  cases hfind : ge.Find li with
  | none =>
    by_cases hpre : cmHasLiteralPrefix li tok = true
    · simp [hpre, hm]
    · simp [hpre, hp _ _ _ _ hm]
  | some n =>
    cases n with
    | zero => simp [hm]
    | succ k =>
      by_cases hpre : cmHasLiteralPrefix li tok = true
      · cases hpol : target.PolicyStatusCMP0041 <;> simp [hpre, hm]
      · cases hpol : target.PolicyStatusCMP0041 <;> simp [hpre, hm, hp _ _ _ _ hm]

theorem checkInterfaceDirs_foldl_mono (st : cmSystemTools)
    (ge : cmGeneratorExpression) (mf : cmMakefile) (target : cmTarget)
    (parts : List Str) (state : Bool × List Message) (m : Message)
    (hm : m ∈ state.2) :
    m ∈ (parts.foldl
      (fun state li => checkInterfaceDirsItem st ge mf target li state) state).2 := by
  induction parts generalizing state with
  | nil => exact hm
  | cons li rest ih =>
    simp only [List.foldl_cons]
    exact ih _ (checkInterfaceDirsItem_mono st ge mf target li state m hm)

/-- C8, the code at the failing input: for `core`, whose
`INTERFACE_INCLUDE_DIRECTORIES` is the relative path `include` (an item with
no generator expression), `checkInterfaceDirs` issues a fatal diagnostic and
still returns true, and `PopulateIncludeDirectoriesInterface` stores the
property next to that fatal diagnostic. -/
theorem checkInterfaceDirs_fatal_not_withheld :
    checkInterfaceDirs demoSystemTools demoExpression demoMakefile
        "include".toList demoCore
      = (true, [(MessageType.FATAL_ERROR, relativePathText demoCore "include".toList)])
    ∧ demoGenerator.PopulateIncludeDirectoriesInterface demoMakefile
        demoSystemTools demoExpression 1 { Target := demoCore }
        PreprocessContext.InstallInterface [] []
      = some ([("INTERFACE_INCLUDE_DIRECTORIES".toList, "include;".toList)], [],
          [(MessageType.FATAL_ERROR, relativePathText demoCore "include".toList)]) := by
  decide

/-- Counterexample to C10 as stated: under policy NEW the entry
`${_IMPORT_PREFIX}/include` contains no expression and is not a full path,
yet `checkInterfaceDirs` issues no diagnostic for it. -/
theorem checkInterfaceDirs_relative_counterexample :
    demoCore.PolicyStatusCMP0041 = PolicyStatus.NEW
    ∧ demoExpression.Split "$\x7b_IMPORT_PREFIX\x7d/include".toList
      = ["$\x7b_IMPORT_PREFIX\x7d/include".toList]
    ∧ demoExpression.Find "$\x7b_IMPORT_PREFIX\x7d/include".toList = none
    ∧ demoSystemTools.FileIsFullPath "$\x7b_IMPORT_PREFIX\x7d/include".toList = false
    ∧ checkInterfaceDirs demoSystemTools demoExpression demoMakefile
        "$\x7b_IMPORT_PREFIX\x7d/include".toList demoCore
      = (true, []) := by
  decide

/-- C10, amended: for every policy value, every entry of the value that
contains no generator expression, is not a full path and does not start with
the placeholder `${_IMPORT_PREFIX}` gets a fatal diagnostic that names it as
a relative path. -/
theorem checkInterfaceDirs_relative (st : cmSystemTools)
    (ge : cmGeneratorExpression) (mf : cmMakefile) (prepro : Str)
    (target : cmTarget) (li : Str)
    (hitem : li ∈ ge.Split prepro)
    (hplain : ge.Find li = none)
    (hrelative : st.FileIsFullPath li = false)
    (hplaceholder : cmHasLiteralPrefix li "$\x7b_IMPORT_PREFIX\x7d".toList = false) :
    (MessageType.FATAL_ERROR, relativePathText target li)
      ∈ (checkInterfaceDirs st ge mf prepro target).2 := by
  have key : ∀ (parts : List Str) (state : Bool × List Message), li ∈ parts →
      (MessageType.FATAL_ERROR, relativePathText target li)
        ∈ (parts.foldl
            (fun state li => checkInterfaceDirsItem st ge mf target li state) state).2 := by
    intro parts
    induction parts with
    | nil => intro state h; simp at h
    | cons x rest ih =>
      intro state h
      rw [List.foldl_cons]
      rcases List.mem_cons.1 h with rfl | hrest
      · apply checkInterfaceDirs_foldl_mono
        have hrel := checkInterfaceDirsPaths_relative st mf target li
          MessageType.FATAL_ERROR [] state.2 hrelative
        unfold checkInterfaceDirsItem
        generalize "$\x7b_IMPORT_PREFIX\x7d".toList = tok at hplaceholder
        simpa [hplain, hplaceholder] using hrel
      · exact ih _ hrest
  exact key _ _ hitem

/-- Witness of C10, amended: the entry `include` of the value
`/usr/include;include` under policy NEW. -/
theorem checkInterfaceDirs_relative_witness :
    "include".toList ∈ demoExpression.Split "/usr/include;include".toList
    ∧ demoExpression.Find "include".toList = none
    ∧ demoSystemTools.FileIsFullPath "include".toList = false
    ∧ cmHasLiteralPrefix "include".toList "$\x7b_IMPORT_PREFIX\x7d".toList = false
    ∧ (MessageType.FATAL_ERROR, relativePathText demoCore "include".toList)
      ∈ (checkInterfaceDirs demoSystemTools demoExpression demoMakefile
          "/usr/include;include".toList demoCore).2 :=
  ⟨by decide, by decide, by decide, by decide,
    checkInterfaceDirs_relative demoSystemTools demoExpression demoMakefile
      "/usr/include;include".toList demoCore "include".toList
      (by decide) (by decide) (by decide) (by decide)⟩

/-! ## `ResolveTargetsInGeneratorExpression` -/

/-- C3, the code at the failing input: in the concrete project `a` and `b`
are targets of the export set, yet for `$<TARGET_NAME:a>$<TARGET_NAME:b>` only
the first construct is replaced. After the replacement the scan goes on from
`endPos`, an offset of the text before the replacement, which lies beyond the
start of the second construct; the loop ends without an error and the output
still contains `$<TARGET_NAME:b>`. This holds with any fuel that lets the two
loops end. -/
theorem ResolveTargetsInGeneratorExpression_adjacent_unresolved (fuel : Nat) :
    demoGenerator.ResolveTargetsInGeneratorExpression demoMakefile (fuel + 2)
        "$<TARGET_NAME:a>$<TARGET_NAME:b>".toList demoA []
      = some ("Pkg::a$<TARGET_NAME:b>".toList, [], []) := by
  rfl

/-- C2, the code at the failing input: `nosuch` names no target of the
concrete project, yet for `$<TARGET_NAME:a>$<TARGET_NAME:nosuch>` no error is
reported, and none either for `$<TARGET_NAME:a>$<TARGET_NAME:$<X>>` with its
nested construct: after the first construct is replaced the scan goes on from
the stale offset `endPos` and never reaches the second construct. This holds
with any fuel that lets the two loops end. -/
theorem ResolveTargetsInGeneratorExpression_unreachable_unreported (fuel : Nat) :
    demoMakefile.FindTargetToUse "nosuch".toList = none
    ∧ demoGenerator.ResolveTargetsInGeneratorExpression demoMakefile (fuel + 2)
        "$<TARGET_NAME:a>$<TARGET_NAME:nosuch>".toList demoA []
      = some ("Pkg::a$<TARGET_NAME:nosuch>".toList, [], [])
    ∧ demoGenerator.ResolveTargetsInGeneratorExpression demoMakefile (fuel + 2)
        "$<TARGET_NAME:a>$<TARGET_NAME:$<X>>".toList demoA []
      = some ("Pkg::a$<TARGET_NAME:$<X>>".toList, [], []) := by
  exact ⟨by decide, rfl, rfl⟩

/-- Counterexample to C4 as stated: in the project whose export names chain
(`a` exported as `b`, `b` exported as `c`, no namespace) resolving a resolved
value changes it again, in the default mode and in the replace-free-targets
mode. -/
theorem ResolveTargetsInGeneratorExpressions_idempotent_counterexample :
    (chainGenerator.ResolveTargetsInGeneratorExpressions chainMakefile
        demoExpression 64 "$<TARGET_PROPERTY:a,INTERFACE_X>".toList chainA []
        FreeTargetsReplace.NoReplaceFreeTargets
      = some ("$<TARGET_PROPERTY:b,INTERFACE_X>".toList, [], [])
    ∧ chainGenerator.ResolveTargetsInGeneratorExpressions chainMakefile
        demoExpression 64 "$<TARGET_PROPERTY:b,INTERFACE_X>".toList chainA []
        FreeTargetsReplace.NoReplaceFreeTargets
      = some ("$<TARGET_PROPERTY:c,INTERFACE_X>".toList, [], []))
    ∧ (chainGenerator.ResolveTargetsInGeneratorExpressions chainMakefile
        demoExpression 64 "a".toList chainA [] FreeTargetsReplace.ReplaceFreeTargets
      = some ("b".toList, [], [])
    ∧ chainGenerator.ResolveTargetsInGeneratorExpressions chainMakefile
        demoExpression 64 "b".toList chainA [] FreeTargetsReplace.ReplaceFreeTargets
      = some ("c".toList, [], [])) := by
  refine ⟨⟨?_, ?_⟩, ?_, ?_⟩ <;> decide

/-- C4, amended: let the names `AddTargetNamespace` returns be literal (no
`,`, `>` or `$<`) whenever the name it is given is, and let it return them
unchanged when they are given to it again. Then in the default mode every
value without `$<TARGET_NAME:` is resolved, and resolving the result again
returns the same text; in the replace-free-targets mode every value whose
items with an expression hold no `$<TARGET_NAME:` is resolved to the `;`-join
of the rewritten items, and resolving that text again returns it, provided
`Split` gives those items back and `Find` tells of each of them what it told
of the item it comes from. In both modes enough fuel means more iterations
than the text has characters. -/
theorem ResolveTargetsInGeneratorExpressions_idempotent
    (gen : cmExportFileGenerator) (mf : cmMakefile) (ge : cmGeneratorExpression)
    (target : cmTarget)
    (hliteral : ∀ n m, literalName n →
      literalName (gen.AddTargetNamespace mf n target m).2.1)
    (hstable : ∀ n m m1,
      (gen.AddTargetNamespace mf (gen.AddTargetNamespace mf n target m).2.1
        target m1).2.1 = (gen.AddTargetNamespace mf n target m).2.1)
    (x : Str) (m0 : List Str) (fuel : Nat) :
    (findFirst "$<TARGET_NAME:".toList x = none → x.length < fuel →
      ∃ y m1,
        gen.ResolveTargetsInGeneratorExpressions mf ge fuel x target m0
            FreeTargetsReplace.NoReplaceFreeTargets = some (y, m1, [])
        ∧ ∀ fuel2 m, y.length < fuel2 →
          ∃ m2, gen.ResolveTargetsInGeneratorExpressions mf ge fuel2 y target m
            FreeTargetsReplace.NoReplaceFreeTargets = some (y, m2, []))
    ∧ ((∀ li ∈ ge.Split x, ge.Find li ≠ none →
          findFirst "$<TARGET_NAME:".toList li = none) →
        (∀ li ∈ ge.Split x, li.length < fuel) →
      ∃ items m1,
        gen.ResolveTargetsInGeneratorExpressions mf ge fuel x target m0
            FreeTargetsReplace.ReplaceFreeTargets
          = some (";".toList.intercalate items, m1, [])
        ∧ ∀ fuel2 m, (∀ li ∈ items, li.length < fuel2) →
          ge.Split (";".toList.intercalate items) = items →
          List.Forall₂ (fun li li1 => (ge.Find li = none ↔ ge.Find li1 = none))
            (ge.Split x) items →
          ∃ m2, gen.ResolveTargetsInGeneratorExpressions mf ge fuel2
            (";".toList.intercalate items) target m
            FreeTargetsReplace.ReplaceFreeTargets
              = some (";".toList.intercalate items, m2, [])) := by
  constructor
  · intro hTN hfuel
    exact ResolveTargetsInGeneratorExpression_idempotent_core gen mf target hliteral
      hstable x m0 fuel hTN hfuel
  · intro hTN hfuel
    obtain ⟨items, m1, hrun, hrel⟩ := resolveParts_first gen mf ge target hliteral
      hstable fuel (ge.Split x) [] [] m0 []
      (fun li hli hfind => ⟨hTN li hli hfind, hfuel li hli⟩)
    refine ⟨items, m1, ?_, ?_⟩
    · rw [← joinItems_eq_intercalate]
      exact hrun
    · intro fuel2 m hlen hsplit hfind
      obtain ⟨m2, hrun2⟩ := resolveParts_second gen mf ge target fuel2 (ge.Split x)
        items hrel hfind hlen [] [] m []
      refine ⟨m2, ?_⟩
      unfold cmExportFileGenerator.ResolveTargetsInGeneratorExpressions
      simp only
      rw [hsplit, ← joinItems_eq_intercalate]
      exact hrun2

theorem demo_AddTargetNamespace_text (n : Str) (target : cmTarget) (m : List Str) :
    (demoGenerator.AddTargetNamespace demoMakefile n target m).2.1
      = if n = "a".toList then "Pkg::a".toList
        else if n = "b".toList then "Pkg::b".toList
        else if n = "ext".toList then "Other::ext".toList
        else n := by
  by_cases ha : n = "a".toList
  · subst ha; rfl
  · by_cases hb : n = "b".toList
    · subst hb; rfl
    · by_cases hc : n = "ext".toList
      · subst hc; rfl
      · by_cases hd : n = "imp".toList
        · subst hd; rfl
        · rw [if_neg ha, if_neg hb, if_neg hc]
          have hnone : demoMakefile.FindTargetToUse n = none := by
            simp only [demoMakefile, List.find?, demoA, demoB, demoExt, demoImp]
            rw [decide_eq_false (Ne.symm ha), decide_eq_false (Ne.symm hb),
              decide_eq_false (Ne.symm hc), decide_eq_false (Ne.symm hd)]
          simp [cmExportFileGenerator.AddTargetNamespace, hnone]

theorem demo_literal (target : cmTarget) (n : Str) (m : List Str)
    (h : literalName n) :
    literalName (demoGenerator.AddTargetNamespace demoMakefile n target m).2.1 := by
  rw [demo_AddTargetNamespace_text]
  split_ifs
  · decide
  · decide
  · decide
  · exact h

theorem demo_stable (target : cmTarget) (n : Str) (m m1 : List Str) :
    (demoGenerator.AddTargetNamespace demoMakefile
      (demoGenerator.AddTargetNamespace demoMakefile n target m).2.1 target m1).2.1
      = (demoGenerator.AddTargetNamespace demoMakefile n target m).2.1 := by
  by_cases ha : n = "a".toList
  · subst ha; rfl
  · by_cases hb : n = "b".toList
    · subst hb; rfl
    · by_cases hc : n = "ext".toList
      · subst hc; rfl
      · have h1 : (demoGenerator.AddTargetNamespace demoMakefile n target m).2.1 = n := by
          rw [demo_AddTargetNamespace_text, if_neg ha, if_neg hb, if_neg hc]
        rw [h1, demo_AddTargetNamespace_text, if_neg ha, if_neg hb, if_neg hc]

/-- Witness of C4, amended: the value `$<TARGET_PROPERTY:a,INTERFACE_X>;b` of
the concrete project. With 64 iterations the default mode gives
`$<TARGET_PROPERTY:Pkg::a,INTERFACE_X>;b` and the replace-free-targets mode
gives `$<TARGET_PROPERTY:Pkg::a,INTERFACE_X>;Pkg::b`; resolving either again
returns it. -/
theorem ResolveTargetsInGeneratorExpressions_idempotent_witness :
    (∀ n m, literalName n →
      literalName (demoGenerator.AddTargetNamespace demoMakefile n demoA m).2.1)
    ∧ (∀ n m m1,
      (demoGenerator.AddTargetNamespace demoMakefile
        (demoGenerator.AddTargetNamespace demoMakefile n demoA m).2.1 demoA m1).2.1
        = (demoGenerator.AddTargetNamespace demoMakefile n demoA m).2.1)
    ∧ (findFirst "$<TARGET_NAME:".toList demoValue = none ∧ demoValue.length < 64)
    ∧ ((∀ li ∈ demoExpression.Split demoValue, demoExpression.Find li ≠ none →
          findFirst "$<TARGET_NAME:".toList li = none)
      ∧ (∀ li ∈ demoExpression.Split demoValue, li.length < 64))
    ∧ (∃ y m1,
        demoGenerator.ResolveTargetsInGeneratorExpressions demoMakefile
            demoExpression 64 demoValue demoA []
            FreeTargetsReplace.NoReplaceFreeTargets = some (y, m1, [])
        ∧ ∀ fuel2 m, y.length < fuel2 →
          ∃ m2, demoGenerator.ResolveTargetsInGeneratorExpressions demoMakefile
            demoExpression fuel2 y demoA m
            FreeTargetsReplace.NoReplaceFreeTargets = some (y, m2, []))
    ∧ (demoGenerator.ResolveTargetsInGeneratorExpressions demoMakefile
          demoExpression 64 demoValue demoA []
          FreeTargetsReplace.NoReplaceFreeTargets
        = some ("$<TARGET_PROPERTY:Pkg::a,INTERFACE_X>;b".toList, [], [])
      ∧ demoGenerator.ResolveTargetsInGeneratorExpressions demoMakefile
          demoExpression 64 "$<TARGET_PROPERTY:Pkg::a,INTERFACE_X>;b".toList demoA []
          FreeTargetsReplace.NoReplaceFreeTargets
        = some ("$<TARGET_PROPERTY:Pkg::a,INTERFACE_X>;b".toList, [], []))
    ∧ (demoGenerator.ResolveTargetsInGeneratorExpressions demoMakefile
          demoExpression 64 demoValue demoA []
          FreeTargetsReplace.ReplaceFreeTargets
        = some ("$<TARGET_PROPERTY:Pkg::a,INTERFACE_X>;Pkg::b".toList, [], [])
      ∧ demoExpression.Split "$<TARGET_PROPERTY:Pkg::a,INTERFACE_X>;Pkg::b".toList
        = ["$<TARGET_PROPERTY:Pkg::a,INTERFACE_X>".toList, "Pkg::b".toList]
      ∧ demoGenerator.ResolveTargetsInGeneratorExpressions demoMakefile
          demoExpression 64 "$<TARGET_PROPERTY:Pkg::a,INTERFACE_X>;Pkg::b".toList
          demoA [] FreeTargetsReplace.ReplaceFreeTargets
        = some ("$<TARGET_PROPERTY:Pkg::a,INTERFACE_X>;Pkg::b".toList, [], []))
    ∧ (∃ items m1,
        demoGenerator.ResolveTargetsInGeneratorExpressions demoMakefile
            demoExpression 64 demoValue demoA []
            FreeTargetsReplace.ReplaceFreeTargets
          = some (";".toList.intercalate items, m1, [])
        ∧ ∀ fuel2 m, (∀ li ∈ items, li.length < fuel2) →
          demoExpression.Split (";".toList.intercalate items) = items →
          List.Forall₂
            (fun li li1 => (demoExpression.Find li = none ↔ demoExpression.Find li1 = none))
            (demoExpression.Split demoValue) items →
          ∃ m2, demoGenerator.ResolveTargetsInGeneratorExpressions demoMakefile
            demoExpression fuel2 (";".toList.intercalate items) demoA m
            FreeTargetsReplace.ReplaceFreeTargets
              = some (";".toList.intercalate items, m2, [])) :=
  ⟨demo_literal demoA, demo_stable demoA, ⟨by decide, by decide⟩,
    ⟨by decide, by decide⟩,
    (ResolveTargetsInGeneratorExpressions_idempotent demoGenerator demoMakefile
      demoExpression demoA (demo_literal demoA) (demo_stable demoA) demoValue [] 64).1
      (by decide) (by decide),
    ⟨by decide, by decide⟩, ⟨by decide, by decide, by decide⟩,
    (ResolveTargetsInGeneratorExpressions_idempotent demoGenerator demoMakefile
      demoExpression demoA (demo_literal demoA) (demo_stable demoA) demoValue [] 64).2
      (by decide) (by decide)⟩

/-! ## `checkInterfaceDirs`: the install prefix and the source directory -/

/-- An entry without generator expression that is a full path inside the
install prefix, itself inside the build directory, changes neither
`hadFatalError` nor the messages. -/
theorem checkInterfaceDirsItem_install_prefix (st : cmSystemTools)
    (ge : cmGeneratorExpression) (mf : cmMakefile) (target : cmTarget) (li : Str)
    (state : Bool × List Message)
    (hplain : ge.Find li = none)
    (hfull : st.FileIsFullPath li = true)
    (hinstall : isSubDirectory st li mf.InstallPrefix = true)
    (hbuild : isSubDirectory st mf.InstallPrefix mf.HomeOutputDirectory = true) :
    checkInterfaceDirsItem st ge mf target li state = state := by
  unfold checkInterfaceDirsItem
  generalize "$\x7b_IMPORT_PREFIX\x7d".toList = tok
  by_cases hpre : cmHasLiteralPrefix li tok = true
  · simp [hplain, hpre]
  · simp [hplain, hpre, checkInterfaceDirsPaths, hfull, hinstall, hbuild]

/-- C11, the code at the failing input: with the install prefix
`/build/stage-$<CONFIG>` under the build directory `/build` and policy
CMP0041 set to NEW, the entry equal to the install prefix gets no diagnostic,
yet `checkInterfaceDirs` returns false: `hadFatalError` is set in the policy
switch before any path is looked at. Under OLD the same entry, and under NEW
the plain prefix `/build/stage`, leave the result true. -/
theorem checkInterfaceDirs_install_prefix_flagged :
    demoCore.PolicyStatusCMP0041 = PolicyStatus.NEW
    ∧ isSubDirectory demoSystemTools stageMakefile.InstallPrefix
        stageMakefile.HomeOutputDirectory = true
    ∧ checkInterfaceDirs demoSystemTools demoExpression stageMakefile
        stageMakefile.InstallPrefix demoCore = (false, [])
    ∧ checkInterfaceDirs demoSystemTools demoExpression stageMakefile
        stageMakefile.InstallPrefix demoCoreOld = (true, [])
    ∧ checkInterfaceDirs demoSystemTools demoExpression plainStageMakefile
        plainStageMakefile.InstallPrefix demoCore = (true, []) := by
  refine ⟨?_, ?_, ?_, ?_, ?_⟩ <;> decide

/-- Counterexample to C12 as stated: the build directory `/src/build` lies in
the source directory `/src` (an out-of-source build) and the install prefix is
`/src/build/install`; the entry `/src/build/install/include` lies inside the
source directory and gets no diagnostic. -/
theorem checkInterfaceDirs_source_counterexample :
    nestedMakefile.HomeDirectory ≠ nestedMakefile.HomeOutputDirectory
    ∧ demoExpression.Find "/src/build/install/include".toList = none
    ∧ isSubDirectory demoSystemTools "/src/build/install/include".toList
        nestedMakefile.HomeDirectory = true
    ∧ checkInterfaceDirs demoSystemTools demoExpression nestedMakefile
        "/src/build/install/include".toList demoCore = (true, []) := by
  refine ⟨?_, ?_, ?_, ?_⟩ <;> decide

/-- In an out-of-source build the path checks report an entry inside the
source directory, unless it is inside the install prefix under the build
directory. -/
theorem checkInterfaceDirsPaths_source (st : cmSystemTools) (mf : cmMakefile)
    (target : cmTarget) (li : Str) (messageType : MessageType) (e : Str)
    (msgs : List Message)
    (hout : mf.HomeDirectory ≠ mf.HomeOutputDirectory)
    (hexempt : ¬ (isSubDirectory st li mf.InstallPrefix = true
      ∧ isSubDirectory st mf.InstallPrefix mf.HomeOutputDirectory = true))
    (hsource : isSubDirectory st li mf.HomeDirectory = true) :
    ∃ pre, (messageType, pre ++ sourceDirText target li)
      ∈ checkInterfaceDirsPaths st mf target li messageType e msgs := by
  unfold checkInterfaceDirsPaths
  simp only [Bool.and_eq_true]
  rw [if_neg hexempt]
  simp only [hout, decide_False, if_true, hsource]
  exact ⟨_, List.mem_append_right _ (List.mem_singleton_self _)⟩

theorem not_source_suffix_of_quote (x : Str) :
    ¬ "which is prefixed in the source directory.".toList <:+ x ++ "\"".toList := by
  intro h
  have h2 := List.reverse_prefix.2 h
  have hrev : (x ++ "\"".toList).reverse = '"' :: x.reverse := by
    simp
  rw [hrev] at h2
  have hS : "which is prefixed in the source directory.".toList.reverse
      = '.' :: "which is prefixed in the source directory".toList.reverse := by
    decide
  rw [hS] at h2
  exact absurd (List.cons_prefix_cons.1 h2).1 (by decide)

theorem not_source_suffix_of_build (x : Str) :
    ¬ "which is prefixed in the source directory.".toList
      <:+ x ++ "\"\nwhich is prefixed in the build directory.".toList := by
  intro h
  have h2 : "which is prefixed in the source directory.".toList
      <:+ "\"\nwhich is prefixed in the build directory.".toList :=
    List.suffix_of_suffix_length_le h (List.suffix_append _ _) (by decide)
  revert h2
  decide

theorem not_source_suffix_relative (e : Str) (target : cmTarget) (li : Str) :
    ¬ "which is prefixed in the source directory.".toList
      <:+ e ++ relativePathText target li := by
  unfold relativePathText
  rw [← List.append_assoc]
  exact not_source_suffix_of_quote _

theorem not_source_suffix_buildDir (e : Str) (target : cmTarget) (li : Str) :
    ¬ "which is prefixed in the source directory.".toList
      <:+ e ++ buildDirText target li := by
  unfold buildDirText
  rw [← List.append_assoc]
  exact not_source_suffix_of_build _

/-- In an in-source build the path checks add no message that ends with the
source-directory sentence. -/
theorem checkInterfaceDirsPaths_in_source (st : cmSystemTools) (mf : cmMakefile)
    (target : cmTarget) (li : Str) (messageType : MessageType) (e : Str)
    (msgs : List Message)
    (hin : mf.HomeDirectory = mf.HomeOutputDirectory)
    (hmsgs : ∀ m ∈ msgs,
      ¬ "which is prefixed in the source directory.".toList <:+ m.2) :
    ∀ m ∈ checkInterfaceDirsPaths st mf target li messageType e msgs,
      ¬ "which is prefixed in the source directory.".toList <:+ m.2 := by
  have hr := not_source_suffix_relative e target li
  have hb := not_source_suffix_buildDir e target li
  have hrb := not_source_suffix_buildDir (e ++ relativePathText target li) target li
  generalize "which is prefixed in the source directory.".toList = S at *
  unfold checkInterfaceDirsPaths
  simp only [hin, decide_True, Bool.true_eq_false, if_false]
  intro m hm
  split_ifs at hm <;> try simp only [List.mem_append, List.mem_singleton] at hm
  all_goals
    first
    | exact hmsgs m hm
    | (rcases hm with hm | rfl
       · exact hmsgs m hm
       · first | exact hr | exact hb)
    | (rcases hm with (hm | rfl) | rfl
       · exact hmsgs m hm
       · exact hr
       · exact hrb)

theorem checkInterfaceDirsItem_in_source (st : cmSystemTools)
    (ge : cmGeneratorExpression) (mf : cmMakefile) (target : cmTarget) (li : Str)
    (state : Bool × List Message)
    (hin : mf.HomeDirectory = mf.HomeOutputDirectory)
    (hmsgs : ∀ m ∈ state.2,
      ¬ "which is prefixed in the source directory.".toList <:+ m.2) :
    ∀ m ∈ (checkInterfaceDirsItem st ge mf target li state).2,
      ¬ "which is prefixed in the source directory.".toList <:+ m.2 := by
  have hp := fun mt e =>
    checkInterfaceDirsPaths_in_source st mf target li mt e state.2 hin hmsgs
  generalize "which is prefixed in the source directory.".toList = S at *
  unfold checkInterfaceDirsItem
  generalize "$\x7b_IMPORT_PREFIX\x7d".toList = tok
  cases hfind : ge.Find li with
  | none =>
    by_cases hpre : cmHasLiteralPrefix li tok = true
    · simpa [hpre] using hmsgs
    · simpa [hpre] using hp _ _
  | some n =>
    cases n with
    | zero => simpa using hmsgs
    | succ k =>
      by_cases hpre : cmHasLiteralPrefix li tok = true
      · cases hpol : target.PolicyStatusCMP0041 <;> simpa [hpre] using hmsgs
      · cases hpol : target.PolicyStatusCMP0041
        all_goals first | simpa [hpre] using hmsgs | simpa [hpre] using hp _ _

theorem checkInterfaceDirs_foldl_in_source (st : cmSystemTools)
    (ge : cmGeneratorExpression) (mf : cmMakefile) (target : cmTarget)
    (hin : mf.HomeDirectory = mf.HomeOutputDirectory)
    (parts : List Str) (state : Bool × List Message)
    (hmsgs : ∀ m ∈ state.2,
      ¬ "which is prefixed in the source directory.".toList <:+ m.2) :
    ∀ m ∈ (parts.foldl
        (fun state li => checkInterfaceDirsItem st ge mf target li state) state).2,
      ¬ "which is prefixed in the source directory.".toList <:+ m.2 := by
  induction parts generalizing state with
  | nil => exact hmsgs
  | cons li rest ih =>
    rw [List.foldl_cons]
    exact ih _ (checkInterfaceDirsItem_in_source st ge mf target li state hin hmsgs)

/-- C12, amended: in an out-of-source build every entry of the value that
contains no generator expression, does not start with the placeholder
`${_IMPORT_PREFIX}`, is not inside an install prefix that lies in the build
directory, and lies inside the source directory gets a fatal diagnostic that
ends with the source-directory text for that entry; in an in-source build no
diagnostic ends with the sentence `which is prefixed in the source
directory.`. -/
theorem checkInterfaceDirs_source (st : cmSystemTools)
    (ge : cmGeneratorExpression) (mf : cmMakefile) (prepro : Str)
    (target : cmTarget) :
    (∀ li : Str, mf.HomeDirectory ≠ mf.HomeOutputDirectory →
      li ∈ ge.Split prepro →
      ge.Find li = none →
      cmHasLiteralPrefix li "$\x7b_IMPORT_PREFIX\x7d".toList = false →
      ¬ (isSubDirectory st li mf.InstallPrefix = true
        ∧ isSubDirectory st mf.InstallPrefix mf.HomeOutputDirectory = true) →
      isSubDirectory st li mf.HomeDirectory = true →
      ∃ pre, (MessageType.FATAL_ERROR, pre ++ sourceDirText target li)
        ∈ (checkInterfaceDirs st ge mf prepro target).2)
    ∧ (mf.HomeDirectory = mf.HomeOutputDirectory →
      ∀ m ∈ (checkInterfaceDirs st ge mf prepro target).2,
        ¬ "which is prefixed in the source directory.".toList <:+ m.2) := by
  constructor
  · intro li hout hitem hplain hplaceholder hexempt hsource
    have key : ∀ (parts : List Str) (state : Bool × List Message), li ∈ parts →
        ∃ pre, (MessageType.FATAL_ERROR, pre ++ sourceDirText target li)
          ∈ (parts.foldl
              (fun state li => checkInterfaceDirsItem st ge mf target li state) state).2 := by
      intro parts
      induction parts with
      | nil => intro state h; simp at h
      | cons x rest ih =>
        intro state h
        rw [List.foldl_cons]
        rcases List.mem_cons.1 h with rfl | hrest
        · obtain ⟨pre, hpre⟩ := checkInterfaceDirsPaths_source st mf target li
            MessageType.FATAL_ERROR [] state.2 hout hexempt hsource
          refine ⟨pre, ?_⟩
          apply checkInterfaceDirs_foldl_mono
          unfold checkInterfaceDirsItem
          generalize "$\x7b_IMPORT_PREFIX\x7d".toList = tok at hplaceholder
          simpa [hplain, hplaceholder] using hpre
        · exact ih _ hrest
    exact key _ _ hitem
  · intro hin
    exact checkInterfaceDirs_foldl_in_source st ge mf target hin _ _ (by simp)

/-- Witness of C12, amended: out of source, the entry `/src/include` of the
value `/usr/include;/src/include` is reported; in the in-source build in
`/src` nothing is reported with the source-directory sentence. -/
theorem checkInterfaceDirs_source_witness :
    (∃ pre, (MessageType.FATAL_ERROR, pre ++ sourceDirText demoCore "/src/include".toList)
      ∈ (checkInterfaceDirs demoSystemTools demoExpression demoMakefile
          "/usr/include;/src/include".toList demoCore).2)
    ∧ (∀ m ∈ (checkInterfaceDirs demoSystemTools demoExpression inSourceMakefile
          "/usr/include;/src/include".toList demoCore).2,
        ¬ "which is prefixed in the source directory.".toList <:+ m.2) :=
  ⟨(checkInterfaceDirs_source demoSystemTools demoExpression demoMakefile
      "/usr/include;/src/include".toList demoCore).1 "/src/include".toList
      (by decide) (by decide) (by decide) (by decide) (by decide) (by decide),
    (checkInterfaceDirs_source demoSystemTools demoExpression inSourceMakefile
      "/usr/include;/src/include".toList demoCore).2 (by decide)⟩

/-! ## `PopulateInterfaceLinkLibrariesProperty` -/

/-- C13: `PopulateInterfaceLinkLibrariesProperty` returns false, with the
property map and `missingTargets` as they were and no message, for a target
that is not linkable, whose `INTERFACE_LINK_LIBRARIES` is unset, or whose
preprocessed value is empty (so for the raw value `""` when preprocessing
keeps the empty string empty); for a linkable target with a non-empty
preprocessed value it returns when the resolution of the value returns, with
true and the resolved value stored under `INTERFACE_LINK_LIBRARIES`. Whenever
it returns, either the flag is true and the key is stored, or the flag is
false and the map and `missingTargets` are unchanged. -/
theorem PopulateInterfaceLinkLibrariesProperty_flag (gen : cmExportFileGenerator)
    (mf : cmMakefile) (ge : cmGeneratorExpression) (fuel : Nat) (target : cmTarget)
    (preprocessRule : PreprocessContext) (properties : ImportPropertyMap)
    (missingTargets : List Str) :
    ((target.Linkable = false
        ∨ target.GetProperty "INTERFACE_LINK_LIBRARIES".toList = none
        ∨ (∃ input, target.GetProperty "INTERFACE_LINK_LIBRARIES".toList = some input
            ∧ ge.Preprocess input preprocessRule false = [])) →
      gen.PopulateInterfaceLinkLibrariesProperty mf ge fuel target preprocessRule
          properties missingTargets
        = some (false, properties, missingTargets, []))
    ∧ (∀ input, target.Linkable = true →
        target.GetProperty "INTERFACE_LINK_LIBRARIES".toList = some input →
        ge.Preprocess input preprocessRule false ≠ [] →
        gen.PopulateInterfaceLinkLibrariesProperty mf ge fuel target preprocessRule
            properties missingTargets
          = (gen.ResolveTargetsInGeneratorExpressions mf ge fuel
              (ge.Preprocess input preprocessRule false) target missingTargets
              FreeTargetsReplace.ReplaceFreeTargets).map
            (fun r => (true,
              mapAssign properties "INTERFACE_LINK_LIBRARIES".toList r.1, r.2.1, r.2.2)))
    ∧ (∀ flag map missing1 msgs,
        gen.PopulateInterfaceLinkLibrariesProperty mf ge fuel target preprocessRule
            properties missingTargets = some (flag, map, missing1, msgs) →
        (flag = true ∧ ∃ v, map = mapAssign properties "INTERFACE_LINK_LIBRARIES".toList v
            ∧ mapFind map "INTERFACE_LINK_LIBRARIES".toList = some v)
        ∨ (flag = false ∧ map = properties ∧ missing1 = missingTargets)) := by
  generalize hkey : "INTERFACE_LINK_LIBRARIES".toList = key
  refine ⟨?_, ?_, ?_⟩
  · intro h
    unfold cmExportFileGenerator.PopulateInterfaceLinkLibrariesProperty
    rw [hkey]
    rcases h with h | h | ⟨input, h1, h2⟩
    · simp [h]
    · simp [h]
    · by_cases hl : target.Linkable = false
      · simp [hl]
      · simp [hl, h1, h2]
  · intro input hl hraw hne
    unfold cmExportFileGenerator.PopulateInterfaceLinkLibrariesProperty
    rw [hkey]
    simp only [hl, Bool.true_eq_false, if_false, hraw, hne, ne_eq, not_false_eq_true, if_true]
    cases gen.ResolveTargetsInGeneratorExpressions mf ge fuel
        (ge.Preprocess input preprocessRule false) target missingTargets
        FreeTargetsReplace.ReplaceFreeTargets with
    | none => rfl
    | some r => rfl
  · intro flag map missing1 msgs h
    unfold cmExportFileGenerator.PopulateInterfaceLinkLibrariesProperty at h
    rw [hkey] at h
    by_cases hl : target.Linkable = false
    · rw [if_pos hl] at h
      simp only [Option.some.injEq, Prod.mk.injEq] at h
      exact Or.inr ⟨h.1.symm, h.2.1.symm, h.2.2.1.symm⟩
    · rw [if_neg hl] at h
      cases hraw : target.GetProperty key with
      | none =>
        rw [hraw] at h
        simp only [Option.some.injEq, Prod.mk.injEq] at h
        exact Or.inr ⟨h.1.symm, h.2.1.symm, h.2.2.1.symm⟩
      | some input =>
        rw [hraw] at h
        simp only at h
        by_cases hne : ge.Preprocess input preprocessRule false = []
        · simp only [hne, ne_eq, not_true_eq_false, if_false, Option.some.injEq,
            Prod.mk.injEq] at h
          exact Or.inr ⟨h.1.symm, h.2.1.symm, h.2.2.1.symm⟩
        · simp only [hne, ne_eq, not_false_eq_true, if_true] at h
          cases hr : gen.ResolveTargetsInGeneratorExpressions mf ge fuel
              (ge.Preprocess input preprocessRule false) target missingTargets
              FreeTargetsReplace.ReplaceFreeTargets with
          | none => rw [hr] at h; simp at h
          | some r =>
            rw [hr] at h
            simp only [Option.some.injEq, Prod.mk.injEq] at h
            exact Or.inl ⟨h.1.symm, r.1, h.2.1.symm, by
              rw [← h.2.1]; exact mapFind_mapAssign _ _ _⟩

/-- Witness of C13: `notLinkable` is not linkable, `core` has no
`INTERFACE_LINK_LIBRARIES`, and for `linked` the value is resolved and
stored. -/
theorem PopulateInterfaceLinkLibrariesProperty_flag_witness :
    demoGenerator.PopulateInterfaceLinkLibrariesProperty demoMakefile demoExpression 40
        demoNotLinkable PreprocessContext.InstallInterface [] []
      = some (false, [], [], [])
    ∧ demoGenerator.PopulateInterfaceLinkLibrariesProperty demoMakefile demoExpression 40
        demoCore PreprocessContext.InstallInterface [] []
      = some (false, [], [], [])
    ∧ demoGenerator.PopulateInterfaceLinkLibrariesProperty demoMakefile demoExpression 40
        demoLinked PreprocessContext.InstallInterface [] []
      = some (true,
          [("INTERFACE_LINK_LIBRARIES".toList,
            "Pkg::a;Other::ext;m;$<TARGET_PROPERTY:Pkg::b,LOCATION>".toList)],
          ["ext".toList], []) :=
  ⟨(PopulateInterfaceLinkLibrariesProperty_flag demoGenerator demoMakefile
      demoExpression 40 demoNotLinkable PreprocessContext.InstallInterface [] []).1
      (Or.inl (by decide)),
    (PopulateInterfaceLinkLibrariesProperty_flag demoGenerator demoMakefile
      demoExpression 40 demoCore PreprocessContext.InstallInterface [] []).1
      (Or.inr (Or.inl (by decide))),
    ((PopulateInterfaceLinkLibrariesProperty_flag demoGenerator demoMakefile
      demoExpression 40 demoLinked PreprocessContext.InstallInterface [] []).2.1
      "a;ext;m;$<TARGET_PROPERTY:b,LOCATION>".toList
      (by decide) (by decide) (by decide)).trans rfl⟩

/-! ## The order of the keys of an `ImportPropertyMap` -/

theorem char_eq_of_toNat (a b : Char) (h : a.toNat = b.toNat) : a = b := by
  apply Char.ext
  apply UInt32.ext
  exact h

theorem strLess_irrefl (a : Str) : strLess a a = false := by
  induction a with
  | nil => rfl
  | cons c cs ih => simp [strLess, ih]

theorem strLess_trans (a b c : Str) (hab : strLess a b = true)
    (hbc : strLess b c = true) : strLess a c = true := by
  induction a generalizing b c with
  | nil =>
    cases b with
    | nil => simp [strLess] at hab
    | cons y ys =>
      cases c with
      | nil => simp [strLess] at hbc
      | cons z zs => simp [strLess]
  | cons x xs ih =>
    cases b with
    | nil => simp [strLess] at hab
    | cons y ys =>
      cases c with
      | nil => simp [strLess] at hbc
      | cons z zs =>
        unfold strLess at hab hbc ⊢
        by_cases h1 : x.toNat < y.toNat
        · by_cases h2 : y.toNat < z.toNat
          · rw [if_pos (by omega)]
          · rw [if_neg h2] at hbc
            by_cases h3 : z.toNat < y.toNat
            · rw [if_pos h3] at hbc; simp at hbc
            · rw [if_pos (by omega)]
        · rw [if_neg h1] at hab
          by_cases h1b : y.toNat < x.toNat
          · rw [if_pos h1b] at hab; simp at hab
          · rw [if_neg h1b] at hab
            by_cases h2 : y.toNat < z.toNat
            · rw [if_pos (by omega)]
            · rw [if_neg h2] at hbc
              by_cases h3 : z.toNat < y.toNat
              · rw [if_pos h3] at hbc; simp at hbc
              · rw [if_neg h3] at hbc
                rw [if_neg (by omega), if_neg (by omega)]
                exact ih ys zs hab hbc

theorem strLess_total (a b : Str) (hne : a ≠ b) (h : strLess a b = false) :
    strLess b a = true := by
  induction a generalizing b with
  | nil =>
    cases b with
    | nil => exact absurd rfl hne
    | cons y ys => simp [strLess] at h
  | cons x xs ih =>
    cases b with
    | nil => simp [strLess]
    | cons y ys =>
      unfold strLess at h ⊢
      by_cases h1 : x.toNat < y.toNat
      · rw [if_pos h1] at h; simp at h
      · rw [if_neg h1] at h
        by_cases h2 : y.toNat < x.toNat
        · rw [if_pos h2]
        · rw [if_neg h2] at h
          rw [if_neg h2, if_neg h1]
          have hxy : x = y := char_eq_of_toNat x y (by omega)
          apply ih ys _ h
          intro hxs
          exact hne (by rw [hxy, hxs])

/-- The keys after `properties[key] = value` are `key` and the keys before. -/
theorem mapAssign_keys (properties : ImportPropertyMap) (key value : Str)
    (kv : Str × Str) (h : kv ∈ mapAssign properties key value) :
    kv = (key, value) ∨ kv ∈ properties := by
  induction properties with
  | nil =>
    simp only [mapAssign, List.mem_singleton] at h
    exact Or.inl h
  | cons e rest ih =>
    obtain ⟨k, v⟩ := e
    unfold mapAssign at h
    split_ifs at h with h1 h2
    · rcases List.mem_cons.1 h with h | h
      · exact Or.inl h
      · exact Or.inr (List.mem_cons_of_mem _ h)
    · rcases List.mem_cons.1 h with h | h
      · exact Or.inl h
      · exact Or.inr h
    · rcases List.mem_cons.1 h with h | h
      · exact Or.inr (h ▸ List.mem_cons_self _ _)
      · rcases ih h with h | h
        · exact Or.inl h
        · exact Or.inr (List.mem_cons_of_mem _ h)

/-- The assignment `properties[key] = value` keeps the keys in strictly
ascending order. -/
theorem mapAssign_ordered (properties : ImportPropertyMap) (key value : Str)
    (h : mapOrdered properties) : mapOrdered (mapAssign properties key value) := by
  unfold mapOrdered at h ⊢
  induction properties with
  | nil => simp [mapAssign]
  | cons e rest ih =>
    obtain ⟨k, v⟩ := e
    rw [List.pairwise_cons] at h
    unfold mapAssign
    split_ifs with h1 h2
    · rw [List.pairwise_cons]
      exact ⟨fun a ha => h1 ▸ h.1 a ha, h.2⟩
    · rw [List.pairwise_cons]
      refine ⟨?_, List.pairwise_cons.2 h⟩
      intro a ha
      rcases List.mem_cons.1 ha with rfl | ha
      · exact h2
      · exact strLess_trans _ _ _ h2 (h.1 a ha)
    · rw [List.pairwise_cons]
      refine ⟨?_, ih h.2⟩
      intro a ha
      rcases mapAssign_keys rest key value a ha with rfl | ha
      · exact strLess_total key k h1 (by simpa using h2)
      · exact h.1 a ha

/-- In an ordered map no key occurs twice. -/
theorem mapOrdered_nodup (properties : ImportPropertyMap) (h : mapOrdered properties) :
    (properties.map Prod.fst).Nodup := by
  unfold mapOrdered at h
  rw [List.Nodup, List.pairwise_map]
  refine h.imp ?_
  intro a b hab heq
  rw [heq, strLess_irrefl] at hab
  exact absurd hab (by simp)

/-- An assignment to another key leaves a lookup as it was. -/
theorem mapFind_mapAssign_ne (properties : ImportPropertyMap) (key value other : Str)
    (hne : other ≠ key) :
    mapFind (mapAssign properties key value) other = mapFind properties other := by
  have hbeq : (other == key) = false := by simpa using hne
  induction properties with
  | nil => simp [mapAssign, mapFind, List.lookup, hbeq]
  | cons e rest ih =>
    obtain ⟨k, v⟩ := e
    unfold mapAssign
    split_ifs with h1 h2
    · subst h1
      simp [mapFind, List.lookup, hbeq]
    · simp [mapFind, List.lookup, hbeq]
    · unfold mapFind at ih ⊢
      simp only [List.lookup]
      rw [ih]

/-! ## Compatible interface properties -/

theorem mem_setInsert (s : StrSet) (x y : Str) :
    y ∈ setInsert s x ↔ y ∈ s ∨ y = x := by
  induction s with
  | nil => simp [setInsert]
  | cons z rest ih =>
    unfold setInsert
    split_ifs with h1 h2
    · subst h1
      simp only [List.mem_cons]
      tauto
    · simp only [List.mem_cons]
      tauto
    · simp only [List.mem_cons, ih]
      tauto

theorem mem_foldl_setInsert (l : List Str) (s : StrSet) (y : Str) :
    y ∈ l.foldl setInsert s ↔ y ∈ s ∨ y ∈ l := by
  induction l generalizing s with
  | nil => simp
  | cons x rest ih =>
    rw [List.foldl_cons, ih, mem_setInsert]
    simp only [List.mem_cons]
    tauto

theorem mem_getPropertyContents (bm : cmBuildModel) (tgt : cmTarget) (prop : Str)
    (s : StrSet) (y : Str) :
    y ∈ getPropertyContents bm tgt prop s
      ↔ y ∈ s ∨ y ∈ (match tgt.GetProperty prop with
          | none => []
          | some p => bm.ExpandListArgument p) := by
  unfold getPropertyContents
  cases tgt.GetProperty prop with
  | none => simp
  | some p => simp only [mem_foldl_setInsert]

/-- The four calls on one target add the names the target lists. -/
theorem mem_getPropertyContents4 (bm : cmBuildModel) (tgt : cmTarget)
    (s : StrSet) (y : Str) :
    y ∈ getPropertyContents4 bm tgt s ↔ y ∈ s ∨ y ∈ declaredCompatibleNames bm tgt := by
  unfold getPropertyContents4 declaredCompatibleNames
  simp only [mem_getPropertyContents, List.flatMap_cons, List.flatMap_nil,
    List.mem_append, List.not_mem_nil, or_false]
  tauto

theorem mem_getCompatibleInterfaceProperties (bm : cmBuildModel) (target : cmTarget)
    (s : StrSet) (config : Str) (y : Str) :
    y ∈ (getCompatibleInterfaceProperties bm target s config).1
      ↔ y ∈ s ∨ ∃ deps, bm.GetLinkInformation target config = some deps
          ∧ ∃ t, some t ∈ deps ∧ y ∈ declaredCompatibleNames bm t := by
  unfold getCompatibleInterfaceProperties
  cases bm.GetLinkInformation target config with
  | none => simp
  | some deps =>
    simp only [Option.some.injEq, exists_eq_left']
    induction deps generalizing s with
    | nil => simp
    | cons d rest ih =>
      rw [List.foldl_cons, ih]
      cases d with
      | none => simp
      | some t =>
        simp only [mem_getPropertyContents4, List.mem_cons, Option.some.injEq]
        constructor
        · rintro ((h | h) | ⟨t1, h1, h2⟩)
          · exact Or.inl h
          · exact Or.inr ⟨t, Or.inl rfl, h⟩
          · exact Or.inr ⟨t1, Or.inr h1, h2⟩
        · rintro (h | ⟨t1, h1 | h1, h2⟩)
          · exact Or.inl (Or.inl h)
          · exact Or.inl (Or.inr (h1 ▸ h2))
          · exact Or.inr ⟨t1, h1, h2⟩

/-- The set `ifaceProperties` holds the names the target lists and, unless the
target is an interface library, the names listed by the targets among its
link items for the empty and for each declared configuration. -/
theorem mem_compatibleInterfaceNames (bm : cmBuildModel) (target : cmTarget)
    (y : Str) :
    y ∈ (compatibleInterfaceNames bm target).1
      ↔ y ∈ declaredCompatibleNames bm target
        ∨ (target.GetType ≠ TargetType.INTERFACE_LIBRARY
          ∧ ∃ config ∈ [] :: bm.GetConfigurations,
            ∃ deps, bm.GetLinkInformation target config = some deps
              ∧ ∃ t, some t ∈ deps ∧ y ∈ declaredCompatibleNames bm t) := by
  have key : ∀ (configs : List Str) (state : StrSet × List Message),
      y ∈ (configs.foldl
        (fun state config =>
          ((getCompatibleInterfaceProperties bm target state.1 config).1,
            state.2 ++ (getCompatibleInterfaceProperties bm target state.1 config).2))
        state).1
      ↔ y ∈ state.1 ∨ ∃ config ∈ configs,
          ∃ deps, bm.GetLinkInformation target config = some deps
            ∧ ∃ t, some t ∈ deps ∧ y ∈ declaredCompatibleNames bm t := by
    intro configs
    induction configs with
    | nil => intro state; simp
    | cons c rest ih =>
      intro state
      rw [List.foldl_cons, ih]
      simp only [mem_getCompatibleInterfaceProperties, List.mem_cons, exists_eq_or_imp]
      exact or_assoc
  unfold compatibleInterfaceNames
  by_cases htype : target.GetType = TargetType.INTERFACE_LIBRARY
  · simp [htype, mem_getPropertyContents4]
  · simp only [ne_eq, htype, not_false_eq_true, if_true, true_and]
    rw [key]
    simp only [mem_getPropertyContents4, List.not_mem_nil, false_or]

theorem PopulateInterfaceProperty3_ordered (gen : cmExportFileGenerator)
    (propName : Str) (target : cmTarget) (properties : ImportPropertyMap)
    (h : mapOrdered properties) :
    mapOrdered (gen.PopulateInterfaceProperty3 propName target properties) := by
  unfold cmExportFileGenerator.PopulateInterfaceProperty3
  cases target.GetProperty propName with
  | none => exact h
  | some v => exact mapAssign_ordered _ _ _ h

theorem PopulateInterfaceProperty3_other (gen : cmExportFileGenerator)
    (propName : Str) (target : cmTarget) (properties : ImportPropertyMap)
    (key : Str) (hne : key ≠ propName) :
    mapFind (gen.PopulateInterfaceProperty3 propName target properties) key
      = mapFind properties key := by
  unfold cmExportFileGenerator.PopulateInterfaceProperty3
  cases target.GetProperty propName with
  | none => rfl
  | some v => exact mapFind_mapAssign_ne _ _ _ _ hne

theorem PopulateInterfaceProperty3_same (gen : cmExportFileGenerator)
    (propName : Str) (target : cmTarget) (properties : ImportPropertyMap) :
    mapFind (gen.PopulateInterfaceProperty3 propName target properties) propName
      = (match target.GetProperty propName with
        | some v => some v
        | none => mapFind properties propName) := by
  unfold cmExportFileGenerator.PopulateInterfaceProperty3
  cases target.GetProperty propName with
  | none => rfl
  | some v => exact mapFind_mapAssign _ _ _

/-- The loop of lines 506-511: under each key `INTERFACE_<name>` of a name of
the set the map holds the property of the target with that name if it is set,
and what it held before otherwise. -/
theorem interfaceLoop_find (gen : cmExportFileGenerator) (target : cmTarget)
    (names : List Str) (properties : ImportPropertyMap) (key : Str) :
    mapFind (names.foldl
        (fun p it => gen.PopulateInterfaceProperty3 ("INTERFACE_".toList ++ it) target p)
        properties) key
      = if key ∈ names.map (fun it => "INTERFACE_".toList ++ it) then
          (match target.GetProperty key with
          | some v => some v
          | none => mapFind properties key)
        else mapFind properties key := by
  induction names generalizing properties with
  | nil => simp
  | cons it rest ih =>
    rw [List.foldl_cons, ih]
    by_cases hk : key = "INTERFACE_".toList ++ it
    · subst hk
      rw [PopulateInterfaceProperty3_same]
      cases hp : target.GetProperty ("INTERFACE_".toList ++ it) with
      | none => simp
      | some v => simp
    · rw [PopulateInterfaceProperty3_other _ _ _ _ _ hk]
      simp only [List.map_cons, List.mem_cons, hk, false_or]

theorem interfaceLoop_ordered (gen : cmExportFileGenerator) (target : cmTarget)
    (names : List Str) (properties : ImportPropertyMap) (h : mapOrdered properties) :
    mapOrdered (names.foldl
      (fun p it => gen.PopulateInterfaceProperty3 ("INTERFACE_".toList ++ it) target p)
      properties) := by
  induction names generalizing properties with
  | nil => exact h
  | cons it rest ih =>
    rw [List.foldl_cons]
    exact ih _ (PopulateInterfaceProperty3_ordered _ _ _ _ h)

theorem interface_key_ne (name : Str) (rest : Str) :
    "INTERFACE_".toList ++ name ≠ "COMPATIBLE_INTERFACE_".toList ++ rest := by
  intro h
  have h2 := congrArg List.head? h
  simp at h2

/-- Counterexample to C15 as stated: `consumer` links `depA`, which lists
`FOO` in `COMPATIBLE_INTERFACE_BOOL`, and `depB`, and has its own property
`FOO` set, yet no key `INTERFACE_FOO` is stored; with `FOO` unset and
`INTERFACE_FOO` set the key is stored, with the value of `INTERFACE_FOO`. -/
theorem PopulateCompatibleInterfaceProperties_keys_counterexample :
    demoBuildModel.GetLinkInformation demoConsumer []
      = some [some demoDepA, none, some demoDepB]
    ∧ demoDepA.GetProperty "COMPATIBLE_INTERFACE_BOOL".toList = some "FOO".toList
    ∧ demoConsumer.GetProperty "FOO".toList = some "ON".toList
    ∧ demoGenerator.PopulateCompatibleInterfaceProperties demoBuildModel demoConsumer []
      = ([], [])
    ∧ demoConsumerInterface.GetProperty "FOO".toList = none
    ∧ demoGenerator.PopulateCompatibleInterfaceProperties demoBuildModel
        demoConsumerInterface []
      = ([("INTERFACE_FOO".toList, "ON".toList)], []) := by
  refine ⟨?_, ?_, ?_, ?_, ?_, ?_⟩ <;> decide

/-- C15, amended: for every name P of the set `ifaceProperties`, which holds
the names the target lists in its four `COMPATIBLE_INTERFACE_*` properties
and, unless the target is an interface library, the names listed by the
targets among its link items for the empty and for each declared
configuration, `PopulateCompatibleInterfaceProperties` leaves under the key
`INTERFACE_P` the value of the property `INTERFACE_P` of the target itself
if that property is set, and what the map held before otherwise; the keys of
the map stay strictly ascending, so no key occurs twice. -/
theorem PopulateCompatibleInterfaceProperties_keys (gen : cmExportFileGenerator)
    (bm : cmBuildModel) (target : cmTarget) (properties : ImportPropertyMap)
    (hordered : mapOrdered properties) :
    mapOrdered (gen.PopulateCompatibleInterfaceProperties bm target properties).1
    ∧ ((gen.PopulateCompatibleInterfaceProperties bm target properties).1.map
        Prod.fst).Nodup
    ∧ (∀ P, P ∈ (compatibleInterfaceNames bm target).1
        ↔ P ∈ declaredCompatibleNames bm target
          ∨ (target.GetType ≠ TargetType.INTERFACE_LIBRARY
            ∧ ∃ config ∈ [] :: bm.GetConfigurations,
              ∃ deps, bm.GetLinkInformation target config = some deps
                ∧ ∃ t, some t ∈ deps ∧ P ∈ declaredCompatibleNames bm t))
    ∧ (∀ P ∈ (compatibleInterfaceNames bm target).1,
        mapFind (gen.PopulateCompatibleInterfaceProperties bm target properties).1
            ("INTERFACE_".toList ++ P)
          = (match target.GetProperty ("INTERFACE_".toList ++ P) with
            | some v => some v
            | none => mapFind properties ("INTERFACE_".toList ++ P))) := by
  have hord : mapOrdered
      (gen.PopulateCompatibleInterfaceProperties bm target properties).1 := by
    unfold cmExportFileGenerator.PopulateCompatibleInterfaceProperties
    apply interfaceLoop_ordered
    iterate 4 apply PopulateInterfaceProperty3_ordered
    exact hordered
  refine ⟨hord, mapOrdered_nodup _ hord, mem_compatibleInterfaceNames bm target, ?_⟩
  intro P hP
  unfold cmExportFileGenerator.PopulateCompatibleInterfaceProperties
  simp only
  rw [interfaceLoop_find, if_pos (List.mem_map_of_mem _ hP)]
  have h4 : ∀ (rest : Str) (p : ImportPropertyMap),
      mapFind (gen.PopulateInterfaceProperty3 ("COMPATIBLE_INTERFACE_".toList ++ rest)
        target p) ("INTERFACE_".toList ++ P) = mapFind p ("INTERFACE_".toList ++ P) :=
    fun rest p => PopulateInterfaceProperty3_other _ _ _ _ _ (interface_key_ne P rest)
  have e1 := h4 "BOOL".toList
  have e2 := h4 "STRING".toList
  have e3 := h4 "NUMBER_MIN".toList
  have e4 := h4 "NUMBER_MAX".toList
  have k1 : "COMPATIBLE_INTERFACE_".toList ++ "BOOL".toList
      = "COMPATIBLE_INTERFACE_BOOL".toList := by decide
  have k2 : "COMPATIBLE_INTERFACE_".toList ++ "STRING".toList
      = "COMPATIBLE_INTERFACE_STRING".toList := by decide
  have k3 : "COMPATIBLE_INTERFACE_".toList ++ "NUMBER_MIN".toList
      = "COMPATIBLE_INTERFACE_NUMBER_MIN".toList := by decide
  have k4 : "COMPATIBLE_INTERFACE_".toList ++ "NUMBER_MAX".toList
      = "COMPATIBLE_INTERFACE_NUMBER_MAX".toList := by decide
  rw [k1] at e1
  rw [k2] at e2
  rw [k3] at e3
  rw [k4] at e4
  rw [e4, e3, e2, e1]

/-- Witness of C15, amended: `consumer` with `INTERFACE_FOO` set links `depA`,
which lists `FOO`; the key `INTERFACE_FOO` holds the value of the property
`INTERFACE_FOO`. -/
theorem PopulateCompatibleInterfaceProperties_keys_witness :
    "FOO".toList ∈ (compatibleInterfaceNames demoBuildModel demoConsumerInterface).1
    ∧ mapFind (demoGenerator.PopulateCompatibleInterfaceProperties demoBuildModel
          demoConsumerInterface []).1 "INTERFACE_FOO".toList
      = some "ON".toList :=
  ⟨by decide,
    ((PopulateCompatibleInterfaceProperties_keys demoGenerator demoBuildModel
      demoConsumerInterface [] (by decide)).2.2.2 "FOO".toList (by decide)).trans
      (by decide)⟩

/-! ## `SetImportDetailProperties` -/

/-- A lookup under another key is not changed by `SetImportLinkProperty`. -/
theorem SetImportLinkProperty_other (gen : cmExportFileGenerator) (mf : cmMakefile)
    (suffix : Str) (target : cmTarget) (propName : Str) (entries : List Str)
    (properties : ImportPropertyMap) (missingTargets : List Str) (key : Str)
    (hne : key ≠ propName ++ suffix) :
    mapFind (gen.SetImportLinkProperty mf suffix target propName entries properties
      missingTargets).1 key = mapFind properties key := by
  unfold cmExportFileGenerator.SetImportLinkProperty
  split_ifs
  · rfl
  · exact mapFind_mapAssign_ne _ _ _ _ hne

/-- The link-interface part of `SetImportDetailProperties` changes no lookup
under a key that is none of its three keys. -/
theorem SetImportDetailProperties_other (gen : cmExportFileGenerator)
    (mf : cmMakefile) (bm : cmBuildModel) (config suffix : Str) (target : cmTarget)
    (properties : ImportPropertyMap) (missingTargets : List Str) (key : Str)
    (h1 : key ≠ "IMPORTED_LINK_INTERFACE_LANGUAGES".toList ++ suffix)
    (h2 : key ≠ "IMPORTED_LINK_DEPENDENT_LIBRARIES".toList ++ suffix)
    (h3 : key ≠ "IMPORTED_LINK_INTERFACE_MULTIPLICITY".toList ++ suffix) :
    mapFind (gen.SetImportDetailProperties mf bm config suffix target properties
      missingTargets).1 key
      = mapFind (sonameProperties bm config suffix target properties) key := by
  unfold cmExportFileGenerator.SetImportDetailProperties
  generalize sonameProperties bm config suffix target properties = p1
  cases bm.GetLinkInterface target config with
  | none => rfl
  | some iface =>
    simp only
    split_ifs
    · rw [mapFind_mapAssign_ne _ _ _ _ h3, SetImportLinkProperty_other _ _ _ _ _ _ _ _ _ h2,
        SetImportLinkProperty_other _ _ _ _ _ _ _ _ _ h1]
    · rw [SetImportLinkProperty_other _ _ _ _ _ _ _ _ _ h2,
        SetImportLinkProperty_other _ _ _ _ _ _ _ _ _ h1]

theorem soname_key_ne (suffix : Str) :
    "IMPORTED_SONAME".toList ++ suffix ≠ "IMPORTED_NO_SONAME".toList ++ suffix
    ∧ "IMPORTED_SONAME".toList ++ suffix
      ≠ "IMPORTED_LINK_INTERFACE_LANGUAGES".toList ++ suffix
    ∧ "IMPORTED_SONAME".toList ++ suffix
      ≠ "IMPORTED_LINK_DEPENDENT_LIBRARIES".toList ++ suffix
    ∧ "IMPORTED_SONAME".toList ++ suffix
      ≠ "IMPORTED_LINK_INTERFACE_MULTIPLICITY".toList ++ suffix
    ∧ "IMPORTED_NO_SONAME".toList ++ suffix
      ≠ "IMPORTED_LINK_INTERFACE_LANGUAGES".toList ++ suffix
    ∧ "IMPORTED_NO_SONAME".toList ++ suffix
      ≠ "IMPORTED_LINK_DEPENDENT_LIBRARIES".toList ++ suffix
    ∧ "IMPORTED_NO_SONAME".toList ++ suffix
      ≠ "IMPORTED_LINK_INTERFACE_MULTIPLICITY".toList ++ suffix := by
  refine ⟨?_, ?_, ?_, ?_, ?_, ?_, ?_⟩ <;> intro h <;> simp at h

/-- C16: the suffix of a configuration is `_` followed by the upper-cased
name, `_NOCONFIG` for the empty name. For a shared or module library off a
DLL platform, `SetImportDetailProperties` stores `IMPORTED_SONAME<suffix>`,
holding the install-name directory (when the platform has one) followed by
the soname, if the target has a soname for the configuration, and leaves
`IMPORTED_NO_SONAME<suffix>` as the map held it; otherwise it stores
`IMPORTED_NO_SONAME<suffix>` with the value `TRUE` and leaves
`IMPORTED_SONAME<suffix>` as the map held it. For another target kind or on a
DLL platform it leaves both keys as the map held them. -/
theorem SetImportDetailProperties_soname (gen : cmExportFileGenerator)
    (mf : cmMakefile) (bm : cmBuildModel) (config suffix : Str) (target : cmTarget)
    (properties : ImportPropertyMap) (missingTargets : List Str) :
    GenerateImportConfigSuffix bm config
      = "_".toList ++ (if config = [] then "NOCONFIG".toList else bm.UpperCase config)
    ∧ ((target.GetType = TargetType.SHARED_LIBRARY
          ∨ target.GetType = TargetType.MODULE_LIBRARY) →
        (bm.IsOn "WIN32".toList || bm.IsOn "CYGWIN".toList || bm.IsOn "MINGW".toList)
          = false →
        (bm.HasSOName target config = true →
          mapFind (gen.SetImportDetailProperties mf bm config suffix target properties
              missingTargets).1 ("IMPORTED_SONAME".toList ++ suffix)
            = some ((if bm.IsOn "CMAKE_PLATFORM_HAS_INSTALLNAME".toList = true then
                bm.InstallNameDir target config else [])
              ++ bm.GetSOName target config)
          ∧ mapFind (gen.SetImportDetailProperties mf bm config suffix target properties
              missingTargets).1 ("IMPORTED_NO_SONAME".toList ++ suffix)
            = mapFind properties ("IMPORTED_NO_SONAME".toList ++ suffix))
        ∧ (bm.HasSOName target config = false →
          mapFind (gen.SetImportDetailProperties mf bm config suffix target properties
              missingTargets).1 ("IMPORTED_NO_SONAME".toList ++ suffix)
            = some "TRUE".toList
          ∧ mapFind (gen.SetImportDetailProperties mf bm config suffix target properties
              missingTargets).1 ("IMPORTED_SONAME".toList ++ suffix)
            = mapFind properties ("IMPORTED_SONAME".toList ++ suffix)))
    ∧ ((¬ (target.GetType = TargetType.SHARED_LIBRARY
            ∨ target.GetType = TargetType.MODULE_LIBRARY)
          ∨ (bm.IsOn "WIN32".toList || bm.IsOn "CYGWIN".toList || bm.IsOn "MINGW".toList)
            = true) →
        mapFind (gen.SetImportDetailProperties mf bm config suffix target properties
            missingTargets).1 ("IMPORTED_SONAME".toList ++ suffix)
          = mapFind properties ("IMPORTED_SONAME".toList ++ suffix)
        ∧ mapFind (gen.SetImportDetailProperties mf bm config suffix target properties
            missingTargets).1 ("IMPORTED_NO_SONAME".toList ++ suffix)
          = mapFind properties ("IMPORTED_NO_SONAME".toList ++ suffix)) := by
  obtain ⟨k1, k2, k3, k4, k5, k6, k7⟩ := soname_key_ne suffix
  have hs := SetImportDetailProperties_other gen mf bm config suffix target properties
    missingTargets ("IMPORTED_SONAME".toList ++ suffix) k2 k3 k4
  have hn := SetImportDetailProperties_other gen mf bm config suffix target properties
    missingTargets ("IMPORTED_NO_SONAME".toList ++ suffix) k5 k6 k7
  rw [hs, hn]
  refine ⟨?_, ?_, ?_⟩
  · unfold GenerateImportConfigSuffix
    by_cases hc : config = [] <;> simp [hc]
  · intro htype hdll
    unfold sonameProperties
    simp only [htype, hdll, if_true]
    constructor
    · intro hso
      rw [if_pos hso]
      exact ⟨mapFind_mapAssign _ _ _, mapFind_mapAssign_ne _ _ _ _ k1.symm⟩
    · intro hso
      rw [if_neg (by simp [hso])]
      exact ⟨mapFind_mapAssign _ _ _, mapFind_mapAssign_ne _ _ _ _ k1⟩
  · intro h
    unfold sonameProperties
    rcases h with h | h
    · simp only [h, if_false, and_self]
    · simp only [h, Bool.true_eq_false, if_false]
      split_ifs <;> exact ⟨rfl, rfl⟩

/-- Witness of C16: the shared library `shared` with the configurations
`Debug` and `Release` and a soname in `Release` only. -/
theorem SetImportDetailProperties_soname_witness :
    GenerateImportConfigSuffix demoBuildModel "Release".toList = "_RELEASE".toList
    ∧ GenerateImportConfigSuffix demoBuildModel "Debug".toList = "_DEBUG".toList
    ∧ mapFind (demoGenerator.SetImportDetailProperties demoMakefile demoBuildModel
          "Release".toList "_RELEASE".toList demoShared [] []).1
        "IMPORTED_SONAME_RELEASE".toList = some "libshared.so.1".toList
    ∧ mapFind (demoGenerator.SetImportDetailProperties demoMakefile demoBuildModel
          "Debug".toList "_DEBUG".toList demoShared [] []).1
        "IMPORTED_NO_SONAME_DEBUG".toList = some "TRUE".toList
    ∧ mapFind (demoGenerator.SetImportDetailProperties demoMakefile demoBuildModel
          "Debug".toList "_DEBUG".toList demoShared [] []).1
        "IMPORTED_SONAME_DEBUG".toList = none :=
  ⟨by decide, by decide,
    (((SetImportDetailProperties_soname demoGenerator demoMakefile demoBuildModel
      "Release".toList "_RELEASE".toList demoShared [] []).2.1
      (Or.inl (by decide)) (by decide)).1 (by decide)).1,
    (((SetImportDetailProperties_soname demoGenerator demoMakefile demoBuildModel
      "Debug".toList "_DEBUG".toList demoShared [] []).2.1
      (Or.inl (by decide)) (by decide)).2 (by decide)).1,
    (((SetImportDetailProperties_soname demoGenerator demoMakefile demoBuildModel
      "Debug".toList "_DEBUG".toList demoShared [] []).2.1
      (Or.inl (by decide)) (by decide)).2 (by decide)).2⟩

/-! ## `SetImportLinkInterface` -/

/-- The loop of `SetImportLinkProperty` joins what `AddTargetNamespace` makes
of each entry, in the order of the entries. -/
theorem linkEntriesLoop_items (gen : cmExportFileGenerator) (mf : cmMakefile)
    (target : cmTarget) (entries : List Str) :
    ∀ (input sep : Str) (m : List Str),
      ∃ items m1,
        gen.linkEntriesLoop mf target entries input sep m
          = (joinItems items input sep, m1)
        ∧ List.Forall₂ (fun li li1 =>
            ∃ m, li1 = (gen.AddTargetNamespace mf li target m).2.1) entries items := by
  induction entries with
  | nil =>
    intro input sep m
    exact ⟨[], m, rfl, List.Forall₂.nil⟩
  | cons li rest ih =>
    intro input sep m
    obtain ⟨items, m1, heq, hrel⟩ := ih
      ((input ++ sep) ++ (gen.AddTargetNamespace mf li target m).2.1) ";".toList
      (gen.AddTargetNamespace mf li target m).2.2
    refine ⟨(gen.AddTargetNamespace mf li target m).2.1 :: items, m1, ?_,
      List.Forall₂.cons ⟨m, rfl⟩ hrel⟩
    unfold cmExportFileGenerator.linkEntriesLoop
    simp only [joinItems]
    rw [heq, List.append_assoc]

/-- Counterexample to C17 as stated: the link interface of `nolibs` is its
implementation and has no library; `SetImportLinkInterface` stores no key. -/
theorem SetImportLinkInterface_implementation_counterexample :
    demoBuildModel.GetLinkInterface demoNoLibs "Release".toList
      = some { Libraries := [], ImplementationIsInterface := true }
    ∧ demoGenerator.SetImportLinkInterface demoMakefile demoExpression demoBuildModel 40
        "Release".toList "_RELEASE".toList PreprocessContext.InstallInterface
        demoNoLibs [] []
      = some ([], [], [])
    ∧ mapFind ([] : ImportPropertyMap)
        "IMPORTED_LINK_INTERFACE_LIBRARIES_RELEASE".toList = none := by
  refine ⟨?_, ?_, ?_⟩ <;> decide

/-- C17, amended: when the link interface has `ImplementationIsInterface` set
and its library list is not empty, `SetImportLinkInterface` returns, with no
message, the map in which `IMPORTED_LINK_INTERFACE_LIBRARIES<suffix>` holds
the `;`-join of what `AddTargetNamespace` makes of each library, in the order
of the list (the namespace followed by the export name for a non-imported
target of the export set, the entry itself when it names no target); the
result is that of `SetImportLinkProperty` on the library list, in which no
property of the target is read. With an empty library list the map and
`missingTargets` are returned unchanged. -/
theorem SetImportLinkInterface_implementation (gen : cmExportFileGenerator)
    (mf : cmMakefile) (ge : cmGeneratorExpression) (bm : cmBuildModel)
    (fuel : Nat) (config suffix : Str) (preprocessRule : PreprocessContext)
    (target : cmTarget) (properties : ImportPropertyMap)
    (missingTargets : List Str) (iface : LinkInterface)
    (hiface : bm.GetLinkInterface target config = some iface)
    (himpl : iface.ImplementationIsInterface = true) :
    gen.SetImportLinkInterface mf ge bm fuel config suffix preprocessRule target
        properties missingTargets
      = some ((gen.SetImportLinkProperty mf suffix target
            "IMPORTED_LINK_INTERFACE_LIBRARIES".toList iface.Libraries properties
            missingTargets).1,
          (gen.SetImportLinkProperty mf suffix target
            "IMPORTED_LINK_INTERFACE_LIBRARIES".toList iface.Libraries properties
            missingTargets).2, [])
    ∧ (iface.Libraries ≠ [] →
      ∃ items m1,
        gen.SetImportLinkInterface mf ge bm fuel config suffix preprocessRule target
            properties missingTargets
          = some (mapAssign properties
              ("IMPORTED_LINK_INTERFACE_LIBRARIES".toList ++ suffix)
              (";".toList.intercalate items), m1, [])
        ∧ mapFind (mapAssign properties
              ("IMPORTED_LINK_INTERFACE_LIBRARIES".toList ++ suffix)
              (";".toList.intercalate items))
            ("IMPORTED_LINK_INTERFACE_LIBRARIES".toList ++ suffix)
          = some (";".toList.intercalate items)
        ∧ List.Forall₂ (fun li li1 =>
            (∃ m, li1 = (gen.AddTargetNamespace mf li target m).2.1)
            ∧ (∀ tgt, mf.FindTargetToUse li = some tgt → tgt.Imported = false →
                tgt ∈ gen.ExportedTargets → li1 = gen.Namespace ++ tgt.ExportName)
            ∧ (mf.FindTargetToUse li = none → li1 = li)) iface.Libraries items)
    ∧ (iface.Libraries = [] →
      gen.SetImportLinkInterface mf ge bm fuel config suffix preprocessRule target
          properties missingTargets
        = some (properties, missingTargets, [])) := by
  have hmain : gen.SetImportLinkInterface mf ge bm fuel config suffix preprocessRule
      target properties missingTargets
      = some ((gen.SetImportLinkProperty mf suffix target
            "IMPORTED_LINK_INTERFACE_LIBRARIES".toList iface.Libraries properties
            missingTargets).1,
          (gen.SetImportLinkProperty mf suffix target
            "IMPORTED_LINK_INTERFACE_LIBRARIES".toList iface.Libraries properties
            missingTargets).2, []) := by
    unfold cmExportFileGenerator.SetImportLinkInterface
    rw [hiface]
    simp only [himpl, if_true]
  refine ⟨hmain, ?_, ?_⟩
  · intro hne
    obtain ⟨items, m1, heq, hrel⟩ :=
      linkEntriesLoop_items gen mf target iface.Libraries [] [] missingTargets
    refine ⟨items, m1, ?_, mapFind_mapAssign _ _ _, ?_⟩
    · rw [hmain]
      unfold cmExportFileGenerator.SetImportLinkProperty
      rw [if_neg hne]
      simp only [heq, joinItems_eq_intercalate]
    · refine hrel.imp ?_
      intro li li1 h
      obtain ⟨m, hm⟩ := h
      refine ⟨⟨m, hm⟩, ?_, ?_⟩
      · intro tgt hf himp hmem
        rw [hm]
        simp [cmExportFileGenerator.AddTargetNamespace, hf, himp, hmem]
      · intro hf
        rw [hm]
        simp [cmExportFileGenerator.AddTargetNamespace, hf]
  · intro hempty
    rw [hmain]
    unfold cmExportFileGenerator.SetImportLinkProperty
    rw [if_pos hempty]

/-- Witness of C17, amended: the link interface of `shared` is its
implementation, with the libraries `a` and `ext`. -/
theorem SetImportLinkInterface_implementation_witness :
    demoGenerator.SetImportLinkInterface demoMakefile demoExpression demoBuildModel 40
        "Release".toList "_RELEASE".toList PreprocessContext.InstallInterface
        demoShared [] []
      = some ([("IMPORTED_LINK_INTERFACE_LIBRARIES_RELEASE".toList,
            "Pkg::a;Other::ext".toList)], ["ext".toList], []) :=
  ((SetImportLinkInterface_implementation demoGenerator demoMakefile demoExpression
    demoBuildModel 40 "Release".toList "_RELEASE".toList
    PreprocessContext.InstallInterface demoShared [] []
    { Libraries := ["a".toList, "ext".toList], ImplementationIsInterface := true }
    (by decide) (by decide)).1).trans (by decide)

/-- Counterexample to C18 as stated: `legacy` has policy CMP0022 set to OLD,
yet `SetImportLinkInterface` issues a fatal error: its
`LINK_INTERFACE_LIBRARIES` names the unknown target `nosuch` in a
`$<TARGET_NAME:...>` construct, and the resolution of the value reports it. -/
theorem SetImportLinkInterface_old_style_counterexample :
    demoLegacy.PolicyStatusCMP0022 = PolicyStatus.OLD
    ∧ demoGenerator.SetImportLinkInterface demoMakefile demoExpression demoBuildModel 40
        "Release".toList "_RELEASE".toList PreprocessContext.InstallInterface
        demoLegacy [] []
      = some ([("IMPORTED_LINK_INTERFACE_LIBRARIES_RELEASE".toList,
            "$<TARGET_NAME:nosuch>".toList)], [],
          [(MessageType.FATAL_ERROR,
            "$<TARGET_NAME:...> requires its parameter to be a reachable target.".toList)]) := by
  refine ⟨?_, ?_⟩ <;> decide

/-- C18, amended: when the link interface exists with
`ImplementationIsInterface` unset, the target carries
`LINK_INTERFACE_LIBRARIES<suffix>` or `LINK_INTERFACE_LIBRARIES`, policy
CMP0022 is neither OLD nor WARN and `ExportOld` is false,
`SetImportLinkInterface` returns with the old-style fatal error as its only
message and leaves the property map and `missingTargets` unchanged, whatever
the legacy value. When one of these conditions fails, every message it issues
is issued by the resolution of a non-empty legacy value. -/
theorem SetImportLinkInterface_old_style (gen : cmExportFileGenerator)
    (mf : cmMakefile) (ge : cmGeneratorExpression) (bm : cmBuildModel)
    (fuel : Nat) (config suffix : Str) (preprocessRule : PreprocessContext)
    (target : cmTarget) (properties : ImportPropertyMap)
    (missingTargets : List Str) :
    (((∃ iface, bm.GetLinkInterface target config = some iface
          ∧ iface.ImplementationIsInterface = false)
        ∧ (target.GetProperty ("LINK_INTERFACE_LIBRARIES".toList ++ suffix) ≠ none
          ∨ target.GetProperty "LINK_INTERFACE_LIBRARIES".toList ≠ none)
        ∧ target.PolicyStatusCMP0022 ≠ PolicyStatus.OLD
        ∧ target.PolicyStatusCMP0022 ≠ PolicyStatus.WARN
        ∧ gen.ExportOld = false) →
      gen.SetImportLinkInterface mf ge bm fuel config suffix preprocessRule target
          properties missingTargets
        = some (properties, missingTargets,
            [(MessageType.FATAL_ERROR, oldStyleLinkInterfaceText target)]))
    ∧ (¬ ((∃ iface, bm.GetLinkInterface target config = some iface
          ∧ iface.ImplementationIsInterface = false)
        ∧ (target.GetProperty ("LINK_INTERFACE_LIBRARIES".toList ++ suffix) ≠ none
          ∨ target.GetProperty "LINK_INTERFACE_LIBRARIES".toList ≠ none)
        ∧ target.PolicyStatusCMP0022 ≠ PolicyStatus.OLD
        ∧ target.PolicyStatusCMP0022 ≠ PolicyStatus.WARN
        ∧ gen.ExportOld = false) →
      ∀ p m msgs,
        gen.SetImportLinkInterface mf ge bm fuel config suffix preprocessRule target
            properties missingTargets = some (p, m, msgs) →
        msgs = []
        ∨ ∃ propContent r, propContent ≠ []
          ∧ (target.GetProperty ("LINK_INTERFACE_LIBRARIES".toList ++ suffix)
              = some propContent
            ∨ target.GetProperty "LINK_INTERFACE_LIBRARIES".toList = some propContent)
          ∧ gen.ResolveTargetsInGeneratorExpressions mf ge fuel
              (ge.Preprocess propContent preprocessRule false) target missingTargets
              FreeTargetsReplace.ReplaceFreeTargets = some r
          ∧ msgs = r.2.2) := by
  generalize hk1 : "LINK_INTERFACE_LIBRARIES".toList ++ suffix = key1
  generalize hk2 : "LINK_INTERFACE_LIBRARIES".toList = key2
  generalize hk3 : "IMPORTED_LINK_INTERFACE_LIBRARIES".toList ++ suffix = key3
  have hunfold : gen.SetImportLinkInterface mf ge bm fuel config suffix preprocessRule
      target properties missingTargets
      = (match bm.GetLinkInterface target config with
        | none => some (properties, missingTargets, [])
        | some iface =>
          if iface.ImplementationIsInterface = true then
            some ((gen.SetImportLinkProperty mf suffix target
                "IMPORTED_LINK_INTERFACE_LIBRARIES".toList iface.Libraries properties
                missingTargets).1,
              (gen.SetImportLinkProperty mf suffix target
                "IMPORTED_LINK_INTERFACE_LIBRARIES".toList iface.Libraries properties
                missingTargets).2, [])
          else
            match (match target.GetProperty key1 with
              | some prop_suffixed => some prop_suffixed
              | none => target.GetProperty key2) with
            | none => some (properties, missingTargets, [])
            | some propContent =>
              if (decide (target.PolicyStatusCMP0022 ≠ PolicyStatus.WARN)
                  && decide (target.PolicyStatusCMP0022 ≠ PolicyStatus.OLD)) = true
                  ∧ gen.ExportOld = false then
                some (properties, missingTargets,
                  [(MessageType.FATAL_ERROR, oldStyleLinkInterfaceText target)])
              else if propContent = [] then
                some (mapAssign properties key3 [], missingTargets, [])
              else
                if ge.Preprocess propContent preprocessRule false ≠ [] then
                  match gen.ResolveTargetsInGeneratorExpressions mf ge fuel
                      (ge.Preprocess propContent preprocessRule false)
                      target missingTargets FreeTargetsReplace.ReplaceFreeTargets with
                  | none => none
                  | some (prepro1, missing1, msgs) =>
                    some (mapAssign properties key3 prepro1, missing1, msgs)
                else some (properties, missingTargets, [])) := by
    rw [← hk1, ← hk2, ← hk3]
    rfl
  rw [hunfold]
  constructor
  · rintro ⟨⟨iface, hiface, himpl⟩, hlegacy, hold, hwarn, hexp⟩
    rw [hiface]
    simp only [himpl, Bool.false_eq_true, if_false]
    have hpol : (decide (target.PolicyStatusCMP0022 ≠ PolicyStatus.WARN)
        && decide (target.PolicyStatusCMP0022 ≠ PolicyStatus.OLD)) = true := by
      simp [hold, hwarn]
    cases h1 : target.GetProperty key1 with
    | some v => simp only [hpol, hexp, and_self, if_true]
    | none =>
      cases h2 : target.GetProperty key2 with
      | some v => simp only [hpol, hexp, and_self, if_true]
      | none =>
        rw [h1, h2] at hlegacy
        simp at hlegacy
  · intro hcond p m msgs hres
    cases hiface : bm.GetLinkInterface target config with
    | none =>
      rw [hiface] at hres
      simp only [Option.some.injEq, Prod.mk.injEq] at hres
      exact Or.inl hres.2.2.symm
    | some iface =>
      rw [hiface] at hres
      dsimp only at hres
      by_cases himpl : iface.ImplementationIsInterface = true
      · simp only [himpl, if_true, Option.some.injEq, Prod.mk.injEq] at hres
        exact Or.inl hres.2.2.symm
      · rw [if_neg himpl] at hres
        have himplf : iface.ImplementationIsInterface = false := by simpa using himpl
        have hlegacy : ∀ propContent,
            (match target.GetProperty key1 with
              | some prop_suffixed => some prop_suffixed
              | none => target.GetProperty key2) = some propContent →
            (target.GetProperty key1 = some propContent
              ∨ target.GetProperty key2 = some propContent) := by
          intro propContent h
          cases h1 : target.GetProperty key1 with
          | some v => rw [h1] at h; exact Or.inl h
          | none => rw [h1] at h; exact Or.inr h
        cases hleg : (match target.GetProperty key1 with
            | some prop_suffixed => some prop_suffixed
            | none => target.GetProperty key2) with
        | none =>
          rw [hleg] at hres
          simp only [Option.some.injEq, Prod.mk.injEq] at hres
          exact Or.inl hres.2.2.symm
        | some propContent =>
          rw [hleg] at hres
          have hset := hlegacy propContent hleg
          have hnot : ¬ ((decide (target.PolicyStatusCMP0022 ≠ PolicyStatus.WARN)
              && decide (target.PolicyStatusCMP0022 ≠ PolicyStatus.OLD)) = true
              ∧ gen.ExportOld = false) := by
            rintro ⟨hpol, hexp⟩
            apply hcond
            simp only [Bool.and_eq_true, decide_eq_true_eq] at hpol
            refine ⟨⟨iface, hiface, himplf⟩, ?_, hpol.2, hpol.1, hexp⟩
            rcases hset with h | h
            · exact Or.inl (by rw [h]; simp)
            · exact Or.inr (by rw [h]; simp)
          simp only [hnot, if_false] at hres
          by_cases hempty : propContent = []
          · simp only [hempty, if_true, Option.some.injEq, Prod.mk.injEq] at hres
            exact Or.inl hres.2.2.symm
          · simp only [hempty, if_false] at hres
            by_cases hpre : ge.Preprocess propContent preprocessRule false = []
            · simp only [hpre, ne_eq, not_true_eq_false, if_false, Option.some.injEq,
                Prod.mk.injEq] at hres
              exact Or.inl hres.2.2.symm
            · simp only [hpre, ne_eq, not_false_eq_true, if_true] at hres
              cases hr : gen.ResolveTargetsInGeneratorExpressions mf ge fuel
                  (ge.Preprocess propContent preprocessRule false)
                  target missingTargets FreeTargetsReplace.ReplaceFreeTargets with
              | none => rw [hr] at hres; simp at hres
              | some r =>
                rw [hr] at hres
                simp only [Option.some.injEq, Prod.mk.injEq] at hres
                exact Or.inr ⟨propContent, r, hempty, hset, hr, hres.2.2.symm⟩

/-- Witness of C18, amended: `legacy` with policy CMP0022 set to NEW and an
empty `LINK_INTERFACE_LIBRARIES`, exported without the old-style
properties. -/
theorem SetImportLinkInterface_old_style_witness :
    demoGenerator.SetImportLinkInterface demoMakefile demoExpression demoBuildModel 40
        "Release".toList "_RELEASE".toList PreprocessContext.InstallInterface
        demoLegacyNew [] []
      = some ([], [],
          [(MessageType.FATAL_ERROR, oldStyleLinkInterfaceText demoLegacyNew)]) :=
  (SetImportLinkInterface_old_style demoGenerator demoMakefile demoExpression
    demoBuildModel 40 "Release".toList "_RELEASE".toList
    PreprocessContext.InstallInterface demoLegacyNew [] []).1
    ⟨⟨{}, by decide, by decide⟩, Or.inr (by decide), by decide, by decide, by decide⟩

/-! ## `GenerateMissingTargetsCheckCode` -/

theorem indexOf_cons_other (t a : Str) (rest : List Str) (h : t ≠ a) :
    (t :: rest).indexOf a = rest.indexOf a + 1 := by
  have hbeq : (t == a) = false := by simpa using h
  rw [List.indexOf_cons, hbeq]
  rfl

theorem indexOf_cons_same (t : Str) (rest : List Str) :
    (t :: rest).indexOf t = 0 := by
  have hbeq : (t == t) = true := by simp
  rw [List.indexOf_cons, hbeq]
  rfl

/-- The loop over `missingTargets` writes, after the text so far, the quoted
names of a list that holds each name of `missingTargets` outside `emitted`
once, ordered by first occurrence. -/
theorem missingTargetsLoop_names (missingTargets : List Str) :
    ∀ (os : Str) (emitted : StrSet),
      ∃ names : List Str,
        missingTargetsLoop missingTargets os emitted
          = os ++ names.flatMap (fun t => "\"".toList ++ t ++ "\" ".toList)
        ∧ names.Nodup
        ∧ (∀ t, t ∈ names ↔ t ∈ missingTargets ∧ t ∉ emitted)
        ∧ names.Pairwise (fun a b =>
            missingTargets.indexOf a < missingTargets.indexOf b) := by
  induction missingTargets with
  | nil =>
    intro os emitted
    exact ⟨[], by simp [missingTargetsLoop], List.nodup_nil, by simp, List.Pairwise.nil⟩
  | cons t rest ih =>
    intro os emitted
    unfold missingTargetsLoop
    by_cases hmem : t ∈ emitted
    · rw [if_pos hmem]
      obtain ⟨names, heq, hnodup, hmems, hord⟩ := ih os emitted
      refine ⟨names, heq, hnodup, ?_, ?_⟩
      · intro x
        rw [hmems, List.mem_cons]
        constructor
        · rintro ⟨h1, h2⟩
          exact ⟨Or.inr h1, h2⟩
        · rintro ⟨h1 | h1, h2⟩
          · exact absurd (h1 ▸ hmem) h2
          · exact ⟨h1, h2⟩
      · refine hord.imp_of_mem ?_
        intro a b ha hb hab
        have hat : t ≠ a := fun h => ((hmems a).1 ha).2 (h ▸ hmem)
        have hbt : t ≠ b := fun h => ((hmems b).1 hb).2 (h ▸ hmem)
        rw [indexOf_cons_other _ _ _ hat, indexOf_cons_other _ _ _ hbt]
        omega
    · rw [if_neg hmem]
      obtain ⟨names, heq, hnodup, hmems, hord⟩ :=
        ih (os ++ ("\"".toList ++ t ++ "\" ".toList)) (setInsert emitted t)
      have hmems2 : ∀ x, x ∈ names ↔ x ∈ rest ∧ x ∉ emitted ∧ x ≠ t := by
        intro x
        rw [hmems, mem_setInsert]
        tauto
      refine ⟨t :: names, ?_, ?_, ?_, ?_⟩
      · rw [heq]
        simp only [List.flatMap_cons, List.append_assoc]
      · exact List.nodup_cons.2 ⟨fun h => ((hmems2 t).1 h).2.2 rfl, hnodup⟩
      · intro x
        rw [List.mem_cons, hmems2, List.mem_cons]
        constructor
        · rintro (h | ⟨h1, h2, _⟩)
          · exact ⟨Or.inl h, h ▸ hmem⟩
          · exact ⟨Or.inr h1, h2⟩
        · rintro ⟨h1 | h1, h2⟩
          · exact Or.inl h1
          · by_cases hx : x = t
            · exact Or.inl hx
            · exact Or.inr ⟨h1, h2, hx⟩
      · rw [List.pairwise_cons]
        constructor
        · intro b hb
          have hbt : t ≠ b := fun h => ((hmems2 b).1 hb).2.2 h.symm
          rw [indexOf_cons_same, indexOf_cons_other _ _ _ hbt]
          omega
        · refine hord.imp_of_mem ?_
          intro a b ha hb hab
          have hat : t ≠ a := fun h => ((hmems2 a).1 ha).2.2 h.symm
          have hbt : t ≠ b := fun h => ((hmems2 b).1 hb).2.2 h.symm
          rw [indexOf_cons_other _ _ _ hat, indexOf_cons_other _ _ _ hbt]
          omega

set_option maxRecDepth 100000 in
/-- The comment written for an empty list holds no `foreach`. -/
theorem noMissingTargetsText_no_foreach :
    findFirst "foreach".toList noMissingTargetsText = none := by
  decide

/-- C19: for a non-empty `missingTargets`, `GenerateMissingTargetsCheckCode`
writes the head of the existence check up to `foreach(_target `, then the
quoted names of a list that holds each name of `missingTargets` once, ordered
by first occurrence, then the body of the check; for the empty list it writes
only the comment, which holds no `foreach`. -/
theorem GenerateMissingTargetsCheckCode_names (gen : cmExportFileGenerator)
    (missingTargets : List Str) :
    (missingTargets ≠ [] →
      ∃ names : List Str,
        gen.GenerateMissingTargetsCheckCode missingTargets
          = missingTargetsHead
            ++ names.flatMap (fun t => "\"".toList ++ t ++ "\" ".toList)
            ++ missingTargetsTail
        ∧ names.Nodup
        ∧ (∀ t, t ∈ names ↔ t ∈ missingTargets)
        ∧ names.Pairwise (fun a b =>
            missingTargets.indexOf a < missingTargets.indexOf b))
    ∧ (missingTargets = [] →
      gen.GenerateMissingTargetsCheckCode missingTargets = noMissingTargetsText)
    ∧ findFirst "foreach".toList noMissingTargetsText = none := by
  refine ⟨?_, ?_, noMissingTargetsText_no_foreach⟩
  · intro hne
    obtain ⟨names, heq, hnodup, hmems, hord⟩ :=
      missingTargetsLoop_names missingTargets missingTargetsHead []
    refine ⟨names, ?_, hnodup, ?_, hord⟩
    · unfold cmExportFileGenerator.GenerateMissingTargetsCheckCode
      rw [if_neg hne, heq]
    · intro t
      rw [hmems]
      simp
  · intro hempty
    unfold cmExportFileGenerator.GenerateMissingTargetsCheckCode
    rw [if_pos hempty]

/-- Witness of C19: for the list `ext`, `x`, `ext` the names written are
`"ext" "x" `. -/
theorem GenerateMissingTargetsCheckCode_names_witness :
    demoGenerator.GenerateMissingTargetsCheckCode
        ["ext".toList, "x".toList, "ext".toList]
      = missingTargetsHead ++ "\"ext\" \"x\" ".toList ++ missingTargetsTail
    ∧ (∃ names : List Str,
        demoGenerator.GenerateMissingTargetsCheckCode
            ["ext".toList, "x".toList, "ext".toList]
          = missingTargetsHead
            ++ names.flatMap (fun t => "\"".toList ++ t ++ "\" ".toList)
            ++ missingTargetsTail
        ∧ names.Nodup)
    ∧ demoGenerator.GenerateMissingTargetsCheckCode [] = noMissingTargetsText :=
  ⟨rfl,
    ((GenerateMissingTargetsCheckCode_names demoGenerator
      ["ext".toList, "x".toList, "ext".toList]).1 (by decide)).imp
      (fun _ h => ⟨h.1, h.2.1⟩),
    (GenerateMissingTargetsCheckCode_names demoGenerator []).2.1 rfl⟩

/-! ## The emission of property blocks -/

/-- The order `strLess` is the lexicographic order of the character codes. -/
theorem strLess_iff_lex (a b : Str) :
    strLess a b = true
      ↔ List.Lex (fun x y : Nat => x < y) (a.map Char.toNat) (b.map Char.toNat) := by
  induction a generalizing b with
  | nil =>
    cases b with
    | nil =>
      simp only [strLess, List.map_nil, Bool.false_eq_true, false_iff]
      intro h
      cases h
    | cons y ys =>
      simp only [strLess, List.map_nil, List.map_cons, true_iff]
      exact List.Lex.nil
  | cons x xs ih =>
    cases b with
    | nil =>
      simp only [strLess, List.map_nil, List.map_cons, Bool.false_eq_true, false_iff]
      intro h
      cases h
    | cons y ys =>
      unfold strLess
      simp only [List.map_cons]
      generalize x.toNat = n
      generalize y.toNat = m
      by_cases h1 : n < m
      · rw [if_pos h1]
        simp only [true_iff]
        exact List.Lex.rel h1
      · rw [if_neg h1]
        by_cases h2 : m < n
        · rw [if_pos h2]
          simp only [Bool.false_eq_true, false_iff]
          intro h
          cases h with
          | rel h => exact h1 h
          | cons h => omega
        · rw [if_neg h2, ih]
          have hxy : n = m := by omega
          subst hxy
          constructor
          · intro h
            exact List.Lex.cons h
          · intro h
            cases h with
            | rel h => omega
            | cons h => exact h

/-- C20: both emitters write, between the opening and the closing of the
block, the lines of `propertyLines`, which are one line `  KEY "VALUE"` per
entry of the map in the order of the map; in a map, whose keys ascend
strictly in the lexicographic order of `strLess`, no key occurs twice, and
an assignment keeps the keys ascending. `GenerateInterfaceProperties` writes
nothing for the empty map. -/
theorem GenerateInterfaceProperties_lines (gen : cmExportFileGenerator)
    (bm : cmBuildModel) (config : Str) (target : cmTarget)
    (properties : ImportPropertyMap) (hordered : mapOrdered properties) :
    propertyLines properties
      = properties.flatMap (fun pi =>
          "  ".toList ++ pi.1 ++ " \"".toList ++ pi.2 ++ "\"\n".toList)
    ∧ (properties ≠ [] →
      gen.GenerateInterfaceProperties target properties
        = "set_target_properties(".toList ++ (gen.Namespace ++ target.ExportName)
          ++ " PROPERTIES\n".toList ++ propertyLines properties ++ ")\n\n".toList)
    ∧ gen.GenerateInterfaceProperties target [] = []
    ∧ gen.GenerateImportPropertyCode bm config target properties
      = "# Import target \"".toList ++ (gen.Namespace ++ target.ExportName)
        ++ "\" for configuration \"".toList ++ config ++ "\"\n".toList
        ++ "set_property(TARGET ".toList ++ (gen.Namespace ++ target.ExportName)
        ++ " APPEND PROPERTY IMPORTED_CONFIGURATIONS ".toList
        ++ (if config ≠ [] then bm.UpperCase config else "NOCONFIG".toList)
        ++ ")\n".toList
        ++ "set_target_properties(".toList ++ (gen.Namespace ++ target.ExportName)
        ++ " PROPERTIES\n".toList
        ++ propertyLines properties
        ++ "  )\n".toList ++ "\n".toList
    ∧ List.Pairwise
        (fun a b => List.Lex (fun x y : Nat => x < y)
          (a.map Char.toNat) (b.map Char.toNat))
        (properties.map Prod.fst)
    ∧ (properties.map Prod.fst).Nodup
    ∧ (∀ key value, mapOrdered (mapAssign properties key value)) := by
  refine ⟨?_, ?_, rfl, rfl, ?_, mapOrdered_nodup _ hordered,
    fun key value => mapAssign_ordered _ _ _ hordered⟩
  · induction properties with
    | nil => rfl
    | cons pi rest ih =>
      unfold mapOrdered at hordered ih
      rw [List.pairwise_cons] at hordered
      simp only [propertyLines, List.flatMap_cons]
      rw [ih hordered.2]
  · intro hne
    unfold cmExportFileGenerator.GenerateInterfaceProperties
    rw [if_pos hne]
  · unfold mapOrdered at hordered
    rw [List.pairwise_map]
    exact hordered.imp (fun h => (strLess_iff_lex _ _).1 h)

/-- Witness of C20: the map holding only `INTERFACE_INCLUDE_DIRECTORIES`, and
the map built by assigning `INTERFACE_LINK_LIBRARIES` and then
`INTERFACE_INCLUDE_DIRECTORIES`, for the target `core`. -/
theorem GenerateInterfaceProperties_lines_witness :
    demoGenerator.GenerateInterfaceProperties demoCore
        [("INTERFACE_INCLUDE_DIRECTORIES".toList, "/abs/include".toList)]
      = ("set_target_properties(Pkg::core PROPERTIES\n"
          ++ "  INTERFACE_INCLUDE_DIRECTORIES \"/abs/include\"\n"
          ++ ")\n\n").toList
    ∧ propertyLines
        (mapAssign (mapAssign [] "INTERFACE_LINK_LIBRARIES".toList "Pkg::a".toList)
          "INTERFACE_INCLUDE_DIRECTORIES".toList "/abs/include".toList)
      = ("  INTERFACE_INCLUDE_DIRECTORIES \"/abs/include\"\n"
          ++ "  INTERFACE_LINK_LIBRARIES \"Pkg::a\"\n").toList :=
  ⟨((GenerateInterfaceProperties_lines demoGenerator demoBuildModel "Release".toList
      demoCore [("INTERFACE_INCLUDE_DIRECTORIES".toList, "/abs/include".toList)]
      (by decide)).2.1 (by decide)).trans (by decide),
    by decide⟩

/-! ## `GenerateImportTargetCode` -/

theorem markStatement_opener (mark : Bool) (targetName property : Str) :
    ∀ l ∈ markStatement mark targetName property,
      "set_property(TARGET ".toList <+: l := by
  intro l hl
  unfold markStatement at hl
  split_ifs at hl
  · rw [List.mem_singleton] at hl
    rw [hl]
    simp only [List.append_assoc]
    exact List.prefix_append _ _
  · simp at hl

/-- C21: `GenerateImportTargetCode` writes the comment line, then the creation
statement of the kind of the target for the name `Namespace` followed by the
export name, then statements that each begin with `set_property(TARGET `,
then an empty line; the creation statement is `add_executable(N IMPORTED)`
for an executable and `add_library(N STATIC|SHARED|MODULE|UNKNOWN|INTERFACE
IMPORTED)` for the five library kinds. The name is the one
`AddTargetNamespace` substitutes for a reference that `FindTargetToUse`
resolves to the target, when it is a non-imported target of the export
set. -/
theorem GenerateImportTargetCode_creation (gen : cmExportFileGenerator)
    (marks : cmTargetMarks) (target : cmTarget) (mf : cmMakefile)
    (referrer : cmTarget) (input : Str) (missingTargets : List Str) :
    (∃ statements : List Str,
      gen.GenerateImportTargetCode marks target
        = "# Create imported target ".toList ++ (gen.Namespace ++ target.ExportName)
          ++ "\n".toList
          ++ creationStatement target.GetType (gen.Namespace ++ target.ExportName)
          ++ statements.flatten ++ "\n".toList
      ∧ ∀ l ∈ statements, "set_property(TARGET ".toList <+: l)
    ∧ (∀ N : Str,
      creationStatement TargetType.EXECUTABLE N
        = "add_executable(".toList ++ N ++ " IMPORTED)\n".toList
      ∧ creationStatement TargetType.STATIC_LIBRARY N
        = "add_library(".toList ++ N ++ " STATIC IMPORTED)\n".toList
      ∧ creationStatement TargetType.SHARED_LIBRARY N
        = "add_library(".toList ++ N ++ " SHARED IMPORTED)\n".toList
      ∧ creationStatement TargetType.MODULE_LIBRARY N
        = "add_library(".toList ++ N ++ " MODULE IMPORTED)\n".toList
      ∧ creationStatement TargetType.UNKNOWN_LIBRARY N
        = "add_library(".toList ++ N ++ " UNKNOWN IMPORTED)\n".toList
      ∧ creationStatement TargetType.INTERFACE_LIBRARY N
        = "add_library(".toList ++ N ++ " INTERFACE IMPORTED)\n".toList)
    ∧ (mf.FindTargetToUse input = some target → target.Imported = false →
      target ∈ gen.ExportedTargets →
      (gen.AddTargetNamespace mf input referrer missingTargets).2.1
        = gen.Namespace ++ target.ExportName) := by
  refine ⟨⟨markStatements marks target (gen.Namespace ++ target.ExportName), rfl, ?_⟩,
    fun N => ⟨rfl, rfl, rfl, rfl, rfl, rfl⟩, ?_⟩
  · intro l hl
    unfold markStatements at hl
    simp only [List.mem_append] at hl
    rcases hl with ((hl | hl) | hl) | hl <;> exact markStatement_opener _ _ _ l hl
  · intro hf himp hmem
    simp [cmExportFileGenerator.AddTargetNamespace, hf, himp, hmem]

/-- Witness of C21: the static library `core` with namespace `Pkg::`, and the
executable `tool`. -/
theorem GenerateImportTargetCode_creation_witness :
    coreGenerator.GenerateImportTargetCode demoMarks demoCore
      = ("# Create imported target Pkg::core\n"
          ++ "add_library(Pkg::core STATIC IMPORTED)\n" ++ "\n").toList
    ∧ demoGenerator.GenerateImportTargetCode demoMarks demoTool
      = ("# Create imported target Pkg::tool\n"
          ++ "add_executable(Pkg::tool IMPORTED)\n"
          ++ "set_property(TARGET Pkg::tool PROPERTY ENABLE_EXPORTS 1)\n" ++ "\n").toList
    ∧ (coreGenerator.AddTargetNamespace coreMakefile "core".toList demoLinked []).2.1
      = "Pkg::core".toList :=
  ⟨by decide, by decide,
    (GenerateImportTargetCode_creation coreGenerator demoMarks demoCore coreMakefile
      demoLinked "core".toList []).2.2 (by decide) (by decide) (by decide)⟩

/-! ## Constructs that are skipped -/

/-- When the test of lines 624-627 holds for every `$<TARGET_PROPERTY:` of the
text, the loop changes neither the text nor `missingTargets`. -/
theorem TargetPropertyRewrite_all_implied (gen : cmExportFileGenerator)
    (mf : cmMakefile) (target : cmTarget) (s y : Str) (m m1 : List Str)
    (h : gen.TargetPropertyRewrite mf target s m y m1)
    (hall : ∀ p, p ≤ s.length → "$<TARGET_PROPERTY:".toList <+: s.drop p →
      impliedThisTarget (s.drop (p + 18)) = true) :
    y = s ∧ m1 = m := by
  induction h with
  | done s m _ => exact ⟨rfl, rfl⟩
  | skip opener rest y m m1 p _ _ _ _ ih =>
    have hrest : ∀ q, q ≤ rest.length → "$<TARGET_PROPERTY:".toList <+: rest.drop q →
        impliedThisTarget (rest.drop (q + 18)) = true := by
      intro q hq hocc
      have h1 := hall (opener.length + q) (by simp; omega)
        (by rw [List.drop_append]; exact hocc)
      rw [Nat.add_assoc, List.drop_append] at h1
      exact h1
    obtain ⟨hy, hm⟩ := ih hrest
    exact ⟨by rw [hy], hm⟩
  | name opener name tail y m m1 p hL hlen _ hskip _ _ =>
    obtain ⟨hp, hocc, -⟩ := (findFirst_eq_some_iff _ _ _).1 hL
    have h1 := hall p hp hocc
    have hdrop : (opener ++ (name ++ ',' :: tail)).drop (p + 18) = name ++ ',' :: tail := by
      rw [← hlen]; exact List.drop_left' rfl
    rw [hdrop, hskip] at h1
    cases h1

/-- A text with no `>` passes the test of lines 624-627. -/
theorem impliedThisTarget_of_no_close (rest : Str) (hno : '>' ∉ rest) :
    impliedThisTarget rest = true := by
  have h : findFirst ">".toList rest = none := (findFirst_char_none_iff '>' rest).2 hno
  unfold impliedThisTarget
  cases findFirst ",".toList rest with
  | none => rfl
  | some c =>
    simp only [h, decide_True, Bool.true_or]

/-- The whole function on a text in which every `$<TARGET_PROPERTY:` is
skipped and which holds no `$<TARGET_NAME:`: the text and `missingTargets`
come back unchanged, with no message. -/
theorem ResolveTargetsInGeneratorExpression_all_implied
    (gen : cmExportFileGenerator) (mf : cmMakefile) (target : cmTarget)
    (s : Str) (m : List Str) (fuel : Nat)
    (hall : ∀ p, p ≤ s.length → "$<TARGET_PROPERTY:".toList <+: s.drop p →
      impliedThisTarget (s.drop (p + 18)) = true)
    (hTN : findFirst "$<TARGET_NAME:".toList s = none) (hfuel : s.length < fuel) :
    gen.ResolveTargetsInGeneratorExpression mf fuel s target m = some (s, m, []) := by
  obtain ⟨y, m1, -, hrel⟩ := TargetPropertyRewrite_total gen mf target s.length s
    (Nat.le_refl _) m fuel hfuel
  obtain ⟨hy, hm⟩ := TargetPropertyRewrite_all_implied gen mf target s y m m1 hrel hall
  subst hy
  subst hm
  exact ResolveTargetsInGeneratorExpression_of_rewrite gen mf target y y m1 m1 hrel hTN
    fuel hfuel

/-- Counterexample to C22 as stated: the construct `$<TARGET_NAME:a` is opened
and never closed; the text is left unchanged, but a fatal error is issued. -/
theorem ResolveTargetsInGeneratorExpression_incomplete_counterexample :
    findFirst ">".toList "$<TARGET_NAME:a".toList = none
    ∧ demoGenerator.ResolveTargetsInGeneratorExpression demoMakefile 40
        "$<TARGET_NAME:a".toList demoA []
      = some ("$<TARGET_NAME:a".toList, [],
          [(MessageType.FATAL_ERROR,
            "$<TARGET_NAME:...> expression incomplete".toList)]) := by
  refine ⟨?_, ?_⟩ <;> decide

/-- C22, amended: when no `>` follows a `$<TARGET_PROPERTY:`, the iteration
that finds it leaves the text and `missingTargets` unchanged and the scan goes
on from just past the opening token; when no `>` follows a `$<TARGET_NAME:`,
the iteration that finds it leaves the text and `missingTargets` unchanged and
ends the loop with the error `$<TARGET_NAME:...> expression incomplete`. For a
text with no `>` at all the whole function returns the text and
`missingTargets` unchanged, with no message when the text holds no
`$<TARGET_NAME:` and with that fatal error when it holds one. -/
theorem ResolveTargetsInGeneratorExpression_incomplete
    (gen : cmExportFileGenerator) (mf : cmMakefile) (target : cmTarget)
    (fuel : Nat) (input : Str) (m : List Str) :
    (∀ lastPos pos,
      strFind input "$<TARGET_PROPERTY:".toList lastPos = some pos →
      strFind input ">".toList (pos + 18) = none →
      gen.targetPropertyLoop mf target (fuel + 1) input lastPos m
        = gen.targetPropertyLoop mf target fuel input (pos + 18) m)
    ∧ (∀ lastPos pos,
      strFind input "$<TARGET_NAME:".toList lastPos = some pos →
      strFind input ">".toList (pos + 14) = none →
      gen.targetNameLoop mf target (fuel + 1) input lastPos m
        = some (input, m, "$<TARGET_NAME:...> expression incomplete".toList))
    ∧ ('>' ∉ input → input.length < fuel →
      (findFirst "$<TARGET_NAME:".toList input = none →
        gen.ResolveTargetsInGeneratorExpression mf fuel input target m
          = some (input, m, []))
      ∧ (findFirst "$<TARGET_NAME:".toList input ≠ none →
        gen.ResolveTargetsInGeneratorExpression mf fuel input target m
          = some (input, m,
              [(MessageType.FATAL_ERROR,
                "$<TARGET_NAME:...> expression incomplete".toList)]))) := by
  have hlen18 : "$<TARGET_PROPERTY:".toList.length = 18 := by decide
  have hlen14 : "$<TARGET_NAME:".toList.length = 14 := by decide
  refine ⟨?_, ?_, ?_⟩
  · intro lastPos pos hfind hclose
    rw [targetPropertyLoop_succ, hfind]
    simp only [hlen18]
    cases strFind input ",".toList (pos + 18) with
    | none => rfl
    | some comma =>
      simp only
      rw [if_pos (Or.inl hclose)]
  · intro lastPos pos hfind hclose
    rw [cmExportFileGenerator.targetNameLoop, hfind]
    simp only [hlen14]
    rw [hclose]
  · intro hno hfuel
    have hall : ∀ p, p ≤ input.length →
        "$<TARGET_PROPERTY:".toList <+: input.drop p →
        impliedThisTarget (input.drop (p + 18)) = true := by
      intro p _ _
      exact impliedThisTarget_of_no_close _ (fun h => hno (List.mem_of_mem_drop h))
    constructor
    · intro hTN
      exact ResolveTargetsInGeneratorExpression_all_implied gen mf target input m fuel
        hall hTN hfuel
    · intro hTN
      obtain ⟨f, rfl⟩ : ∃ f, fuel = f + 1 := ⟨fuel - 1, by omega⟩
      obtain ⟨y, m1, -, hrel⟩ := TargetPropertyRewrite_total gen mf target input.length
        input (Nat.le_refl _) m (f + 1) hfuel
      obtain ⟨hy, hm⟩ := TargetPropertyRewrite_all_implied gen mf target input y m m1
        hrel hall
      subst hy
      subst hm
      unfold cmExportFileGenerator.ResolveTargetsInGeneratorExpression
      rw [TargetPropertyRewrite_loop gen mf target y y m1 m1 hrel (f + 1) hfuel]
      simp only
      cases hfind : findFirst "$<TARGET_NAME:".toList y with
      | none => exact absurd hfind hTN
      | some pos =>
        have hb := findFirst_some_bound _ _ _ hfind
        rw [hlen14] at hb
        have hclose : strFind y ">".toList (pos + 14) = none := by
          rw [strFind_of_le _ _ _ hb]
          have : findFirst ">".toList (y.drop (pos + 14)) = none :=
            (findFirst_char_none_iff '>' _).2 (fun h => hno (List.mem_of_mem_drop h))
          rw [this]
          rfl
        rw [cmExportFileGenerator.targetNameLoop, strFind_zero, hfind]
        simp only [hlen14]
        rw [hclose]
        simp [cmExportFileGenerator.ReplaceInstallPrefix]

/-- Witness of C22, amended: the unclosed `$<TARGET_PROPERTY:a,INTERFACE_X`
comes back unchanged with no message. -/
theorem ResolveTargetsInGeneratorExpression_incomplete_witness :
    demoGenerator.ResolveTargetsInGeneratorExpression demoMakefile 40
        "x;$<TARGET_PROPERTY:a,INTERFACE_X".toList demoA []
      = some ("x;$<TARGET_PROPERTY:a,INTERFACE_X".toList, [], []) :=
  ((ResolveTargetsInGeneratorExpression_incomplete demoGenerator demoMakefile demoA 40
    "x;$<TARGET_PROPERTY:a,INTERFACE_X".toList []).2.2 (by decide) (by decide)).1
    (by decide)

/-! ## The texts of the diagnostics -/

/-- The token `$<TARGET_PROPERTY:` does not start within its own last
seventeen characters. -/
theorem opener_no_border (k : Nat) (h1 : 1 ≤ k) (h18 : k < 18) (t z : Str) :
    "$<TARGET_PROPERTY:".toList.drop k ++ t ≠ "$<TARGET_PROPERTY:".toList ++ z := by
  intro h
  have hTP : "$<TARGET_PROPERTY:".toList ++ z
      = '$' :: ("<TARGET_PROPERTY:".toList ++ z) := by
    rfl
  rw [hTP] at h
  interval_cases k <;>
    exact absurd (List.cons.inj h).1 (by decide)

/-- After a text without `$<TARGET_PROPERTY:`, the first one is the one that
follows the text. -/
theorem findFirst_opener_after (P z : Str)
    (hP : findFirst "$<TARGET_PROPERTY:".toList P = none) :
    findFirst "$<TARGET_PROPERTY:".toList (P ++ ("$<TARGET_PROPERTY:".toList ++ z))
      = some P.length := by
  have hlen : "$<TARGET_PROPERTY:".toList.length = 18 := by decide
  rw [findFirst_eq_some_iff]
  refine ⟨by simp, ?_, ?_⟩
  · rw [List.drop_left]
    exact List.prefix_append _ _
  · intro j hj hocc
    by_cases hin : j + 18 ≤ P.length
    · have := (prefix_drop_append _ P _ j (by rw [hlen]; exact hin)).1 hocc
      exact (findFirst_eq_none_iff _ _).1 hP j (by omega) this
    · rw [List.drop_append_of_le_length (by omega)] at hocc
      obtain ⟨t, ht⟩ := hocc
      have hk : (P.drop j).length = P.length - j := List.length_drop _ _
      have h2 := congrArg (List.drop (P.length - j)) ht
      rw [List.drop_append_of_le_length (by rw [hlen]; omega),
        List.drop_left' hk] at h2
      exact opener_no_border (P.length - j) (by omega) (by omega) t z h2

/-- Counterexample to C24 as stated: in
`$<TARGET_PROPERTY:b,X>;$<TARGET_PROPERTY:a,Y>` the construct with the name
`a` follows the text `$<TARGET_PROPERTY:b,X>;`, which the pass does not leave
unchanged. -/
theorem targetPropertyLoop_name_only_counterexample :
    literalName "a".toList
    ∧ '>' ∈ "Y>".toList
    ∧ demoMakefile.FindTargetToUse "a".toList = some demoA
    ∧ demoA ∈ demoGenerator.ExportedTargets
    ∧ demoGenerator.targetPropertyLoop demoMakefile demoA 64
        ("$<TARGET_PROPERTY:b,X>;".toList ++ "$<TARGET_PROPERTY:".toList ++ "a".toList
          ++ ",".toList ++ "Y>".toList) 0 []
      = some ("$<TARGET_PROPERTY:Pkg::b,X>;$<TARGET_PROPERTY:Pkg::a,Y>".toList, [])
    ∧ ¬ "$<TARGET_PROPERTY:b,X>;".toList
        <+: "$<TARGET_PROPERTY:Pkg::b,X>;$<TARGET_PROPERTY:Pkg::a,Y>".toList := by
  refine ⟨?_, ?_, ?_, ?_, ?_, ?_⟩ <;> decide

/-- C24, amended: for an input `P ++ "$<TARGET_PROPERTY:" ++ name ++ "," ++
rest` where `P` holds no `$<TARGET_PROPERTY:`, `name` holds no `,`, `>` or
`$<`, `rest` holds a `>` and `name` resolves to a non-imported target of the
export set, the `$<TARGET_PROPERTY:` pass returns `P`, the opener, the
namespace followed by the export name, the comma, and what the pass makes of
`rest`; that is `rest` itself when `rest` holds no `$<TARGET_PROPERTY:`, and
it agrees with `rest` up to and including the next `$<TARGET_PROPERTY:`
otherwise. -/
theorem targetPropertyLoop_name_only (gen : cmExportFileGenerator)
    (mf : cmMakefile) (target : cmTarget) (P name rest : Str) (m : List Str)
    (tgt : cmTarget) (fuel : Nat)
    (hP : findFirst "$<TARGET_PROPERTY:".toList P = none)
    (hname : literalName name) (hclose : '>' ∈ rest)
    (hfind : mf.FindTargetToUse name = some tgt) (himp : tgt.Imported = false)
    (hmem : tgt ∈ gen.ExportedTargets)
    (hfuel : (P ++ "$<TARGET_PROPERTY:".toList ++ name ++ ",".toList ++ rest).length
      < fuel) :
    ∃ y m1,
      gen.targetPropertyLoop mf target fuel rest 0 m = some (y, m1)
      ∧ gen.targetPropertyLoop mf target fuel
          (P ++ "$<TARGET_PROPERTY:".toList ++ name ++ ",".toList ++ rest) 0 m
        = some (P ++ "$<TARGET_PROPERTY:".toList ++ (gen.Namespace ++ tgt.ExportName)
            ++ ",".toList ++ y, m1)
      ∧ (findFirst "$<TARGET_PROPERTY:".toList rest = none → y = rest ∧ m1 = m)
      ∧ (∀ q, findFirst "$<TARGET_PROPERTY:".toList rest = some q →
          rest.take (q + 18) <+: y) := by
  have hlen : "$<TARGET_PROPERTY:".toList.length = 18 := by decide
  have hs : P ++ "$<TARGET_PROPERTY:".toList ++ name ++ ",".toList ++ rest
      = (P ++ "$<TARGET_PROPERTY:".toList) ++ (name ++ ',' :: rest) := by
    simp [List.append_assoc]
  have hr : gen.AddTargetNamespace mf name target m
      = (true, gen.Namespace ++ tgt.ExportName, m) := by
    simp [cmExportFileGenerator.AddTargetNamespace, hfind, himp, hmem]
  have hrestlen : rest.length < fuel := by
    rw [hs] at hfuel
    simp only [List.length_append, List.length_cons] at hfuel
    omega
  obtain ⟨y, m1, hloop, hrel⟩ := TargetPropertyRewrite_total gen mf target rest.length
    rest (Nat.le_refl _) m fuel hrestlen
  obtain ⟨hcomma, himplied⟩ := not_implied_of_literalName name rest hname hclose
  have hfirst : findFirst "$<TARGET_PROPERTY:".toList
      ((P ++ "$<TARGET_PROPERTY:".toList) ++ (name ++ ',' :: rest)) = some P.length := by
    rw [List.append_assoc]
    exact findFirst_opener_after P _ hP
  have hrel2 := @cmExportFileGenerator.TargetPropertyRewrite.name gen mf target
    (P ++ "$<TARGET_PROPERTY:".toList) name rest y m m1 P.length hfirst
    (by rw [List.length_append, hlen]) hcomma himplied (by rw [hr]; exact hrel)
  rw [hr] at hrel2
  refine ⟨y, m1, hloop, ?_, ?_, ?_⟩
  · rw [hs] at hfuel ⊢
    rw [TargetPropertyRewrite_loop gen mf target _ _ m m1 hrel2 fuel hfuel]
    simp [List.append_assoc]
  · intro hnone
    cases hrel with
    | done s m _ => exact ⟨rfl, rfl⟩
    | skip opener rest1 y1 m m1 p hL _ _ _ => rw [hL] at hnone; cases hnone
    | name opener name1 tail y1 m m1 p hL _ _ _ _ => rw [hL] at hnone; cases hnone
  · intro q hq
    cases hrel with
    | done s m hL => rw [hL] at hq; cases hq
    | skip opener rest1 y1 m m1 p hL hlen1 _ _ =>
      rw [hL] at hq
      have hqp : p = q := Option.some.inj hq
      subst hqp
      rw [← hlen1, List.take_left' rfl]
      exact List.prefix_append _ _
    | name opener name1 tail y1 m m1 p hL hlen1 _ _ _ =>
      rw [hL] at hq
      have hqp : p = q := Option.some.inj hq
      subst hqp
      rw [← hlen1, List.take_left' rfl]
      exact List.prefix_append _ _

/-- Witness of C24, amended: the construct with the name `a` after the text
`-I` in the concrete project. -/
theorem targetPropertyLoop_name_only_witness :
    ∃ y m1,
      demoGenerator.targetPropertyLoop demoMakefile demoA 64
          "INTERFACE_X>;b".toList 0 [] = some (y, m1)
      ∧ demoGenerator.targetPropertyLoop demoMakefile demoA 64
          ("-I".toList ++ "$<TARGET_PROPERTY:".toList ++ "a".toList ++ ",".toList
            ++ "INTERFACE_X>;b".toList) 0 []
        = some ("-I".toList ++ "$<TARGET_PROPERTY:".toList
            ++ (demoGenerator.Namespace ++ demoA.ExportName) ++ ",".toList ++ y, m1)
      ∧ (findFirst "$<TARGET_PROPERTY:".toList "INTERFACE_X>;b".toList = none →
          y = "INTERFACE_X>;b".toList ∧ m1 = [])
      ∧ (∀ q, findFirst "$<TARGET_PROPERTY:".toList "INTERFACE_X>;b".toList = some q →
          "INTERFACE_X>;b".toList.take (q + 18) <+: y) :=
  targetPropertyLoop_name_only demoGenerator demoMakefile demoA "-I".toList "a".toList
    "INTERFACE_X>;b".toList [] demoA 64 (by decide) (by decide) (by decide) (by decide)
    (by decide) (by decide) (by decide)

/-- The test of lines 624-627 in words: no comma follows, or no `>` follows,
or a `>` or a `$<` comes before the first comma. -/
theorem impliedThisTarget_iff (rest : Str) :
    impliedThisTarget rest = true
      ↔ findFirst ",".toList rest = none
        ∨ findFirst ">".toList rest = none
        ∨ ∃ c, findFirst ",".toList rest = some c
          ∧ ((∃ g, findFirst ">".toList rest = some g ∧ g < c)
            ∨ ∃ o, findFirst "$<".toList rest = some o ∧ o < c) := by
  unfold impliedThisTarget
  cases hc : findFirst ",".toList rest with
  | none => simp
  | some c =>
    cases hg : findFirst ">".toList rest with
    | none => simp
    | some g =>
      cases ho : findFirst "$<".toList rest with
      | none => simp [nposLt]
      | some o => simp [nposLt]

/-- C25: when the test of lines 624-627 holds after every `$<TARGET_PROPERTY:`
of the input (no comma follows, or no `>` follows, or a `>` or a `$<` comes
before the first comma) and the input holds no `$<TARGET_NAME:`,
`ResolveTargetsInGeneratorExpression` returns the input and `missingTargets`
unchanged and issues no message, for every generator and every makefile, so
whatever a target lookup would give. -/
theorem ResolveTargetsInGeneratorExpression_implied_this
    (gen : cmExportFileGenerator) (mf : cmMakefile) (target : cmTarget)
    (input : Str) (missingTargets : List Str) (fuel : Nat)
    (hall : ∀ p, p ≤ input.length → "$<TARGET_PROPERTY:".toList <+: input.drop p →
      impliedThisTarget (input.drop (p + 18)) = true)
    (hTN : findFirst "$<TARGET_NAME:".toList input = none)
    (hfuel : input.length < fuel) :
    gen.ResolveTargetsInGeneratorExpression mf fuel input target missingTargets
      = some (input, missingTargets, [])
    ∧ ∀ rest, impliedThisTarget rest = true
      ↔ findFirst ",".toList rest = none
        ∨ findFirst ">".toList rest = none
        ∨ ∃ c, findFirst ",".toList rest = some c
          ∧ ((∃ g, findFirst ">".toList rest = some g ∧ g < c)
            ∨ ∃ o, findFirst "$<".toList rest = some o ∧ o < c) :=
  ⟨ResolveTargetsInGeneratorExpression_all_implied gen mf target input missingTargets
    fuel hall hTN hfuel, impliedThisTarget_iff⟩

/-- Witness of C25: a construct without comma and one whose name is an
expression, in the concrete project, where `a` names an exported target. -/
theorem ResolveTargetsInGeneratorExpression_implied_this_witness :
    demoGenerator.ResolveTargetsInGeneratorExpression demoMakefile 64
        "$<TARGET_PROPERTY:a>;$<TARGET_PROPERTY:$<C>,a>".toList demoA []
      = some ("$<TARGET_PROPERTY:a>;$<TARGET_PROPERTY:$<C>,a>".toList, [], []) :=
  (ResolveTargetsInGeneratorExpression_implied_this demoGenerator demoMakefile demoA
    "$<TARGET_PROPERTY:a>;$<TARGET_PROPERTY:$<C>,a>".toList [] 64
    (by decide) (by decide) (by decide)).1

/-! ## Default mode on a text without construct -/

/-- C26: in the default mode, an input with neither `$<TARGET_PROPERTY:` nor
`$<TARGET_NAME:` is returned unchanged, with `missingTargets` unchanged and no
message, whatever targets its items name; `ReplaceInstallPrefix` of the base
class is the identity. -/
theorem ResolveTargetsInGeneratorExpressions_no_construct
    (gen : cmExportFileGenerator) (mf : cmMakefile) (ge : cmGeneratorExpression)
    (fuel : Nat) (input : Str) (target : cmTarget) (missingTargets : List Str)
    (hTP : findFirst "$<TARGET_PROPERTY:".toList input = none)
    (hTN : findFirst "$<TARGET_NAME:".toList input = none)
    (hfuel : 0 < fuel) :
    gen.ResolveTargetsInGeneratorExpressions mf ge fuel input target missingTargets
        FreeTargetsReplace.NoReplaceFreeTargets
      = some (input, missingTargets, [])
    ∧ gen.ReplaceInstallPrefix input = input := by
  obtain ⟨f, rfl⟩ : ∃ f, fuel = f + 1 := ⟨fuel - 1, by omega⟩
  refine ⟨?_, rfl⟩
  unfold cmExportFileGenerator.ResolveTargetsInGeneratorExpressions
    cmExportFileGenerator.ResolveTargetsInGeneratorExpression
  simp only
  rw [targetPropertyLoop_step_none gen mf target f input missingTargets hTP]
  simp only
  rw [targetNameLoop_none gen mf target f input missingTargets hTN]
  simp [cmExportFileGenerator.ReplaceInstallPrefix]

/-- Witness of C26: the value `a;b` names two targets of the export set; the
default mode returns it unchanged, the replace-free-targets mode does not. -/
theorem ResolveTargetsInGeneratorExpressions_no_construct_witness :
    demoMakefile.FindTargetToUse "a".toList = some demoA
    ∧ demoA ∈ demoGenerator.ExportedTargets
    ∧ demoGenerator.ResolveTargetsInGeneratorExpressions demoMakefile demoExpression 1
        "a;b".toList demoA [] FreeTargetsReplace.NoReplaceFreeTargets
      = some ("a;b".toList, [], [])
    ∧ demoGenerator.ResolveTargetsInGeneratorExpressions demoMakefile demoExpression 1
        "a;b".toList demoA [] FreeTargetsReplace.ReplaceFreeTargets
      = some ("Pkg::a;Pkg::b".toList, [], []) :=
  ⟨by decide, by decide,
    (ResolveTargetsInGeneratorExpressions_no_construct demoGenerator demoMakefile
      demoExpression 1 "a;b".toList demoA [] (by decide) (by decide) (by decide)).1,
    by decide⟩

/-! ## `prefixItems` -/

/-- The loop of `prefixItems` joins the entries, each with the placeholder in
front when it is neither a full path nor holds the placeholder. -/
theorem prefixItemsLoop_join (st : cmSystemTools) (entries : List Str) :
    ∀ (exportDirs sep : Str),
      prefixItemsLoop st entries exportDirs sep
        = joinItems (entries.map (fun ei =>
            if st.FileIsFullPath ei = false
                ∧ strFind ei "$\x7b_IMPORT_PREFIX\x7d".toList 0 = none then
              "$\x7b_IMPORT_PREFIX\x7d/".toList ++ ei
            else ei)) exportDirs sep := by
  induction entries with
  | nil => intro exportDirs sep; rfl
  | cons ei rest ih =>
    intro exportDirs sep
    unfold prefixItemsLoop
    simp only [List.map_cons, joinItems]
    rw [ih]
    congr 1
    split_ifs <;> simp only [List.append_assoc]

/-- C27: `prefixItems` returns the `;`-join of as many entries as the split
gives, in the same order, where an entry that is not a full path and does not
hold `${_IMPORT_PREFIX}` has `${_IMPORT_PREFIX}/` put in front and every other
entry is as it was. -/
theorem prefixItems_join (st : cmSystemTools) (ge : cmGeneratorExpression)
    (exportDirs : Str) :
    prefixItems st ge exportDirs
      = ";".toList.intercalate ((ge.Split exportDirs).map (fun ei =>
          if st.FileIsFullPath ei = false
              ∧ strFind ei "$\x7b_IMPORT_PREFIX\x7d".toList 0 = none then
            "$\x7b_IMPORT_PREFIX\x7d/".toList ++ ei
          else ei))
    ∧ ((ge.Split exportDirs).map (fun ei =>
          if st.FileIsFullPath ei = false
              ∧ strFind ei "$\x7b_IMPORT_PREFIX\x7d".toList 0 = none then
            "$\x7b_IMPORT_PREFIX\x7d/".toList ++ ei
          else ei)).length = (ge.Split exportDirs).length := by
  refine ⟨?_, List.length_map _ _⟩
  unfold prefixItems
  rw [prefixItemsLoop_join, joinItems_eq_intercalate]

/-- An evaluation of `prefixItems` in the concrete project: a relative entry,
an absolute entry and an entry that holds the placeholder. -/
theorem prefixItems_example :
    prefixItems demoSystemTools demoExpression
        "include;/usr/include;$\x7b_IMPORT_PREFIX\x7d/inc".toList
      = "$\x7b_IMPORT_PREFIX\x7d/include;/usr/include;$\x7b_IMPORT_PREFIX\x7d/inc".toList := by
  decide

/-! ## Shared dependencies and `missingTargets` -/

/-- Entries that name no target leave `missingTargets` as it was. -/
theorem linkEntriesLoop_missing (gen : cmExportFileGenerator) (mf : cmMakefile)
    (target : cmTarget) (entries : List Str)
    (hnone : ∀ l ∈ entries, mf.FindTargetToUse l = none) :
    ∀ (input sep : Str) (m : List Str),
      (gen.linkEntriesLoop mf target entries input sep m).2 = m := by
  induction entries with
  | nil => intro input sep m; rfl
  | cons li rest ih =>
    intro input sep m
    have hli : gen.AddTargetNamespace mf li target m = (false, li, m) := by
      simp [cmExportFileGenerator.AddTargetNamespace, hnone li (List.mem_cons_self _ _)]
    unfold cmExportFileGenerator.linkEntriesLoop
    simp only [hli]
    exact ih (fun l hl => hnone l (List.mem_cons_of_mem _ hl)) _ _ _

/-- C28: when no language of the link interface names a target,
`SetImportDetailProperties` returns `missingTargets` as it was, whatever the
shared dependencies are, and for a non-empty list of shared dependencies the
map holds under `IMPORTED_LINK_DEPENDENT_LIBRARIES<suffix>` the `;`-join of
what `AddTargetNamespace` makes of each of them, in their order. -/
theorem SetImportDetailProperties_shared_deps (gen : cmExportFileGenerator)
    (mf : cmMakefile) (bm : cmBuildModel) (config suffix : Str) (target : cmTarget)
    (properties : ImportPropertyMap) (missingTargets : List Str)
    (iface : LinkInterface)
    (hiface : bm.GetLinkInterface target config = some iface)
    (hlang : ∀ l ∈ iface.Languages, mf.FindTargetToUse l = none) :
    (gen.SetImportDetailProperties mf bm config suffix target properties
        missingTargets).2 = missingTargets
    ∧ (iface.SharedDeps ≠ [] →
      ∃ items,
        mapFind (gen.SetImportDetailProperties mf bm config suffix target properties
            missingTargets).1 ("IMPORTED_LINK_DEPENDENT_LIBRARIES".toList ++ suffix)
          = some (";".toList.intercalate items)
        ∧ List.Forall₂ (fun li li1 =>
            ∃ m, li1 = (gen.AddTargetNamespace mf li target m).2.1)
          iface.SharedDeps items) := by
  unfold cmExportFileGenerator.SetImportDetailProperties
  generalize sonameProperties bm config suffix target properties = p1
  rw [hiface]
  simp only
  constructor
  · unfold cmExportFileGenerator.SetImportLinkProperty
    split_ifs
    · rfl
    · exact linkEntriesLoop_missing gen mf target iface.Languages hlang _ _ _
  · intro hne
    obtain ⟨items, m1, heq, hrel⟩ :=
      linkEntriesLoop_items gen mf target iface.SharedDeps [] [] []
    refine ⟨items, ?_, hrel⟩
    have hkey : "IMPORTED_LINK_DEPENDENT_LIBRARIES".toList ++ suffix
        ≠ "IMPORTED_LINK_INTERFACE_MULTIPLICITY".toList ++ suffix := by
      intro h
      simp at h
    have hdeps : mapFind (gen.SetImportLinkProperty mf suffix target
        "IMPORTED_LINK_DEPENDENT_LIBRARIES".toList iface.SharedDeps
        (gen.SetImportLinkProperty mf suffix target
          "IMPORTED_LINK_INTERFACE_LANGUAGES".toList iface.Languages p1
          missingTargets).1 []).1
        ("IMPORTED_LINK_DEPENDENT_LIBRARIES".toList ++ suffix)
        = some (";".toList.intercalate items) := by
      generalize (gen.SetImportLinkProperty mf suffix target
        "IMPORTED_LINK_INTERFACE_LANGUAGES".toList iface.Languages p1
        missingTargets).1 = p2
      unfold cmExportFileGenerator.SetImportLinkProperty
      rw [if_neg hne]
      simp only [heq, joinItems_eq_intercalate]
      exact mapFind_mapAssign _ _ _
    split_ifs
    · rw [mapFind_mapAssign_ne _ _ _ _ hkey]
      exact hdeps
    · exact hdeps

/-- Witness of C28: the shared dependencies `ext` and `a`, of which `ext` is
outside the export set, with the language `CXX`. -/
theorem SetImportDetailProperties_shared_deps_witness :
    (demoGenerator.SetImportDetailProperties demoMakefile sharedDepsModel
        "Release".toList "_RELEASE".toList demoA [] ["x".toList]).2 = ["x".toList]
    ∧ mapFind (demoGenerator.SetImportDetailProperties demoMakefile sharedDepsModel
          "Release".toList "_RELEASE".toList demoA [] ["x".toList]).1
        "IMPORTED_LINK_DEPENDENT_LIBRARIES_RELEASE".toList
      = some "Other::ext;Pkg::a".toList :=
  ⟨(SetImportDetailProperties_shared_deps demoGenerator demoMakefile sharedDepsModel
      "Release".toList "_RELEASE".toList demoA [] ["x".toList]
      { Languages := ["CXX".toList], SharedDeps := ["ext".toList, "a".toList] }
      (by decide) (by decide)).1,
    by decide⟩

/-! ## The result of `checkInterfaceDirs` -/

/-- One item sets `hadFatalError` exactly when it holds a generator expression
at an offset other than 0 and policy CMP0041 is NEW or required. -/
theorem checkInterfaceDirsItem_flag (st : cmSystemTools)
    (ge : cmGeneratorExpression) (mf : cmMakefile) (target : cmTarget) (li : Str)
    (state : Bool × List Message) :
    (checkInterfaceDirsItem st ge mf target li state).1 = true
      ↔ state.1 = true
        ∨ ((∃ n, ge.Find li = some n ∧ 0 < n)
          ∧ (target.PolicyStatusCMP0041 = PolicyStatus.NEW
            ∨ target.PolicyStatusCMP0041 = PolicyStatus.REQUIRED_IF_USED
            ∨ target.PolicyStatusCMP0041 = PolicyStatus.REQUIRED_ALWAYS)) := by
  unfold checkInterfaceDirsItem
  generalize "$\x7b_IMPORT_PREFIX\x7d".toList = tok
  cases hfind : ge.Find li with
  | none =>
    by_cases hpre : cmHasLiteralPrefix li tok = true <;> simp [hpre]
  | some n =>
    cases n with
    | zero => simp
    | succ k =>
      by_cases hpre : cmHasLiteralPrefix li tok = true
      · cases hpol : target.PolicyStatusCMP0041 <;> simp [hpre]
      · cases hpol : target.PolicyStatusCMP0041 <;> simp [hpre]

/-- C29: `checkInterfaceDirs` returns false exactly when an item of the value
holds a generator expression at an offset greater than 0 and policy CMP0041 is
NEW, REQUIRED_IF_USED or REQUIRED_ALWAYS; the flag is the same for all path
predicates, so it does not depend on what the path checks diagnose. -/
theorem checkInterfaceDirs_result (st : cmSystemTools) (ge : cmGeneratorExpression)
    (mf : cmMakefile) (prepro : Str) (target : cmTarget) :
    ((checkInterfaceDirs st ge mf prepro target).1 = false
      ↔ (∃ li ∈ ge.Split prepro, ∃ n, ge.Find li = some n ∧ 0 < n)
        ∧ (target.PolicyStatusCMP0041 = PolicyStatus.NEW
          ∨ target.PolicyStatusCMP0041 = PolicyStatus.REQUIRED_IF_USED
          ∨ target.PolicyStatusCMP0041 = PolicyStatus.REQUIRED_ALWAYS))
    ∧ ∀ (st2 : cmSystemTools) (mf2 : cmMakefile),
      (checkInterfaceDirs st2 ge mf2 prepro target).1
        = (checkInterfaceDirs st ge mf prepro target).1 := by
  have key : ∀ (st : cmSystemTools) (mf : cmMakefile) (parts : List Str)
      (state : Bool × List Message),
      (parts.foldl (fun state li => checkInterfaceDirsItem st ge mf target li state)
          state).1 = true
        ↔ state.1 = true
          ∨ ((∃ li ∈ parts, ∃ n, ge.Find li = some n ∧ 0 < n)
            ∧ (target.PolicyStatusCMP0041 = PolicyStatus.NEW
              ∨ target.PolicyStatusCMP0041 = PolicyStatus.REQUIRED_IF_USED
              ∨ target.PolicyStatusCMP0041 = PolicyStatus.REQUIRED_ALWAYS)) := by
    intro st mf parts
    induction parts with
    | nil => intro state; simp
    | cons li rest ih =>
      intro state
      rw [List.foldl_cons, ih, checkInterfaceDirsItem_flag]
      simp only [List.mem_cons, exists_eq_or_imp]
      constructor
      · rintro ((h | ⟨hA, hS⟩) | ⟨hB, hS⟩)
        · exact Or.inl h
        · exact Or.inr ⟨Or.inl hA, hS⟩
        · exact Or.inr ⟨Or.inr hB, hS⟩
      · rintro (h | ⟨hA | hB, hS⟩)
        · exact Or.inl (Or.inl h)
        · exact Or.inl (Or.inr ⟨hA, hS⟩)
        · exact Or.inr ⟨hB, hS⟩
  have hiff : ∀ (st : cmSystemTools) (mf : cmMakefile),
      (checkInterfaceDirs st ge mf prepro target).1 = false
        ↔ (∃ li ∈ ge.Split prepro, ∃ n, ge.Find li = some n ∧ 0 < n)
          ∧ (target.PolicyStatusCMP0041 = PolicyStatus.NEW
            ∨ target.PolicyStatusCMP0041 = PolicyStatus.REQUIRED_IF_USED
            ∨ target.PolicyStatusCMP0041 = PolicyStatus.REQUIRED_ALWAYS) := by
    intro st mf
    unfold checkInterfaceDirs
    simp only [Bool.not_eq_false']
    rw [key]
    simp
  refine ⟨hiff st mf, ?_⟩
  intro st2 mf2
  have h1 := hiff st mf
  have h2 := hiff st2 mf2
  cases hb : (checkInterfaceDirs st ge mf prepro target).1 with
  | false => exact h2.2 (h1.1 hb)
  | true =>
    cases hb2 : (checkInterfaceDirs st2 ge mf2 prepro target).1 with
    | true => rfl
    | false =>
      rw [h1.2 (h2.1 hb2)] at hb
      cases hb

/-! ## Termination -/

/-- What `find` tells about the offset it returns. -/
theorem strFind_some (s pat : Str) (k p : Nat) (h : strFind s pat k = some p) :
    k ≤ p ∧ p + pat.length ≤ s.length ∧ pat <+: s.drop p := by
  unfold strFind at h
  split_ifs at h with hk
  cases hf : findFirst pat (s.drop k) with
  | none => rw [hf] at h; cases h
  | some i =>
    rw [hf] at h
    simp only [Option.map_some', Option.some.injEq] at h
    subst h
    have hb := findFirst_some_bound _ _ _ hf
    rw [List.length_drop] at hb
    obtain ⟨-, hocc, -⟩ := (findFirst_eq_some_iff _ _ _).1 hf
    rw [List.drop_drop] at hocc
    refine ⟨by omega, by omega, ?_⟩
    rw [Nat.add_comm i k]
    exact hocc

/-- After a replacement by a name without `$<`, a `$<TARGET_NAME:` found from
the old offset of the `>` starts at the last character of the name or after
it. -/
theorem targetName_after_replace (s name : Str) (pos endPos pos1 : Nat)
    (hpos : pos ≤ s.length) (hend : pos ≤ endPos)
    (hname : findFirst "$<".toList name = none)
    (hfind : strFind (strReplace s pos (endPos - pos + 1) name)
      "$<TARGET_NAME:".toList endPos = some pos1) :
    pos + name.length ≤ pos1 + 1 := by
  obtain ⟨h1, -, hocc⟩ := strFind_some _ _ _ _ hfind
  by_contra hlt
  have hpre : "$<".toList <+: "$<TARGET_NAME:".toList := by decide
  have hocc2 := hpre.trans hocc
  unfold strReplace at hocc2
  have htake : (s.take pos).length = pos := by
    rw [List.length_take]; omega
  have h2 := (prefix_drop_append "$<".toList (s.take pos ++ name) _ pos1
    (by
      have h2len : "$<".toList.length = 2 := by decide
      rw [h2len, List.length_append, htake]
      omega)).1 hocc2
  obtain ⟨i, hi⟩ : ∃ i, pos1 = (s.take pos).length + i := ⟨pos1 - pos, by omega⟩
  rw [hi, List.drop_append] at h2
  exact (findFirst_eq_none_iff _ _).1 hname i (by omega) h2

/-- The `$<TARGET_NAME:` loop ends within as many iterations as there are
characters from the next `$<TARGET_NAME:` on, when the names
`AddTargetNamespace` substitutes hold no `$<`. -/
theorem targetNameLoop_total (gen : cmExportFileGenerator) (mf : cmMakefile)
    (target : cmTarget)
    (hclean : ∀ n m, findFirst "$<".toList n = none →
      (gen.AddTargetNamespace mf n target m).1 = true →
      findFirst "$<".toList (gen.AddTargetNamespace mf n target m).2.1 = none)
    (fuel : Nat) :
    ∀ (s : Str) (lastPos : Nat) (m : List Str),
      (match strFind s "$<TARGET_NAME:".toList lastPos with
        | none => 0
        | some pos => s.length - pos) < fuel →
      (gen.targetNameLoop mf target fuel s lastPos m).isSome = true := by
  have hlen14 : "$<TARGET_NAME:".toList.length = 14 := by decide
  induction fuel with
  | zero => intro s lastPos m h; omega
  | succ f ih =>
    intro s lastPos m hmu
    rw [cmExportFileGenerator.targetNameLoop]
    cases hfind : strFind s "$<TARGET_NAME:".toList lastPos with
    | none => rfl
    | some pos =>
      rw [hfind] at hmu
      have hmu2 : s.length - pos < f + 1 := hmu
      obtain ⟨-, hposb, -⟩ := strFind_some _ _ _ _ hfind
      rw [hlen14] at hposb
      simp only [hlen14]
      cases hclose : strFind s ">".toList (pos + 14) with
      | none => rfl
      | some endPos =>
        obtain ⟨hend1, hend2, -⟩ := strFind_some _ _ _ _ hclose
        have hlen1 : ">".toList.length = 1 := by decide
        rw [hlen1] at hend2
        simp only
        split_ifs with h1 h2
        · rfl
        · rfl
        · have hlit : findFirst "$<".toList
              (strSubstr s (pos + 14) (endPos - (pos + 14))) = none := by
            rw [strFind_zero] at h1
            simpa using h1
          have htrue : (gen.AddTargetNamespace mf
              (strSubstr s (pos + 14) (endPos - (pos + 14))) target m).1 = true := by
            simpa using h2
          have hname := hclean _ m hlit htrue
          generalize (gen.AddTargetNamespace mf
            (strSubstr s (pos + 14) (endPos - (pos + 14))) target m) = r at hname ⊢
          apply ih
          have hslen : (strReplace s pos (endPos - pos + 1) r.2.1).length
              = pos + r.2.1.length + (s.length - (endPos + 1)) := by
            unfold strReplace
            simp only [List.length_append, List.length_take, List.length_drop]
            have e1 : min pos s.length = pos := by omega
            have e2 : pos + (endPos - pos + 1) = endPos + 1 := by omega
            rw [e1, e2]
          cases hnext : strFind (strReplace s pos (endPos - pos + 1) r.2.1)
              "$<TARGET_NAME:".toList endPos with
          | none =>
            show 0 < f
            omega
          | some pos1 =>
            have hafter := targetName_after_replace s r.2.1 pos endPos pos1
              (by omega) (by omega) hname hnext
            show (strReplace s pos (endPos - pos + 1) r.2.1).length - pos1 < f
            rw [hslen]
            omega

/-- The names the concrete generator substitutes hold no `$<` when the names
it is given hold none. -/
theorem demo_no_open (target : cmTarget) (n : Str) (m : List Str)
    (h : findFirst "$<".toList n = none) :
    findFirst "$<".toList
      (demoGenerator.AddTargetNamespace demoMakefile n target m).2.1 = none := by
  rw [demo_AddTargetNamespace_text]
  split_ifs
  · decide
  · decide
  · decide
  · exact h

/-- C30: the `$<TARGET_PROPERTY:` loop ends, for every generator, makefile and
input, within more iterations than the input has characters. When the names
`AddTargetNamespace` substitutes for names without `$<` hold no `$<`, the
`$<TARGET_NAME:` loop ends within more iterations than its input has
characters, and `ResolveTargetsInGeneratorExpression` returns with every
amount of fuel from some amount on. -/
theorem ResolveTargetsInGeneratorExpression_terminates
    (gen : cmExportFileGenerator) (mf : cmMakefile) (target : cmTarget) :
    (∀ (s : Str) (m : List Str) (fuel : Nat), s.length < fuel →
      (gen.targetPropertyLoop mf target fuel s 0 m).isSome = true)
    ∧ ((∀ n m, findFirst "$<".toList n = none →
        (gen.AddTargetNamespace mf n target m).1 = true →
        findFirst "$<".toList (gen.AddTargetNamespace mf n target m).2.1 = none) →
      (∀ (s : Str) (m : List Str) (fuel : Nat), s.length < fuel →
        (gen.targetNameLoop mf target fuel s 0 m).isSome = true)
      ∧ (∀ (s : Str) (m : List Str), ∃ fuel0, ∀ fuel, fuel0 ≤ fuel →
        (gen.ResolveTargetsInGeneratorExpression mf fuel s target m).isSome = true)) := by
  have hTN : (∀ n m, findFirst "$<".toList n = none →
        (gen.AddTargetNamespace mf n target m).1 = true →
        findFirst "$<".toList (gen.AddTargetNamespace mf n target m).2.1 = none) →
      ∀ (s : Str) (m : List Str) (fuel : Nat), s.length < fuel →
        (gen.targetNameLoop mf target fuel s 0 m).isSome = true := by
    intro hclean s m fuel hfuel
    apply targetNameLoop_total gen mf target hclean
    cases strFind s "$<TARGET_NAME:".toList 0 with
    | none => exact Nat.lt_of_le_of_lt (Nat.zero_le _) hfuel
    | some pos => exact Nat.lt_of_le_of_lt (Nat.sub_le _ _) hfuel
  refine ⟨?_, fun hclean => ⟨hTN hclean, ?_⟩⟩
  · intro s m fuel hfuel
    obtain ⟨y, m1, hloop, -⟩ := TargetPropertyRewrite_total gen mf target s.length s
      (Nat.le_refl _) m fuel hfuel
    rw [hloop]
    rfl
  · intro s m
    obtain ⟨y, m1, -, hrel⟩ := TargetPropertyRewrite_total gen mf target s.length s
      (Nat.le_refl _) m (s.length + 1) (Nat.lt_succ_self _)
    refine ⟨s.length + y.length + 1, ?_⟩
    intro fuel hfuel
    unfold cmExportFileGenerator.ResolveTargetsInGeneratorExpression
    rw [TargetPropertyRewrite_loop gen mf target s y m m1 hrel fuel (by omega)]
    simp only
    have h2 := hTN hclean y m1 fuel (by omega)
    cases hr : gen.targetNameLoop mf target fuel y 0 m1 with
    | none => rw [hr] at h2; cases h2
    | some r => rfl

/-- Witness of C30: in the concrete project the substituted names hold no
`$<`, and the `$<TARGET_NAME:` loop ends on
`$<TARGET_NAME:a>$<TARGET_NAME:b>`. -/
theorem ResolveTargetsInGeneratorExpression_terminates_witness :
    (demoGenerator.targetNameLoop demoMakefile demoA 64
      "$<TARGET_NAME:a>$<TARGET_NAME:b>".toList 0 []).isSome = true :=
  ((ResolveTargetsInGeneratorExpression_terminates demoGenerator demoMakefile demoA).2
    (fun n m h _ => demo_no_open demoA n m h)).1
    "$<TARGET_NAME:a>$<TARGET_NAME:b>".toList [] 64 (by decide)

/-! ## Replace-free-targets mode: the result and when it is returned -/

